import Mathlib

/-!
goNEAT: network nodes and experiment evaluators

A shallow embedding of the phenotype node `NNode` (`neat/network/nnode.go`,
`neat/network/link_graph.go`) and of the evaluators of the XOR and double-pole
experiments (`experiments/xor/XOR.go`, `experiments/pole/cart2pole.go`).

* A Go `float64` is represented by its IEEE-754 binary64 bit pattern. The node
  operations only store and copy such values, which preserves the bit pattern
  exactly. The evaluators compute with them; their arithmetic is defined on the
  bit patterns, with rounding to nearest, ties to even.
* The `int32` activation counter is an `Int` kept in the `int32` range by an
  explicit wrap-around on increment.
* Nodes live in a heap; a `*NNode` is an address into it. An address outside the
  heap behaves like Go's `nil`: dereferencing it is a run-time fault.
-/

namespace GoNEAT

/-! ## Values -/

/-- A Go `float64`, identified by its IEEE-754 binary64 bit pattern. -/
structure Float64 where
  bits : Nat
  deriving DecidableEq

namespace Float64

/-- The literal `0` / `0.0` (positive zero). -/
def zero : Float64 := ⟨0⟩

/-- The literal `1.0`: sign 0, biased exponent 1023, mantissa 0. -/
def one : Float64 := ⟨0x3FF0000000000000⟩

/-- The literal `2.0`: sign 0, biased exponent 1024, mantissa 0. -/
def two : Float64 := ⟨0x4000000000000000⟩

end Float64

/-- Two's-complement wrap-around of a mathematical integer into Go's `int32`. -/
def wrapInt32 (x : Int) : Int := (x + 2147483648) % 4294967296 - 2147483648

/-- Modelled from the spec: the type `NodeNeuronType`, declared outside the
modelled files. The role of a node is one of HIDDEN, INPUT, OUTPUT and BIAS, the
four constants the node code compares against. -/
inductive NodeNeuronType where
  | HiddenNeuron
  | InputNeuron
  | OutputNeuron
  | BiasNeuron
  deriving DecidableEq

/-- Modelled from the spec: the type `NodeActivationType`, declared outside the
modelled files; the tag of an activation function. -/
abbrev NodeActivationType := Nat

/-- An address of an `NNode` in the heap (`*NNode`). -/
abbrev Ptr := Nat

/-- Modelled from the spec: the record `neat.Trait`, declared outside the
modelled files; an identifier and a vector of real-valued parameters. -/
structure Trait where
  Id : Int
  Params : List Float64
  deriving DecidableEq

/-- Modelled from the spec: the record `Link`, declared outside the modelled
files, with the fields the node code and `link_graph.go` read: the weight, the
source node, the target node and the recurrent flag. -/
structure Link where
  ConnectionWeight : Float64
  InNode : Ptr
  OutNode : Ptr
  IsRecurrent : Bool
  deriving DecidableEq

/-- The node record `NNode`. The slices of `*Link` are lists of link values:
no modelled operation mutates a link after it was created. -/
structure NNode where
  Id : Int
  IsActive : Bool
  ActivationType : NodeActivationType
  NeuronType : NodeNeuronType
  ActiveOut : Float64
  ActiveOutTd : Float64
  Activation : Float64
  ActivationsCount : Int
  ActivationSum : Float64
  Incoming : List Link
  Outgoing : List Link
  Trait : Option Trait
  PhenotypeAnalogue : Option Ptr
  Params : List Float64
  lastActivation : Float64
  lastActivation2 : Float64
  deriving DecidableEq

namespace NNode

/-- Go: `saveActivations`. -/
def saveActivations (n : NNode) : NNode :=
  let n1 := { n with lastActivation2 := n.lastActivation }
  { n1 with lastActivation := n1.Activation }

/-- Go: `setActivation`. -/
def setActivation (n : NNode) (input : Float64) : NNode :=
  let n1 := n.saveActivations
  let n2 := { n1 with Activation := input }
  { n2 with ActivationsCount := wrapInt32 (n2.ActivationsCount + 1) }

/-- Go: `GetActiveOut`. -/
def GetActiveOut (n : NNode) : Float64 :=
  if n.ActivationsCount > 0 then n.Activation else Float64.zero

/-- Go: `GetActiveOutTd`. -/
def GetActiveOutTd (n : NNode) : Float64 :=
  if n.ActivationsCount > 1 then n.lastActivation else Float64.zero

/-- Go: `IsSensor`. -/
def IsSensor (n : NNode) : Bool :=
  n.NeuronType == NodeNeuronType.InputNeuron || n.NeuronType == NodeNeuronType.BiasNeuron

/-- Go: `IsNeuron`. -/
def IsNeuron (n : NNode) : Bool :=
  n.NeuronType == NodeNeuronType.HiddenNeuron || n.NeuronType == NodeNeuronType.OutputNeuron

/-- Go: `SensorLoad`; the result pairs the node afterwards with the returned
flag. -/
def SensorLoad (n : NNode) (load : Float64) : NNode × Bool :=
  if n.IsSensor then
    let n1 := n.saveActivations
    let n2 := { n1 with ActivationsCount := wrapInt32 (n1.ActivationsCount + 1) }
    ({ n2 with Activation := load }, true)
  else
    (n, false)

/-- Go: `Flushback`. -/
def Flushback (n : NNode) : NNode :=
  let n1 := { n with ActivationsCount := 0 }
  let n2 := { n1 with Activation := Float64.zero }
  let n3 := { n2 with lastActivation := Float64.zero }
  { n3 with lastActivation2 := Float64.zero }

end NNode

/-- One activation of a node: `setActivation v`, or `SensorLoad v`. -/
inductive ActivationStep where
  | set (v : Float64)
  | load (v : Float64)
  deriving DecidableEq

/-- The value an activation step hands to the node. -/
def ActivationStep.value : ActivationStep → Float64
  | .set v => v
  | .load v => v

/-- The node after one activation step. -/
def NNode.activate (n : NNode) : ActivationStep → NNode
  | .set v => n.setActivation v
  | .load v => (n.SensorLoad v).1

/-- The node after a sequence of activation steps, first step first. -/
def NNode.activateAll (n : NNode) (steps : List ActivationStep) : NNode :=
  steps.foldl NNode.activate n

/-! ## Links and the node heap -/

/-- Modelled from the spec: the constructor `NewLink(weight, innode, outnode,
recurrent)` of `link.go`, which is not among the modelled files. A link records
its source node, its target node, its real weight and its recurrent flag. -/
def NewLink (weight : Float64) (innode outnode : Ptr) (recurrent : Bool) : Link :=
  { ConnectionWeight := weight, InNode := innode, OutNode := outnode,
    IsRecurrent := recurrent }

/-- Go: `Link.From`. -/
def Link.From (l : Link) : Ptr := l.InNode

/-- Go: `Link.To`. -/
def Link.To (l : Link) : Ptr := l.OutNode

/-- Go: `Link.Weight`. -/
def Link.Weight (l : Link) : Float64 := l.ConnectionWeight

/-- The heap of nodes; the address of a node is its position. -/
abbrev Heap := List NNode

/-- Go: `AddIncomingRecurrent`, called on the node at address `n`. The result is
`none` when `n` is not the address of a node (the receiver is dereferenced). -/
def AddIncomingRecurrent (h : Heap) (n inp : Ptr) (weight : Float64) (recur : Bool) :
    Option Heap :=
  match h[n]? with
  | none => none
  | some node =>
    let newLink := NewLink weight inp n recur
    some (h.set n { node with Incoming := node.Incoming ++ [newLink] })

/-- Go: `AddIncoming`, called on the node at address `n`. -/
def AddIncoming (h : Heap) (n inp : Ptr) (weight : Float64) : Option Heap :=
  match h[n]? with
  | none => none
  | some node =>
    let newLink := NewLink weight inp n false
    some (h.set n { node with Incoming := node.Incoming ++ [newLink] })

/-- How a call ends: it returns, it dereferences an address that holds no node,
or the evaluation budget of the model is used up. -/
inductive Run (α : Type) where
  | done (a : α)
  | fault
  | noFuel
  deriving DecidableEq

/-- The message of the error `Depth` creates. -/
def depthLoopError : String := "NNode: Depth can not be determined for network with loop"

/-- The loop of `Depth` over the incoming links, `max` being the running
maximum and `call` the recursive call `l.InNode.Depth(d + 1)`. -/
def depthLoop (call : Ptr → Run (Int × Option String)) :
    List Link → Int → Run (Int × Option String)
  | [], max => .done (max, none)
  | l :: ls, max =>
    match call l.InNode with
    | .done (cur_depth, none) =>
      depthLoop call ls (if cur_depth > max then cur_depth else max)
    | .done (cur_depth, some err) => .done (cur_depth, some err)
    | .fault => .fault
    | .noFuel => .noFuel

/-- Go: `Depth`, with a bound on the nesting of recursive calls. The result
pairs the returned depth with the returned error (`none` for `nil`). -/
def DepthFuel (h : Heap) : Nat → Ptr → Int → Run (Int × Option String)
  | 0, _, _ => .noFuel
  | fuel + 1, n, d =>
    if d > 100 then
      .done (10, some depthLoopError)
    else
      match h[n]? with
      | none => .fault
      | some node =>
        if node.IsSensor then
          .done (d, none)
        else
          depthLoop (fun p => DepthFuel h fuel p (d + 1)) node.Incoming d

/-- Go: `Depth`. A call at depth `d` nests at most `101 - d` further calls, the
innermost of which returns at once, so this budget is never used up. -/
def Depth (h : Heap) (n : Ptr) (d : Int) : Run (Int × Option String) :=
  DepthFuel h ((101 - d).toNat + 1) n d

/-- Every link of every node of the heap comes from a node of the heap. -/
def LinksValid (h : Heap) : Prop :=
  ∀ node ∈ h, ∀ l ∈ node.Incoming, l.InNode < h.length

instance (h : Heap) : Decidable (LinksValid h) := by
  unfold LinksValid; infer_instance

/-- A backward path of `k` links from the node at `n`: it follows incoming links
to their `InNode` and does not continue beyond a sensor. -/
inductive BackPath (h : Heap) : Ptr → Nat → Prop where
  | stop (n : Ptr) : BackPath h n 0
  | link (n : Ptr) (node : NNode) (l : Link) (k : Nat) :
      h[n]? = some node → node.IsSensor = false → l ∈ node.Incoming →
      BackPath h l.InNode k → BackPath h n (k + 1)

/-- An incoming link of the neuron at `a` comes from the neuron at `b`. -/
def NeuronEdge (h : Heap) (a b : Ptr) : Prop :=
  ∃ na nb l, h[a]? = some na ∧ na.IsNeuron = true ∧ l ∈ na.Incoming ∧ l.InNode = b ∧
    h[b]? = some nb ∧ nb.IsNeuron = true

/-- A chain of `k` incoming links between neurons, starting at the neuron at
`n`. -/
inductive NeuronChain (h : Heap) : Ptr → Nat → Prop where
  | stop (n : Ptr) : NeuronChain h n 0
  | link (a b : Ptr) (k : Nat) :
      NeuronEdge h a b → NeuronChain h b k → NeuronChain h a (k + 1)

/-! ## Example nodes -/

/-- A hidden neuron as `NewNetworkNode` creates it, with 0 standing for the tag
of its activation function: no links, no trait, zero activation state. -/
def hiddenNode : NNode :=
  { Id := 0, IsActive := false, ActivationType := 0,
    NeuronType := NodeNeuronType.HiddenNeuron,
    ActiveOut := Float64.zero, ActiveOutTd := Float64.zero, Activation := Float64.zero,
    ActivationsCount := 0, ActivationSum := Float64.zero, Incoming := [], Outgoing := [],
    Trait := none, PhenotypeAnalogue := none, Params := [],
    lastActivation := Float64.zero, lastActivation2 := Float64.zero }

/-- An input sensor as `NewNNode(1, InputNeuron)` creates it. -/
def inputNode : NNode :=
  { hiddenNode with Id := 1, NeuronType := NodeNeuronType.InputNeuron }

/-- A bias sensor as `NewNNode(3, BiasNeuron)` creates it. -/
def biasNode : NNode :=
  { hiddenNode with Id := 3, NeuronType := NodeNeuronType.BiasNeuron }

/-- An output neuron as `NewNNode(4, OutputNeuron)` creates it. -/
def outputNode : NNode :=
  { hiddenNode with Id := 4, NeuronType := NodeNeuronType.OutputNeuron }

/-- A feed-forward heap: the input sensor at address 0, a hidden neuron at 1
fed by the sensor, and an output neuron at 2 fed by the hidden neuron and by
the sensor. -/
def feedForwardHeap : Heap :=
  [inputNode,
   { hiddenNode with Incoming := [NewLink Float64.one 0 1 false] },
   { outputNode with
      Incoming := [NewLink Float64.one 1 2 false, NewLink Float64.two 0 2 false] }]

/-- A heap with one hidden neuron that has a recurrent link from itself. -/
def selfLoopHeap : Heap :=
  [{ hiddenNode with Incoming := [NewLink Float64.one 0 0 true] }]

/-! ## float64 arithmetic

The arithmetic of Go on `float64` is that of IEEE-754 binary64 with rounding to
nearest, ties to even. A finite value is an integer multiple of `2^-1074`; sums,
differences and products of finite values are computed exactly on these
integers and rounded once. Every operation is rounded on its own: a product and
a following sum are not fused. -/

namespace Float64

/-- The sign bit. -/
def signBit (x : Float64) : Bool := decide ((x.bits >>> 63) % 2 = 1)

/-- The biased exponent field (11 bits). -/
def expField (x : Float64) : Nat := (x.bits >>> 52) % 2048

/-- The fraction field (52 bits). -/
def fracField (x : Float64) : Nat := x.bits % (1 <<< 52)

/-- Go: `math.IsNaN`. -/
def isNaN (x : Float64) : Bool := decide (x.expField = 2047 ∧ x.fracField ≠ 0)

/-- Go: `math.IsInf(x, 0)`. -/
def isInf (x : Float64) : Bool := decide (x.expField = 2047 ∧ x.fracField = 0)

/-- The quiet NaN that stands for every NaN result. -/
def nan : Float64 := ⟨0x7FF8000000000001⟩

/-- The magnitude in units of `2^-1074`; for an infinity, a number above every
finite magnitude. -/
def magUnits (x : Float64) : Nat :=
  if x.expField = 0 then x.fracField
  else ((1 <<< 52) + x.fracField) <<< (x.expField - 1)

/-- The value in units of `2^-1074` (both zeros give 0). -/
def units (x : Float64) : Int :=
  if x.signBit then -(x.magUnits : Int) else (x.magUnits : Int)

/-- The number of 64-bit limbs of `n`; `fuel` bounds the recursion and `n` itself
is enough. -/
def limbCount : Nat → Nat → Nat
  | 0, _ => 0
  | fuel + 1, n => if n = 0 then 0 else limbCount fuel (n >>> 64) + 1

/-- The number of binary digits of `n`, for `n < 2^fuel`. -/
def bitCount : Nat → Nat → Nat
  | 0, _ => 0
  | fuel + 1, n => if n = 0 then 0 else bitCount fuel (n >>> 1) + 1

/-- The number of binary digits of `n` (0 for 0): the full limbs below the top
limb, and the digits of the top limb. -/
def bitLength (n : Nat) : Nat :=
  let limbs := limbCount n n
  (limbs - 1) * 64 + bitCount 64 (n >>> ((limbs - 1) * 64))

/-- The bits of the magnitude `a * 2^-(1074 + k)` rounded to nearest, ties to
even: the low `shift` bits are dropped so that at most 53 bits remain and the
result is a multiple of `2^-1074`; a result above the largest finite value is
the infinity. -/
def roundMag (a k : Nat) : Nat :=
  if a = 0 then 0
  else
    let shift := max (bitLength a - 53) k
    let m := a >>> shift
    let rem := a % (1 <<< shift)
    let half := 1 <<< (shift - 1)
    let m1 := if shift = 0 then m
      else if rem > half ∨ (rem = half ∧ m % 2 = 1) then m + 1 else m
    let bits := ((shift - k) <<< 52) + m1
    if bits ≥ 0x7FF0000000000000 then 0x7FF0000000000000 else bits

/-- A magnitude with its sign bit. -/
def withSign (negative : Bool) (magBits : Nat) : Float64 :=
  ⟨if negative then (1 <<< 63) + magBits else magBits⟩

/-- Go: unary `-x`. -/
def neg (x : Float64) : Float64 := withSign (!x.signBit) (x.bits % (1 <<< 63))

/-- Go: `math.Abs`. -/
def abs (x : Float64) : Float64 := ⟨x.bits % (1 <<< 63)⟩

/-- Go: `x + y`. -/
def add (x y : Float64) : Float64 :=
  if x.isNaN || y.isNaN then nan
  else if x.isInf then
    if y.isInf && (x.signBit != y.signBit) then nan else x
  else if y.isInf then y
  else
    let s := x.units + y.units
    if s = 0 then withSign (x.signBit && y.signBit) 0
    else withSign (decide (s < 0)) (roundMag s.natAbs 0)

/-- Go: `x - y`. -/
def sub (x y : Float64) : Float64 := add x (neg y)

/-- Go: `x * y`. -/
def mul (x y : Float64) : Float64 :=
  if x.isNaN || y.isNaN then nan
  else if (x.isInf && y.magUnits = 0) || (y.isInf && x.magUnits = 0) then nan
  else if x.isInf || y.isInf then withSign (x.signBit != y.signBit) 0x7FF0000000000000
  else withSign (x.signBit != y.signBit) (roundMag (x.magUnits * y.magUnits) 1074)

/-- Go: `x < y`. -/
def lt (x y : Float64) : Bool := !(x.isNaN || y.isNaN) && decide (x.units < y.units)

/-- Go: `x <= y`. -/
def le (x y : Float64) : Bool := !(x.isNaN || y.isNaN) && decide (x.units ≤ y.units)

/-- The constant `p / q` (for `q > 0`) as a `float64`: the exact quotient rounded
to nearest, ties to even. The quotient is cut after 1273 binary digits and a
last digit records whether anything was cut off. -/
def ofRatio (p q : Nat) : Float64 :=
  let n := (p <<< 1273) / q
  let sticky := if (p <<< 1273) % q = 0 then 0 else 1
  ⟨roundMag (2 * n + sticky) 200⟩

/-- Go: the conversion `float64(n)` of an integer. -/
def ofInt (n : Int) : Float64 :=
  withSign (decide (n < 0)) (roundMag (n.natAbs <<< 1074) 0)

end Float64

/-! ## The arithmetic of the evaluators

The experiment code is written once, over the operations it uses on `float64`.
`Arith.binary64` interprets them as Go does; `Arith.exact` interprets them in
exact arithmetic over an ordered field. -/

/-- The operations on `float64` that the experiment code uses. -/
structure Arith (R : Type) where
  /-- The constant `p / q`. -/
  ratio : Nat → Nat → R
  /-- The conversion `float64(n)` of an integer. -/
  ofInt : Int → R
  add : R → R → R
  sub : R → R → R
  mul : R → R → R
  /-- Go: `math.Abs`. -/
  abs : R → R
  /-- Go: `math.Pow(x, 2.0)`. -/
  pow2 : R → R
  /-- Go: `x < y`. -/
  lt : R → R → Bool
  /-- Go: `x <= y`. -/
  le : R → R → Bool

/-- Go's `float64` arithmetic. Modelled from the spec: `math.Pow` belongs to the
Go standard library; `math.Pow(x, 2.0)` is the square of `x`, rounded once. -/
def Arith.binary64 : Arith Float64 where
  ratio := Float64.ofRatio
  ofInt := Float64.ofInt
  add := Float64.add
  sub := Float64.sub
  mul := Float64.mul
  abs := Float64.abs
  pow2 := fun x => Float64.mul x x
  lt := Float64.lt
  le := Float64.le

/-- Exact arithmetic over an ordered field. -/
def Arith.exact (R : Type) [LinearOrderedField R] : Arith R where
  ratio := fun p q => (p : R) / (q : R)
  ofInt := fun n => (n : R)
  add := fun x y => x + y
  sub := fun x y => x - y
  mul := fun x y => x * y
  abs := fun x => |x|
  pow2 := fun x => x ^ 2
  lt := fun x y => decide (x < y)
  le := fun x y => decide (x ≤ y)

/-! ## Trait parameters and long chains -/

/-- The loop `for i, p := range t.Params { n.Params[i] = p }` of `DeriveTrait`,
from index `i` on; `none` when an index is out of range. -/
def copyTraitParams : List Float64 → Nat → List Float64 → Option (List Float64)
  | [], _, params => some params
  | p :: ps, i, params =>
    if i < params.length then copyTraitParams ps (i + 1) (params.set i p) else none

/-- Go: `DeriveTrait`. The constant `neat.Num_trait_params` is declared outside
the modelled files and is a parameter. The result pairs the node with the trait
as they are after the call; it is `none` when the call faults. -/
def NNode.DeriveTrait (numTraitParams : Nat) (n : NNode) (t : Option GoNEAT.Trait) :
    Option (NNode × Option GoNEAT.Trait) :=
  let n1 := { n with Params := List.replicate numTraitParams Float64.zero }
  match t with
  | none => some (n1, none)
  | some tr =>
    match copyTraitParams tr.Params 0 n1.Params with
    | none => none
    | some params => some ({ n1 with Params := params }, some tr)

/-- A step of the backward graph: the node at `a` is not a sensor and one of its
incoming links comes from `b`. -/
def BackEdge (h : Heap) (a b : Ptr) : Prop :=
  ∃ na l, h[a]? = some na ∧ na.IsSensor = false ∧ l ∈ na.Incoming ∧ l.InNode = b

/-- The backward graph of the node at `n` has no cycle. -/
def BackwardAcyclic (h : Heap) (n : Ptr) : Prop :=
  ∀ c, Relation.ReflTransGen (BackEdge h) n c → ¬ Relation.TransGen (BackEdge h) c c

/-- A feed-forward chain of `links` links: the neuron at address `i < links` has
one incoming link, from the node at `i + 1`, and the node at address `links` is
an input sensor. -/
def chainHeap (links : Nat) : Heap :=
  (List.range (links + 1)).map fun i =>
    if i < links then
      { hiddenNode with Id := i, Incoming := [NewLink Float64.one (i + 1) i false] }
    else
      { inputNode with Id := i }

/-! ## The double-pole experiment (`experiments/pole/cart2pole.go`) -/

/-- Modelled from the spec: the record `genetics.Organism`, declared outside the
modelled files, as far as the evaluators use it: the fitness, the error, the
winner flag, and the value of `Phenotype.Complexity()`. -/
structure Organism (R : Type) where
  Fitness : R
  Error : R
  IsWinner : Bool
  PhenotypeComplexity : Int
  deriving DecidableEq

/-- The record `CartPole`; `state` and `jiggleStep` are the arrays of 6 and of
1000 values. -/
structure CartPole (R : Type) where
  maxFitness : R
  isMarkov : Bool
  nonMarkovLong : Bool
  generalizationTest : Bool
  state : Fin 6 → R
  jiggleStep : Fin 1000 → R
  length2 : R
  massPole2 : R
  minInc : R
  poleInc : R
  massInc : R
  balanced_sum : Int
  cartpos_sum : R
  cartv_sum : R
  polepos_sum : R
  polev_sum : R

/-- Go: `newCartPole`; the fields it does not name are zero. -/
def newCartPole {R : Type} (A : Arith R) (markov : Bool) : CartPole R :=
  { maxFitness := A.ratio 100000 1,
    isMarkov := markov,
    nonMarkovLong := false,
    generalizationTest := false,
    state := fun _ => A.ratio 0 1,
    jiggleStep := fun _ => A.ratio 0 1,
    length2 := A.ratio 5 100,
    massPole2 := A.ratio 1 100,
    minInc := A.ratio 1 1000,
    poleInc := A.ratio 5 100,
    massInc := A.ratio 1 100,
    balanced_sum := 0,
    cartpos_sum := A.ratio 0 1,
    cartv_sum := A.ratio 0 1,
    polepos_sum := A.ratio 0 1,
    polev_sum := A.ratio 0 1 }

/-- The constant expression `math.Pi / 180.0` of `resetState`, `math.Pi` being the
decimal constant of the Go standard library. -/
def oneDegree {R : Type} (A : Arith R) : R :=
  A.ratio 314159265358979323846264338327950288419716939937510582097494459 (180 * 10 ^ 62)

/-- Go: `resetState`. -/
def CartPole.resetState {R : Type} (A : Arith R) (cp : CartPole R) : CartPole R :=
  let cp1 :=
    if cp.isMarkov then
      { cp with cartpos_sum := A.ratio 0 1, cartv_sum := A.ratio 0 1,
                polepos_sum := A.ratio 0 1, polev_sum := A.ratio 0 1 }
    else cp
  let cp2 := { cp1 with balanced_sum := 0 }
  if cp2.generalizationTest then
    let s := cp2.state
    let s := Function.update s 0 (A.ratio 0 1)
    let s := Function.update s 1 (A.ratio 0 1)
    let s := Function.update s 3 (A.ratio 0 1)
    let s := Function.update s 4 (A.ratio 0 1)
    let s := Function.update s 5 (A.ratio 0 1)
    { cp2 with state := Function.update s 2 (oneDegree A) }
  else
    let s := cp2.state
    let s := Function.update s 4 (A.ratio 0 1)
    { cp2 with state := Function.update s 5 (A.ratio 0 1) }

/-- Go: the array `state_vals` of `GenerationEvaluate`. -/
def state_vals {R : Type} (A : Arith R) (i : Fin 5) : R :=
  match i with
  | 0 => A.ratio 5 100
  | 1 => A.ratio 25 100
  | 2 => A.ratio 5 10
  | 3 => A.ratio 75 100
  | 4 => A.ratio 95 100

/-- Go: the body of the innermost loop of the generalization test in
`GenerationEvaluate` up to the call of `orgEvaluate`: the evaluator writes the
grid point into the state and sets `generalizationTest`. -/
def setGridPoint {R : Type} (A : Arith R) (cp : CartPole R) (s0c s1c s2c s3c : Fin 5) :
    CartPole R :=
  let s := cp.state
  let s := Function.update s 0
    (A.sub (A.mul (state_vals A s0c) (A.ratio 432 100)) (A.ratio 216 100))
  let s := Function.update s 1
    (A.sub (A.mul (state_vals A s1c) (A.ratio 270 100)) (A.ratio 135 100))
  let s := Function.update s 2
    (A.sub (A.mul (state_vals A s2c) (A.ratio 12566304 100000000))
      (A.ratio 6283152 100000000))
  let s := Function.update s 3
    (A.sub (A.mul (state_vals A s3c) (A.ratio 30019504 100000000))
      (A.ratio 15009752 100000000))
  let s := Function.update s 4 (A.ratio 0 1)
  let s := Function.update s 5 (A.ratio 0 1)
  { cp with state := s, generalizationTest := true }

/-- Go: `orgEvaluate`. The simulation `evalNet` of the organism's network is a
parameter: it returns the fitness and the cart-pole as it leaves it. The check
for a damaged organism only writes to the log and is left out. The result holds
the cart-pole, the organism and the returned flag. -/
def orgEvaluate {R : Type} (A : Arith R) (evalNet : CartPole R → R × CartPole R)
    (cp : CartPole R) (organism : Organism R) : CartPole R × Organism R × Bool :=
  let r := evalNet cp
  let cp1 := r.2
  let org1 := { organism with Fitness := r.1 }
  let org2 :=
    if cp1.isMarkov then
      if A.le cp1.maxFitness org1.Fitness then { org1 with IsWinner := true } else org1
    else if cp1.nonMarkovLong then
      if A.le (A.ratio 99999 1) org1.Fitness then { org1 with IsWinner := true } else org1
    else if cp1.generalizationTest then
      if A.le (A.ratio 999 1) org1.Fitness then { org1 with IsWinner := true } else org1
    else
      { org1 with IsWinner := false }
  (cp1, org2, org2.IsWinner)

/-- The cart-pole of a non-Markov run during the generalization test. -/
def generalizationCartPole : CartPole Float64 :=
  { newCartPole Arith.binary64 false with generalizationTest := true }

/-- An organism that the long test has marked as winner, with the fitness 100000
of that test. -/
def longTestWinner : Organism Float64 :=
  { Fitness := Float64.ofRatio 100000 1, Error := Float64.zero, IsWinner := true,
    PhenotypeComplexity := 0 }

/-- A simulation in which the poles stay balanced for 5 steps only: it resets the
state and returns the fitness 5. -/
def fiveStepRun (cp : CartPole Float64) : Float64 × CartPole Float64 :=
  (Float64.ofRatio 5 1, cp.resetState Arith.binary64)

/-- The cart-pole a previous evaluation left with the cart at position 1.0 and
seven balanced steps, in an ordinary non-Markov run. -/
def usedCartPole : CartPole Float64 :=
  { newCartPole Arith.binary64 false with
    state := Function.update (fun _ => Float64.zero) 0 Float64.one,
    balanced_sum := 7 }

/-! ## The XOR experiment (`experiments/xor/XOR.go`) -/

/-- Go: the constant `precision`. -/
def precision {R : Type} (A : Arith R) : R := A.ratio 5 10

/-- Go: the constant expression `1 - precision`, evaluated exactly when the
program is compiled: 0.5. -/
def oneMinusPrecision {R : Type} (A : Arith R) : R := A.ratio 5 10

/-- Go: the sum `error_sum` that `xor_evaluate` computes from the four outputs. -/
def xorErrorSum {R : Type} (A : Arith R) (out : Fin 4 → R) : R :=
  A.add
    (A.add
      (A.add (A.abs (out 0)) (A.abs (A.sub (A.ratio 1 1) (out 1))))
      (A.abs (A.sub (A.ratio 1 1) (out 2))))
    (A.abs (out 3))

/-- Go: the condition under which `xor_evaluate` marks the organism as winner:
`out[0] < precision && out[1] >= 1 - precision && out[2] >= 1 - precision &&
out[3] < precision`. -/
def xorWinner {R : Type} (A : Arith R) (out : Fin 4 → R) : Bool :=
  A.lt (out 0) (precision A) && A.le (oneMinusPrecision A) (out 1) &&
    A.le (oneMinusPrecision A) (out 2) && A.lt (out 3) (precision A)

/-- Go: `xor_evaluate` from the computation of the error on, with the outcome of
the activations as parameters: the flag `success` of the last activation and
the four outputs `out`. The result holds the organism and the returned flag. -/
def xor_evaluate {R : Type} (A : Arith R) (organism : Organism R) (success : Bool)
    (out : Fin 4 → R) : Organism R × Bool :=
  let org1 :=
    if success then
      let error_sum := xorErrorSum A out
      let o := { organism with Fitness := A.pow2 (A.sub (A.ratio 4 1) error_sum) }
      { o with Error := error_sum }
    else
      { organism with Fitness := A.ratio 1 1000 }
  if xorWinner A out then
    ({ org1 with IsWinner := true }, true)
  else
    ({ org1 with IsWinner := false }, false)

/-- An organism before its first evaluation. -/
def freshOrganism {R : Type} (A : Arith R) : Organism R :=
  { Fitness := A.ratio 0 1, Error := A.ratio 0 1, IsWinner := false,
    PhenotypeComplexity := 0 }

/-- Four outputs as the array `out`. -/
def outputs {R : Type} (o0 o1 o2 o3 : R) (i : Fin 4) : R :=
  match i with
  | 0 => o0
  | 1 => o1
  | 2 => o2
  | 3 => o3

/-! ## Generation statistics (`xor_epoch`) -/

/-- Modelled from the spec: the record `genetics.Species`, declared outside the
modelled files, as far as `xor_epoch` reads it: the age and the member
organisms. -/
structure Species (R : Type) where
  Age : Int
  Organisms : List (Organism R)

/-- Modelled from the spec: the record `experiments.Epoch`, declared outside the
modelled files, as far as the statistics of `xor_epoch` use it. `Best` is the
organism the pointer refers to, `none` for `nil`. -/
structure Epoch (R : Type) where
  Solved : Bool
  Best : Option (Organism R)
  Diversity : Int
  Age : List R
  Compexity : List R
  Fitness : List R

/-- Go: the loop `for i, curr_species := range pop.Species` of `xor_epoch`, from
index `i` on, with the running value of `max_fitness`. The result is `none` when
a species has no organism (`Organisms[0]` is out of range). -/
def fillSpeciesLoop {R : Type} (A : Arith R) :
    List (Species R) → Nat → R → Epoch R → Option (Epoch R)
  | [], _, _, epoch => some epoch
  | curr_species :: rest, i, max_fitness, epoch =>
    match curr_species.Organisms with
    | [] => none
    | org0 :: _ =>
      let e1 := { epoch with Age := epoch.Age.set i (A.ofInt curr_species.Age) }
      let e2 := { e1 with
        Compexity := e1.Compexity.set i (A.ofInt org0.PhenotypeComplexity) }
      let e3 := { e2 with Fitness := e2.Fitness.set i org0.Fitness }
      if !e3.Solved && A.lt max_fitness org0.Fitness then
        fillSpeciesLoop A rest (i + 1) org0.Fitness { e3 with Best := some org0 }
      else
        fillSpeciesLoop A rest (i + 1) max_fitness e3

/-- Go: the statistics part of `xor_epoch` (from `max_fitness := 0.0` to the end
of the loop over the species), on the species of the population. -/
def fillStatistics {R : Type} (A : Arith R) (species : List (Species R))
    (epoch : Epoch R) : Option (Epoch R) :=
  let e1 := { epoch with Diversity := (species.length : Int) }
  let e2 := { e1 with Age := List.replicate species.length (A.ratio 0 1) }
  let e3 := { e2 with Compexity := List.replicate species.length (A.ratio 0 1) }
  let e4 := { e3 with Fitness := List.replicate species.length (A.ratio 0 1) }
  fillSpeciesLoop A species 0 (A.ratio 0 1) e4

/-- An organism with the given fitness. -/
def organismWithFitness (fitness : Float64) : Organism Float64 :=
  { Fitness := fitness, Error := Float64.zero, IsWinner := false,
    PhenotypeComplexity := 3 }

/-- A population of one species of age 1 whose two organisms have the fitness 1.0
and 2.0, in this order. -/
def unsortedSpecies : List (Species Float64) :=
  [{ Age := 1,
     Organisms := [organismWithFitness Float64.one, organismWithFitness Float64.two] }]

/-- The record of a generation before the evaluation: not solved, no best
organism, empty statistics. -/
def emptyEpoch : Epoch Float64 :=
  { Solved := false, Best := none, Diversity := 0, Age := [], Compexity := [],
    Fitness := [] }

/-! ## Flush check and the final save step -/

/-- The errors `FlushbackCheck` creates, named after the field their message
reports; the text of the message, which formats the node, is not modelled. -/
inductive FlushError where
  | activationCount
  | activation
  | lastActivation
  | lastActivation2
  deriving DecidableEq

/-- Go: `FlushbackCheck`; `none` stands for the `nil` error. -/
def NNode.FlushbackCheck (n : NNode) : Option FlushError :=
  if n.ActivationsCount > 0 then some FlushError.activationCount
  else if Float64.lt Float64.zero n.Activation then some FlushError.activation
  else if Float64.lt Float64.zero n.lastActivation then some FlushError.lastActivation
  else if Float64.lt Float64.zero n.lastActivation2 then some FlushError.lastActivation2
  else none

/-- What the final save step of `main` does, in order. -/
inductive SaveAction where
  /-- `log.Fatal("Failed to create file for experiment results", err)`. -/
  | fatalCreate
  /-- The call `expt.Write(expResFile)`. -/
  | writeData
  /-- `log.Fatal("Failed to save experiment results", err)`. -/
  | fatalWrite
  deriving DecidableEq

/-- Go: the statement of `main` that saves the experiment data (`executor.go`).
`createErr` is the error `os.Create` returns (`none` for `nil`) and `writeErr`
the error `expt.Write` returns when it is called. `log.Fatal` ends the program. -/
def saveExperimentData (createErr writeErr : Option String) : List SaveAction :=
  if createErr = none then
    [SaveAction.fatalCreate]
  else if writeErr ≠ none then
    [SaveAction.writeData, SaveAction.fatalWrite]
  else
    [SaveAction.writeData]

/-! ## The cart-pole simulation (`experiments/pole/cart2pole.go`) -/

/-- Two's-complement wrap-around of a mathematical integer into Go's `int`
(64 bits). -/
def wrapInt64 (x : Int) : Int :=
  (x + 9223372036854775808) % 18446744073709551616 - 9223372036854775808

namespace Float64

/-- Go: `x / y`, the exact quotient rounded once. -/
def div (x y : Float64) : Float64 :=
  if x.isNaN || y.isNaN then nan
  else if x.isInf then
    if y.isInf then nan else withSign (x.signBit != y.signBit) 0x7FF0000000000000
  else if y.isInf then withSign (x.signBit != y.signBit) 0
  else if y.magUnits = 0 then
    if x.magUnits = 0 then nan else withSign (x.signBit != y.signBit) 0x7FF0000000000000
  else withSign (x.signBit != y.signBit) (ofRatio x.magUnits y.magUnits).bits

/-- Go: the conversion `int(x)`, which drops the fraction. For a NaN and for a
value outside of the 64-bit integers the result depends on the machine; it is
the smallest integer here, as on amd64. -/
def toInt (x : Float64) : Int :=
  if x.isNaN || decide (x.magUnits >>> 1074 ≥ 9223372036854775808) then
    -9223372036854775808
  else if x.signBit then -((x.magUnits >>> 1074 : Nat) : Int)
  else ((x.magUnits >>> 1074 : Nat) : Int)

end Float64

/-- The further operations of the cart-pole simulation. -/
structure PoleArith (R : Type) extends Arith R where
  /-- Go: unary `-x`. -/
  neg : R → R
  div : R → R → R
  /-- Go: the conversion `int(x)`. -/
  toInt : R → Int
  /-- Go: `math.Cos`. -/
  cos : R → R
  /-- Go: `math.Sin`. -/
  sin : R → R

/-- Go's `float64` arithmetic; `math.Cos` and `math.Sin` belong to the Go
standard library and are parameters. -/
def PoleArith.binary64 (cos sin : Float64 → Float64) : PoleArith Float64 :=
  { Arith.binary64 with
    neg := Float64.neg, div := Float64.div, toInt := Float64.toInt, cos := cos, sin := sin }

/-- Exact arithmetic over an ordered field with a floor function; the cosine and
the sine are parameters. The conversion to an integer drops the fraction, and
gives the smallest 64-bit integer outside of the 64-bit integers. -/
def PoleArith.exact (R : Type) [LinearOrderedField R] [FloorRing R] (cos sin : R → R) :
    PoleArith R :=
  { Arith.exact R with
    neg := fun x => -x,
    div := fun x y => x / y,
    toInt := fun x =>
      if ⌊|x|⌋ ≥ 9223372036854775808 then -9223372036854775808
      else if x < 0 then -⌊|x|⌋ else ⌊|x|⌋,
    cos := cos, sin := sin }

/-- Go: `for i := 0; i <= 5; i++ { body }`. -/
def forIndex6 {σ : Type} (body : Fin 6 → σ → σ) (s : σ) : σ :=
  body 5 (body 4 (body 3 (body 2 (body 1 (body 0 s)))))

/-- The array `derivs` of `step` when the function returns. The parameter has
the array type `[6]float64`, so this array is the function's own copy of the
argument. An expression of constants only is evaluated exactly when the program
is compiled: `LENGTH_1 * MASSPOLE_1` is 0.05 and `0.75 * MASSPOLE_1` is 0.075. A
negative constant is the negation of the positive one. -/
def CartPole.stepDerivs {R : Type} (P : PoleArith R) (cp : CartPole R) (action : R)
    (derivs : Fin 6 → R) : Fin 6 → R :=
  let MUP := P.ratio 2 1000000
  let GRAVITY := P.neg (P.ratio 98 10)
  let MASSCART := P.ratio 1 1
  let MASSPOLE_1 := P.ratio 1 10
  let LENGTH_1 := P.ratio 5 10
  let FORCE_MAG := P.ratio 10 1
  let force := P.mul (P.mul (P.sub action (P.ratio 5 10)) FORCE_MAG) (P.ratio 2 1)
  let cos_theta_1 := P.cos (cp.state 2)
  let sin_theta_1 := P.sin (cp.state 2)
  let g_sin_theta_1 := P.mul GRAVITY sin_theta_1
  let cos_theta_2 := P.cos (cp.state 4)
  let sin_theta_2 := P.sin (cp.state 4)
  let g_sin_theta_2 := P.mul GRAVITY sin_theta_2
  let ml_1 := P.ratio 5 100
  let ml_2 := P.mul cp.length2 cp.massPole2
  let temp_1 := P.div (P.mul MUP (cp.state 3)) ml_1
  let temp_2 := P.div (P.mul MUP (cp.state 5)) ml_2
  let fi_1 := P.add (P.mul (P.mul (P.mul ml_1 (cp.state 3)) (cp.state 3)) sin_theta_1)
    (P.mul (P.mul (P.ratio 75 1000) cos_theta_1) (P.add temp_1 g_sin_theta_1))
  let fi_2 := P.add (P.mul (P.mul (P.mul ml_2 (cp.state 5)) (cp.state 5)) sin_theta_2)
    (P.mul (P.mul (P.mul (P.ratio 75 100) cp.massPole2) cos_theta_2)
      (P.add temp_2 g_sin_theta_2))
  let mi_1 := P.mul MASSPOLE_1
    (P.sub (P.ratio 1 1) (P.mul (P.mul (P.ratio 75 100) cos_theta_1) cos_theta_1))
  let mi_2 := P.mul cp.massPole2
    (P.sub (P.ratio 1 1) (P.mul (P.mul (P.ratio 75 100) cos_theta_2) cos_theta_2))
  let d := Function.update derivs 1
    (P.div (P.add (P.add force fi_1) fi_2) (P.add (P.add mi_1 mi_2) MASSCART))
  let d := Function.update d 3
    (P.div
      (P.mul (P.neg (P.ratio 75 100))
        (P.add (P.add (P.mul (d 1) cos_theta_1) g_sin_theta_1) temp_1))
      LENGTH_1)
  Function.update d 5
    (P.div
      (P.mul (P.neg (P.ratio 75 100))
        (P.add (P.add (P.mul (d 1) cos_theta_2) g_sin_theta_2) temp_2))
      cp.length2)

/-- Go: the call `cp.step(action, derivs)` as its caller sees it: the cart-pole
and the caller's array after the call. The function only reads the cart-pole
and writes to its own copy of the array (`stepDerivs`), which is lost when it
returns. -/
def CartPole.step {R : Type} (P : PoleArith R) (cp : CartPole R) (action : R)
    (derivs : Fin 6 → R) : CartPole R × (Fin 6 → R) :=
  let _lost := cp.stepDerivs P action derivs
  (cp, derivs)

/-- Go: `rk4`. The array `dydx` is the function's own copy and is only read. -/
def CartPole.rk4 {R : Type} (P : PoleArith R) (cp : CartPole R) (f : R)
    (dydx : Fin 6 → R) (tau : R) : CartPole R :=
  let dym : Fin 6 → R := fun _ => P.ratio 0 1
  let dyt : Fin 6 → R := fun _ => P.ratio 0 1
  let yt : Fin 6 → R := fun _ => P.ratio 0 1
  let hh := P.mul tau (P.ratio 5 10)
  let h6 := P.div tau (P.ratio 6 1)
  let yt := forIndex6
    (fun i yt => Function.update yt i (P.add (cp.state i) (P.mul hh (dydx i)))) yt
  let r := cp.step P f dyt
  let cp := r.1
  let dyt := r.2
  let dyt := Function.update dyt 0 (yt 1)
  let dyt := Function.update dyt 2 (yt 3)
  let dyt := Function.update dyt 4 (yt 5)
  let yt := forIndex6
    (fun i yt => Function.update yt i (P.add (cp.state i) (P.mul hh (dyt i)))) yt
  let r := cp.step P f dym
  let cp := r.1
  let dym := r.2
  let dym := Function.update dym 0 (yt 1)
  let dym := Function.update dym 2 (yt 3)
  let dym := Function.update dym 4 (yt 5)
  let ytdym := forIndex6
    (fun i (s : (Fin 6 → R) × (Fin 6 → R)) =>
      let yt1 := Function.update s.1 i (P.add (cp.state i) (P.mul tau (s.2 i)))
      (yt1, Function.update s.2 i (P.add (s.2 i) (dyt i))))
    (yt, dym)
  let yt := ytdym.1
  let dym := ytdym.2
  let r := cp.step P f dyt
  let cp := r.1
  let dyt := r.2
  let dyt := Function.update dyt 0 (yt 1)
  let dyt := Function.update dyt 2 (yt 3)
  let dyt := Function.update dyt 4 (yt 5)
  forIndex6
    (fun i (cp : CartPole R) =>
      { cp with state := (Function.update cp.state i
          (P.add (cp.state i)
            (P.mul h6 (P.add (P.add (dydx i) (dyt i)) (P.mul (P.ratio 2 1) (dym i)))))) })
    cp

/-- Go: the constant `thirty_six_degrees`, `36 * math.Pi / 180.0`. -/
def thirty_six_degrees {R : Type} (A : Arith R) : R :=
  A.ratio (36 * 314159265358979323846264338327950288419716939937510582097494459)
    (180 * 10 ^ 62)

/-- Go: `outsideBounds`. -/
def CartPole.outsideBounds {R : Type} (P : PoleArith R) (cp : CartPole R) : Bool :=
  let failureAngle := thirty_six_degrees P.toArith
  P.lt (cp.state 0) (P.neg (P.ratio 24 10)) ||
    P.lt (P.ratio 24 10) (cp.state 0) ||
    P.lt (cp.state 2) (P.neg failureAngle) ||
    P.lt failureAngle (cp.state 2) ||
    P.lt (cp.state 4) (P.neg failureAngle) ||
    P.lt failureAngle (cp.state 4)

/-- Go: the index `int(step_num) - 1` at which `performAction` writes to
`jiggleStep`. -/
def jiggleIndex {R : Type} (P : PoleArith R) (step_num : R) : Int :=
  wrapInt64 (P.toInt step_num - 1)

/-- Go: the two rounds of `for i := 0; i < 2; i++` at the start of
`performAction`, `n` of them. -/
def CartPole.integrate {R : Type} (P : PoleArith R) (output : R) :
    Nat → CartPole R × (Fin 6 → R) → CartPole R × (Fin 6 → R)
  | 0, s => s
  | n + 1, s =>
    let cp := s.1
    let dydx := s.2
    let dydx := Function.update dydx 0 (cp.state 1)
    let dydx := Function.update dydx 2 (cp.state 3)
    let dydx := Function.update dydx 4 (cp.state 5)
    let r := cp.step P output dydx
    let cp := r.1
    let dydx := r.2
    let cp := cp.rk4 P output dydx (P.ratio 1 100)
    CartPole.integrate P output n (cp, dydx)

/-- Go: the four statements of `performAction` after the comment "Record this
state". -/
def CartPole.recordSums {R : Type} (P : PoleArith R) (cp : CartPole R) : CartPole R :=
  let cp := { cp with cartpos_sum := (P.add cp.cartpos_sum (P.abs (cp.state 0))) }
  let cp := { cp with cartv_sum := (P.add cp.cartv_sum (P.abs (cp.state 1))) }
  let cp := { cp with polepos_sum := (P.add cp.polepos_sum (P.abs (cp.state 2))) }
  { cp with polev_sum := (P.add cp.polev_sum (P.abs (cp.state 3))) }

/-- Go: the statement `if step_num <= 1000 { cp.jiggleStep[int(step_num) - 1] =
... }` of `performAction`. The result is `none` when the index is out of
range. -/
def CartPole.writeJiggle {R : Type} (P : PoleArith R) (cp : CartPole R) (step_num : R) :
    Option (CartPole R) :=
  if P.le step_num (P.ratio 1000 1) then
    if h : 0 ≤ jiggleIndex P step_num ∧ jiggleIndex P step_num < 1000 then
      some { cp with
        jiggleStep := (Function.update cp.jiggleStep
          ⟨(jiggleIndex P step_num).toNat, by omega⟩
          (P.add (P.add (P.add (P.abs (cp.state 0)) (P.abs (cp.state 1)))
            (P.abs (cp.state 2))) (P.abs (cp.state 3)))) }
    else none
  else some cp

/-- Go: the statement `if !cp.outsideBounds() { cp.balanced_sum++ }` of
`performAction`. -/
def CartPole.countBalanced {R : Type} (P : PoleArith R) (cp : CartPole R) : CartPole R :=
  if !cp.outsideBounds P then { cp with balanced_sum := (wrapInt64 (cp.balanced_sum + 1)) }
  else cp

/-- Go: `performAction`. The result is `none` when the index of the write to
`jiggleStep` is out of range. -/
def CartPole.performAction {R : Type} (P : PoleArith R) (cp : CartPole R)
    (output step_num : R) : Option (CartPole R) :=
  let dydx : Fin 6 → R := fun _ => P.ratio 0 1
  let cp := (CartPole.integrate P output 2 (cp, dydx)).1
  let cp := cp.recordSums P
  match cp.writeJiggle P step_num with
  | none => none
  | some cp => some (cp.countBalanced P)

/-- The network as far as `evalNet` uses it. The network belongs to a package
outside of the experiment: its state and its three operations are parameters.
`Activate` returns the new state and the flag `res`; `Output0` is the value
`net.Outputs[0].Activation`, `none` when the network has no output node. -/
structure NetModel (R S : Type) where
  LoadSensors : S → List R → S
  Activate : S → S × Bool
  Output0 : S → Option R

/-- How a loop of `evalNet` ends: by a `return` with a value from inside the
loop, or by leaving the loop (its condition fails, or `break`) with the current
value of `steps`. -/
inductive LoopEnd (R : Type) where
  | returned (value : R)
  | left (steps : R)

/-- Go: the entries the Markov case of `evalNet` writes to the slice `input`. -/
def markovInput {R : Type} (P : PoleArith R) (cp : CartPole R) : List R :=
  [P.div (cp.state 0) (P.ratio 48 10), P.div (cp.state 1) (P.ratio 2 1),
    P.div (cp.state 2) (P.ratio 52 100), P.div (cp.state 3) (P.ratio 2 1),
    P.div (cp.state 4) (P.ratio 52 100), P.div (cp.state 5) (P.ratio 2 1),
    P.ratio 5 10]

/-- Go: the slice `input` in the non-Markov case of `evalNet`: the slice has 7
entries in both cases; this case writes the first 4 and leaves 0 in the
others. -/
def nonMarkovInput {R : Type} (P : PoleArith R) (cp : CartPole R) : List R :=
  [P.div (cp.state 0) (P.ratio 48 10), P.div (cp.state 2) (P.ratio 52 100),
    P.div (cp.state 4) (P.ratio 52 100), P.ratio 5 10,
    P.ratio 0 1, P.ratio 0 1, P.ratio 0 1]

/-- Go: the loop of the Markov case of `evalNet`. -/
def markovLoop {R S : Type} (P : PoleArith R) (N : NetModel R S) :
    Nat → CartPole R → S → R → Run (LoopEnd R × CartPole R × S)
  | 0, _, _, _ => Run.noFuel
  | fuel + 1, cp, net, steps =>
    if P.lt steps cp.maxFitness then
      let net := N.LoadSensors net (markovInput P cp)
      let r := N.Activate net
      let net := r.1
      if !r.2 then Run.done (LoopEnd.returned (P.ratio 1 1), cp, net)
      else
        match N.Output0 net with
        | none => Run.fault
        | some output =>
          match cp.performAction P output steps with
          | none => Run.fault
          | some cp =>
            if cp.outsideBounds P then Run.done (LoopEnd.left steps, cp, net)
            else markovLoop P N fuel cp net (P.add steps (P.ratio 1 1))
    else Run.done (LoopEnd.left steps, cp, net)

/-- Go: the loop of the non-Markov case of `evalNet`. -/
def nonMarkovLoop {R S : Type} (P : PoleArith R) (N : NetModel R S) (non_markov_max : R) :
    Nat → CartPole R → S → R → Run (LoopEnd R × CartPole R × S)
  | 0, _, _, _ => Run.noFuel
  | fuel + 1, cp, net, steps =>
    if P.lt steps non_markov_max then
      let net := N.LoadSensors net (nonMarkovInput P cp)
      let r := N.Activate net
      let net := r.1
      if !r.2 then Run.done (LoopEnd.returned (P.ratio 1 10000), cp, net)
      else
        match N.Output0 net with
        | none => Run.fault
        | some output =>
          match cp.performAction P output steps with
          | none => Run.fault
          | some cp =>
            if cp.outsideBounds P then Run.done (LoopEnd.left steps, cp, net)
            else nonMarkovLoop P N non_markov_max fuel cp net (P.add steps (P.ratio 1 1))
    else Run.done (LoopEnd.left steps, cp, net)

/-- The values of `count` in `for count := lo; count <= hi; count++`, for `hi`
below the largest integer. -/
def countRange (lo hi : Int) : List Int :=
  (List.range (hi + 1 - lo).toNat).map (fun (k : Nat) => lo + (k : Int))

/-- The values of `count` in the loop that sums the last 100 jiggle values:
from `int(steps - 99.0 - 2.0)` to `int(steps - 2.0)`. -/
def jiggleCounts {R : Type} (P : PoleArith R) (steps : R) : List Int :=
  countRange (P.toInt (P.sub (P.sub steps (P.ratio 99 1)) (P.ratio 2 1)))
    (P.toInt (P.sub steps (P.ratio 2 1)))

/-- Go: `jiggle_total += cp.jiggleStep[count]` for the given values of `count`;
`none` when an index is out of range. -/
def jiggleSum {R : Type} (P : PoleArith R) (cp : CartPole R) : List Int → R → Option R
  | [], jiggle_total => some jiggle_total
  | count :: rest, jiggle_total =>
    if h : 0 ≤ count ∧ count < 1000 then
      jiggleSum P cp rest (P.add jiggle_total (cp.jiggleStep ⟨count.toNat, by omega⟩))
    else none

/-- Go: the part of `evalNet` after the loop of the non-Markov case; `none` when
an index of `jiggleStep` is out of range. The constant expression `0.9 * 0.75`
is 0.675. -/
def nonMarkovFitness {R : Type} (P : PoleArith R) (cp : CartPole R) (steps : R) :
    Option R :=
  if cp.generalizationTest then some (P.ofInt cp.balanced_sum)
  else
    let jiggle_total : Option R :=
      if P.lt (P.ratio 100 1) steps && !cp.nonMarkovLong then
        jiggleSum P cp (jiggleCounts P steps) (P.ratio 0 1)
      else some (P.ratio 0 1)
    match jiggle_total with
    | none => none
    | some jiggle_total =>
      if !cp.nonMarkovLong then
        if cp.balanced_sum > 100 then
          some (P.add
            (P.div (P.mul (P.ratio 1 10) (P.ofInt cp.balanced_sum)) (P.ratio 1000 1))
            (P.div (P.ratio 675 1000) jiggle_total))
        else
          some (P.div (P.mul (P.ratio 1 10) (P.ofInt cp.balanced_sum)) (P.ratio 1000 1))
      else some steps

/-- Go: `evalNet`. The result holds the returned value, the cart-pole and the
network. -/
def CartPole.evalNet {R S : Type} (P : PoleArith R) (N : NetModel R S) (fuel : Nat)
    (cp : CartPole R) (net : S) : Run (R × CartPole R × S) :=
  let non_markov_max := if cp.nonMarkovLong then P.ratio 100000 1 else P.ratio 1000 1
  let cp := cp.resetState P.toArith
  if cp.isMarkov then
    match markovLoop P N fuel cp net (P.ratio 0 1) with
    | Run.noFuel => Run.noFuel
    | Run.fault => Run.fault
    | Run.done (LoopEnd.returned v, cp, net) => Run.done (v, cp, net)
    | Run.done (LoopEnd.left steps, cp, net) => Run.done (steps, cp, net)
  else
    match nonMarkovLoop P N non_markov_max fuel cp net (P.ratio 0 1) with
    | Run.noFuel => Run.noFuel
    | Run.fault => Run.fault
    | Run.done (LoopEnd.returned v, cp, net) => Run.done (v, cp, net)
    | Run.done (LoopEnd.left steps, cp, net) =>
      match nonMarkovFitness P cp steps with
      | none => Run.fault
      | some v => Run.done (v, cp, net)

/-- The slice `input` that `evalNet` loads into the network in the first round
of its loop. -/
def firstInput {R : Type} (P : PoleArith R) (cp : CartPole R) : List R :=
  if cp.isMarkov then markovInput P (cp.resetState P.toArith)
  else nonMarkovInput P (cp.resetState P.toArith)

/-- A cart-pole in motion: the cart at 0 with the velocity 1, the poles upright
and at rest. -/
def movingCartPole : CartPole ℚ :=
  { newCartPole (Arith.exact ℚ) false with
    state := Function.update (fun _ => 0) 1 1 }

/-- A network that activates and always gives the output 0.5. -/
def constantNet : NetModel Float64 Unit :=
  { LoadSensors := fun s _ => s, Activate := fun s => (s, true),
    Output0 := fun _ => some (Float64.ofRatio 5 10) }

/-- The value 1 in units of `2^-1074`. -/
def Float64.oneUnits : Nat := 1 <<< 1074

/-- The `float64` value `x` is the integer `k`: it is finite and its value in
units of `2^-1074` is that of `k`. -/
def Float64.holdsInt (x : Float64) (k : Int) : Prop :=
  x.isNaN = false ∧ x.isInf = false ∧ x.units = k * (Float64.oneUnits : Int)

/-- Go: the value of `steps` after `n` rounds of `steps++`, from the zero value
of the result parameter. -/
def stepsAfter {R : Type} (P : PoleArith R) : Nat → R
  | 0 => P.ratio 0 1
  | n + 1 => P.add (stepsAfter P n) (P.ratio 1 1)

/-! ## The winner check of the non-Markov case (`GenerationEvaluate`) -/

/-- Modelled from the spec: the record `genetics.Species`, declared outside the
modelled files, with the two fields the winner check reads and writes in
addition. -/
structure CheckedSpecies (R : Type) extends Species R where
  IsChecked : Bool
  MaxFitnessEver : R

/-- Go: the loop under "First update what is checked and unchecked". The
parameter `computeMax` is the first result of `ComputeMaxAndAvgFitness`, a
function outside the modelled files. -/
def updateChecked {R : Type} (A : Arith R) (computeMax : CheckedSpecies R → R)
    (sorted_species : List (CheckedSpecies R)) : List (CheckedSpecies R) :=
  sorted_species.map (fun curr_species =>
    if A.lt curr_species.MaxFitnessEver (computeMax curr_species) then
      { curr_species with IsChecked := false }
    else curr_species)

/-- Go: the loop `for _, curr_species = range sorted_species { if
!curr_species.IsChecked { break } }`, from the index `i` on. The variable
`curr_species` is the position of a species in the slice, `none` for `nil`; the
loop assigns to it in every round. -/
def findUnchecked {R : Type} : List (CheckedSpecies R) → Nat → Option Nat → Option Nat
  | [], _, curr_species => curr_species
  | s :: rest, i, _ =>
    if !s.IsChecked then some i else findUnchecked rest (i + 1) (some i)

/-- Go: the selection of the species to check in `GenerationEvaluate`, from the
sorted slice: the position of the selected species and the species after the
writes to `IsChecked`. The result is `none` when `sorted_species[0]` is out of
range. -/
def selectSpecies {R : Type} (A : Arith R) (computeMax : CheckedSpecies R → R)
    (sorted_species : List (CheckedSpecies R)) : Option (Nat × List (CheckedSpecies R)) :=
  let species := updateChecked A computeMax sorted_species
  let curr_species : Option Nat := none
  let curr_species := findUnchecked species 0 curr_species
  let curr_species :=
    match curr_species with
    | none => if 0 < species.length then some 0 else none
    | some i => some i
  match curr_species with
  | none => none
  | some i => some (i, species.modify (fun s => { s with IsChecked := true }) i)

/-- Modelled from the spec: the record `experiments.Generation`, declared outside
the modelled files, as far as the winner check uses it. `Best` is a pointer to an
organism: its position in the list of organisms, `none` for `nil`. -/
structure Generation where
  Solved : Bool
  Best : Option Nat

/-- Go: the call `ex.orgEvaluate(p)` for a pointer `p` into the organisms; the
parameter `evalNetOf i` is the simulation with the network of the organism `i`.
The result is `none` for the `nil` pointer, which the function dereferences. -/
def orgEvaluateAt {R : Type} (A : Arith R) (evalNetOf : Nat → CartPole R → R × CartPole R)
    (cp : CartPole R) (orgs : List (Organism R)) (p : Option Nat) :
    Option (CartPole R × List (Organism R) × Bool) :=
  match p with
  | none => none
  | some i =>
    match orgs[i]? with
    | none => none
    | some organism =>
      let r := orgEvaluate A (evalNetOf i) cp organism
      some (r.1, orgs.set i r.2.1, r.2.2)

/-- Go: the values of `(s0c, s1c, s2c, s3c)` in the four nested loops of the
generalization test, in the order of the rounds. -/
def gridPoints : List (Fin 5 × Fin 5 × Fin 5 × Fin 5) :=
  (List.finRange 5).flatMap (fun s0c => (List.finRange 5).flatMap (fun s1c =>
    (List.finRange 5).flatMap (fun s2c => (List.finRange 5).map (fun s3c =>
      (s0c, s1c, s2c, s3c)))))

/-- Go: the rounds of the generalization test for the given grid points. The
flush of the phenotype acts on the network, which is part of `evalNetOf`. -/
def generalizationLoop {R : Type} (A : Arith R)
    (evalNetOf : Nat → CartPole R → R × CartPole R) (best : Option Nat) :
    List (Fin 5 × Fin 5 × Fin 5 × Fin 5) → CartPole R × List (Organism R) × Int →
      Option (CartPole R × List (Organism R) × Int)
  | [], s => some s
  | g :: rest, (cp, orgs, score) =>
    let cp := setGridPoint A cp g.1 g.2.1 g.2.2.1 g.2.2.2
    match orgEvaluateAt A evalNetOf cp orgs best with
    | none => none
    | some (cp, orgs, res) =>
      generalizationLoop A evalNetOf best rest (cp, orgs, if res then score + 1 else score)

/-- Go: the assignment `p.Fitness = fitness` for a pointer `p` to an organism. -/
def setFitness {R : Type} (orgs : List (Organism R)) (p : Nat) (fitness : R) :
    List (Organism R) :=
  orgs.modify (fun o => { o with Fitness := fitness }) p

/-- Go: the part of `GenerationEvaluate` from "the organism champion" to the end
of the non-Markov winner check. The parameter `champion` is the pointer that
`FindChampion` returns for the selected species. The result is `none` when a
pointer that is dereferenced is `nil`. -/
def championTest {R : Type} (A : Arith R) (evalNetOf : Nat → CartPole R → R × CartPole R)
    (cp : CartPole R) (orgs : List (Organism R)) (generation : Generation)
    (champion : Nat) : Option (CartPole R × List (Organism R) × Generation) :=
  match orgs[champion]? with
  | none => none
  | some championOrg =>
    let champion_fitness := championOrg.Fitness
    let cp := { cp with nonMarkovLong := true, generalizationTest := false }
    match orgEvaluateAt A evalNetOf cp orgs generation.Best with
    | none => none
    | some (cp, orgs, true) =>
      let cp := { cp with nonMarkovLong := false }
      match generalizationLoop A evalNetOf generation.Best gridPoints (cp, orgs, 0) with
      | none => none
      | some (cp, orgs, score) =>
        if score ≥ 200 then
          some (cp, orgs, { generation with Solved := true, Best := some champion })
        else
          match generation.Best with
          | none => none
          | some best => some (cp, setFitness orgs best champion_fitness, generation)
    | some (cp, orgs, false) =>
      some (cp, setFitness orgs champion champion_fitness, generation)

/-- Two species that are both checked already: the maximal fitness ever is 2.0
for both. -/
def checkedSpecies : List (CheckedSpecies Float64) :=
  [{ Age := 3, Organisms := [organismWithFitness Float64.two],
     IsChecked := true, MaxFitnessEver := Float64.two },
   { Age := 2, Organisms := [organismWithFitness Float64.one],
     IsChecked := true, MaxFitnessEver := Float64.two }]

/-- The maximal fitness among the organisms of a species with a single organism
and of the species of `checkedSpecies`. -/
def firstFitness (s : CheckedSpecies Float64) : Float64 :=
  match s.Organisms with
  | [] => Float64.zero
  | o :: _ => o.Fitness

/-- Two organisms: the champion of the selected species, with the fitness 2.0, at
the position 0, and another organism with the fitness 1.0 at the position 1. -/
def twoOrganisms : List (Organism Float64) :=
  [organismWithFitness Float64.two, organismWithFitness Float64.one]

/-- A simulation that gives the fitness 5 for every organism and leaves the
cart-pole as it is. -/
def fiveSteps (_organism : Nat) (cp : CartPole Float64) : Float64 × CartPole Float64 :=
  (Float64.ofRatio 5 1, cp)

/-! ## Theorems -/

/-- C1: after `Flushback` the activation, the activation count and both saved
activations are zero, whatever the node was before. -/
theorem flushback_zeroes (n : NNode) :
    n.Flushback.Activation = Float64.zero ∧ n.Flushback.ActivationsCount = 0 ∧
      n.Flushback.lastActivation = Float64.zero ∧
      n.Flushback.lastActivation2 = Float64.zero :=
  ⟨rfl, rfl, rfl, rfl⟩

/-! ### Activation state -/

theorem wrapInt32_succ (c : Int) (h0 : -2147483648 ≤ c) (h1 : c < 2147483647) :
    wrapInt32 (c + 1) = c + 1 := by
  unfold wrapInt32
  omega

/-- C2 (as stated, refuted): on a node holding the largest `int32` count,
`setActivation` wraps the count to the smallest `int32`, which is not `c + 1`. -/
theorem setActivation_count_overflow :
    ({ hiddenNode with ActivationsCount := 2147483647 }.setActivation
        Float64.one).ActivationsCount = -2147483648 ∧
      ({ hiddenNode with ActivationsCount := 2147483647 }.setActivation
        Float64.one).ActivationsCount ≠
        ({ hiddenNode with ActivationsCount := 2147483647 } : NNode).ActivationsCount + 1 := by
  decide

/-- C2 (amended): for a node whose `int32` activation count `c` is below the
largest `int32`, `setActivation x` stores `x` as the activation, moves the old
activation to `lastActivation` and the old `lastActivation` to
`lastActivation2`, and makes the count `c + 1`. -/
theorem setActivation_rotates (n : NNode) (x : Float64)
    (hlo : -2147483648 ≤ n.ActivationsCount) (hhi : n.ActivationsCount < 2147483647) :
    (n.setActivation x).Activation = x ∧
      (n.setActivation x).lastActivation = n.Activation ∧
      (n.setActivation x).lastActivation2 = n.lastActivation ∧
      (n.setActivation x).ActivationsCount = n.ActivationsCount + 1 :=
  ⟨rfl, rfl, rfl, wrapInt32_succ _ hlo hhi⟩

theorem setActivation_rotates_witness :
    (-2147483648 ≤ hiddenNode.ActivationsCount ∧ hiddenNode.ActivationsCount < 2147483647) ∧
      (hiddenNode.setActivation Float64.two).Activation = Float64.two ∧
      (hiddenNode.setActivation Float64.two).lastActivation = hiddenNode.Activation ∧
      (hiddenNode.setActivation Float64.two).lastActivation2 = hiddenNode.lastActivation ∧
      (hiddenNode.setActivation Float64.two).ActivationsCount =
        hiddenNode.ActivationsCount + 1 :=
  ⟨by decide, setActivation_rotates hiddenNode Float64.two (by decide) (by decide)⟩

theorem isSensor_of_type (n : NNode)
    (hs : n.NeuronType = NodeNeuronType.InputNeuron ∨
      n.NeuronType = NodeNeuronType.BiasNeuron) : n.IsSensor = true := by
  unfold NNode.IsSensor
  rcases hs with h | h <;> simp [h]

/-- C4 (as stated, refuted): on an INPUT node holding the largest `int32` count,
`SensorLoad` returns true and wraps the count to the smallest `int32` instead
of adding one. -/
theorem sensorLoad_count_overflow :
    ({ inputNode with ActivationsCount := 2147483647 }.SensorLoad Float64.one).2 = true ∧
      ({ inputNode with ActivationsCount := 2147483647 }.SensorLoad
        Float64.one).1.ActivationsCount = -2147483648 ∧
      ({ inputNode with ActivationsCount := 2147483647 }.SensorLoad
        Float64.one).1.ActivationsCount ≠
        ({ inputNode with ActivationsCount := 2147483647 } : NNode).ActivationsCount + 1 := by
  decide

/-- C4 (amended): on an INPUT or BIAS node whose `int32` activation count is
below the largest `int32`, `SensorLoad v` returns true, stores `v` as the
activation, increments the count by exactly one and rotates the history. -/
theorem sensorLoad_sensor (n : NNode) (v : Float64)
    (hs : n.NeuronType = NodeNeuronType.InputNeuron ∨
      n.NeuronType = NodeNeuronType.BiasNeuron)
    (hlo : -2147483648 ≤ n.ActivationsCount) (hhi : n.ActivationsCount < 2147483647) :
    (n.SensorLoad v).2 = true ∧
      (n.SensorLoad v).1.Activation = v ∧
      (n.SensorLoad v).1.ActivationsCount = n.ActivationsCount + 1 ∧
      (n.SensorLoad v).1.lastActivation2 = n.lastActivation ∧
      (n.SensorLoad v).1.lastActivation = n.Activation := by
  have hsen : n.IsSensor = true := isSensor_of_type n hs
  simp [NNode.SensorLoad, hsen, NNode.saveActivations, wrapInt32_succ _ hlo hhi]

theorem sensorLoad_sensor_witness :
    (inputNode.SensorLoad Float64.two).2 = true ∧
      (inputNode.SensorLoad Float64.two).1.Activation = Float64.two ∧
      (inputNode.SensorLoad Float64.two).1.ActivationsCount =
        inputNode.ActivationsCount + 1 ∧
      (inputNode.SensorLoad Float64.two).1.lastActivation2 = inputNode.lastActivation ∧
      (inputNode.SensorLoad Float64.two).1.lastActivation = inputNode.Activation :=
  sensorLoad_sensor inputNode Float64.two (Or.inl rfl) (by decide) (by decide)

/-! ### The activation history after a flush -/

theorem activate_fields (n : NNode) (s : ActivationStep)
    (hs : (∃ v, s = ActivationStep.load v) → n.IsSensor = true) :
    (n.activate s).Activation = s.value ∧
      (n.activate s).lastActivation = n.Activation ∧
      (n.activate s).ActivationsCount = wrapInt32 (n.ActivationsCount + 1) ∧
      (n.activate s).NeuronType = n.NeuronType := by
  cases s with
  | set v => exact ⟨rfl, rfl, rfl, rfl⟩
  | load v =>
    have hsen : n.IsSensor = true := hs ⟨v, rfl⟩
    simp [NNode.activate, NNode.SensorLoad, hsen, NNode.saveActivations,
      ActivationStep.value]

theorem activateAll_snoc (n : NNode) (steps : List ActivationStep) (s : ActivationStep) :
    n.activateAll (steps ++ [s]) = (n.activateAll steps).activate s := by
  simp [NNode.activateAll, List.foldl_append]

/-- The state reached from a flushed node: the count is the number of steps, the
activation is the last value and `lastActivation` the value before it. -/
theorem activateAll_flushed (n : NNode) (steps : List ActivationStep) :
    steps.length < 2147483648 →
    ((∃ v, ActivationStep.load v ∈ steps) → n.IsSensor = true) →
    (n.Flushback.activateAll steps).NeuronType = n.NeuronType ∧
      (n.Flushback.activateAll steps).ActivationsCount = (steps.length : Int) ∧
      (n.Flushback.activateAll steps).Activation =
        (steps.map ActivationStep.value).getD (steps.length - 1) Float64.zero ∧
      (n.Flushback.activateAll steps).lastActivation =
        (if 2 ≤ steps.length then
          (steps.map ActivationStep.value).getD (steps.length - 2) Float64.zero
        else Float64.zero) := by
  induction steps using List.reverseRecOn with
  | nil =>
    intro _ _
    exact ⟨rfl, rfl, rfl, rfl⟩
  | append_singleton steps s ih =>
    intro hlen hload
    rw [List.length_append, List.length_singleton] at hlen
    have hload1 : (∃ v, ActivationStep.load v ∈ steps) → n.IsSensor = true := by
      rintro ⟨v, hv⟩
      exact hload ⟨v, List.mem_append_left _ hv⟩
    obtain ⟨ht, hc, ha, hl⟩ := ih (by omega) hload1
    have hsen : (∃ v, s = ActivationStep.load v) →
        (n.Flushback.activateAll steps).IsSensor = true := by
      rintro ⟨v, rfl⟩
      have := hload ⟨v, by simp⟩
      unfold NNode.IsSensor at this ⊢
      rw [ht]
      exact this
    obtain ⟨ha1, hl1, hc1, ht1⟩ := activate_fields _ s hsen
    rw [activateAll_snoc]
    refine ⟨ht1.trans ht, ?_, ?_, ?_⟩
    · rw [hc1, hc, wrapInt32_succ _ (by omega) (by omega)]
      simp
    · rw [ha1]
      simp [List.getD_eq_getElem?_getD]
    · rw [hl1, ha]
      by_cases h2 : 1 ≤ steps.length
      · have h3 : 2 ≤ (steps ++ [s]).length := by simp; omega
        rw [if_pos h3]
        simp only [List.length_append, List.length_singleton, List.map_append,
          List.map_cons, List.map_nil]
        have h4 : steps.length + 1 - 2 = steps.length - 1 := by omega
        rw [h4, List.getD_append _ _ _ _ (by simp; omega)]
      · have h0 : steps = [] := by
          cases steps with
          | nil => rfl
          | cons a t => simp at h2
        subst h0
        rfl

/-- C3: from a flushed node, after `k < 2^31` activations (`setActivation`, or
`SensorLoad` on a sensor) with the values `v1..vk`, `GetActiveOut` is `vk` for
`k ≥ 1` and 0 for `k = 0`, and `GetActiveOutTd` is `v(k-1)` for `k ≥ 2` and 0
for `k ≤ 1`. -/
theorem activeOut_history (n : NNode) (steps : List ActivationStep)
    (hk : steps.length < 2 ^ 31)
    (hload : (∃ v, ActivationStep.load v ∈ steps) → n.IsSensor = true) :
    (n.Flushback.activateAll steps).GetActiveOut =
        (if 1 ≤ steps.length then
          (steps.map ActivationStep.value).getD (steps.length - 1) Float64.zero
        else Float64.zero) ∧
      (n.Flushback.activateAll steps).GetActiveOutTd =
        (if 2 ≤ steps.length then
          (steps.map ActivationStep.value).getD (steps.length - 2) Float64.zero
        else Float64.zero) := by
  obtain ⟨_, hc, ha, hl⟩ := activateAll_flushed n steps (by norm_num at hk; exact hk) hload
  unfold NNode.GetActiveOut NNode.GetActiveOutTd
  rw [hc, ha, hl]
  constructor
  · by_cases h1 : 1 ≤ steps.length
    · rw [if_pos h1, if_pos (by omega)]
    · rw [if_neg h1, if_neg (by omega)]
  · by_cases h2 : 2 ≤ steps.length
    · rw [if_pos h2, if_pos (by omega)]
    · rw [if_neg h2, if_neg (by omega)]

theorem activeOut_history_witness :
    (inputNode.Flushback.activateAll
        [ActivationStep.load Float64.one, ActivationStep.set Float64.two]).GetActiveOut =
        Float64.two ∧
      (inputNode.Flushback.activateAll
        [ActivationStep.load Float64.one, ActivationStep.set Float64.two]).GetActiveOutTd =
        Float64.one :=
  activeOut_history inputNode
    [ActivationStep.load Float64.one, ActivationStep.set Float64.two]
    (by decide) (fun _ => by decide)

/-- C5: on a HIDDEN or OUTPUT node `SensorLoad v` returns false and the node is
left exactly as it was, field by field. -/
theorem sensorLoad_neuron (n : NNode) (v : Float64)
    (hn : n.NeuronType = NodeNeuronType.HiddenNeuron ∨
      n.NeuronType = NodeNeuronType.OutputNeuron) :
    (n.SensorLoad v).2 = false ∧ (n.SensorLoad v).1 = n := by
  have hsen : n.IsSensor = false := by
    unfold NNode.IsSensor
    rcases hn with h | h <;> simp [h]
  simp [NNode.SensorLoad, hsen]

theorem sensorLoad_neuron_witness :
    (hiddenNode.SensorLoad Float64.two).2 = false ∧
      (hiddenNode.SensorLoad Float64.two).1 = hiddenNode :=
  sensorLoad_neuron hiddenNode Float64.two (Or.inl rfl)

/-! ### Sensors: bias value and incoming links -/

/-- C6 (as stated, refuted): a BIAS node loaded with 2.0 emits 2.0, not 1. -/
theorem bias_emits_loaded_value :
    (biasNode.SensorLoad Float64.two).2 = true ∧
      (biasNode.SensorLoad Float64.two).1.Activation = Float64.two ∧
      (biasNode.SensorLoad Float64.two).1.GetActiveOut = Float64.two ∧
      (biasNode.SensorLoad Float64.two).1.Activation ≠ Float64.one ∧
      (biasNode.SensorLoad Float64.two).1.GetActiveOut ≠ Float64.one := by
  decide

/-- C6 (amended): a BIAS node emits the value loaded into it. For every BIAS
node whose activation count is in `0 .. 2^31 - 2` and every `v`, after
`SensorLoad v` both `Activation` and `GetActiveOut` are `v`. -/
theorem sensorLoad_bias_output (n : NNode) (v : Float64)
    (hb : n.NeuronType = NodeNeuronType.BiasNeuron)
    (hlo : 0 ≤ n.ActivationsCount) (hhi : n.ActivationsCount < 2147483647) :
    (n.SensorLoad v).1.Activation = v ∧ (n.SensorLoad v).1.GetActiveOut = v := by
  have hsen : n.IsSensor = true := isSensor_of_type n (Or.inr hb)
  have hc : wrapInt32 (n.ActivationsCount + 1) = n.ActivationsCount + 1 :=
    wrapInt32_succ _ (by omega) hhi
  have hpos : n.ActivationsCount + 1 > 0 := by omega
  simp [NNode.SensorLoad, hsen, NNode.saveActivations, NNode.GetActiveOut, hc, hpos]

theorem sensorLoad_bias_output_witness :
    (biasNode.SensorLoad Float64.one).1.Activation = Float64.one ∧
      (biasNode.SensorLoad Float64.one).1.GetActiveOut = Float64.one :=
  sensorLoad_bias_output biasNode Float64.one rfl (by decide) (by decide)

/-- C7 (as stated, refuted): `AddIncoming` and `AddIncomingRecurrent` called on
an INPUT node without incoming links leave it with one incoming link. -/
theorem sensor_gets_incoming_link :
    inputNode.Incoming = [] ∧
      AddIncoming [inputNode, hiddenNode] 0 1 Float64.one =
        some [{ inputNode with Incoming := [NewLink Float64.one 1 0 false] }, hiddenNode] ∧
      AddIncomingRecurrent [inputNode, hiddenNode] 0 1 Float64.one true =
        some [{ inputNode with Incoming := [NewLink Float64.one 1 0 true] }, hiddenNode] := by
  decide

theorem getElem?_set_self_of_some (h : Heap) (n : Ptr) (node node1 : NNode)
    (hn : h[n]? = some node) : (h.set n node1)[n]? = some node1 := by
  have hlt : n < h.length := by
    rcases Nat.lt_or_ge n h.length with hlt | hge
    · exact hlt
    · rw [List.getElem?_eq_none hge] at hn
      cases hn
  simp [List.getElem?_set, hlt]

/-- C7 (amended): the node operations add the link whatever the neuron type is.
For every INPUT or BIAS node with an empty `Incoming` list, after `AddIncoming`
or `AddIncomingRecurrent` is called on it its `Incoming` list holds exactly the
one new link. -/
theorem sensor_addIncoming_singleton (h : Heap) (n inp : Ptr) (node : NNode)
    (weight : Float64) (recur : Bool)
    (hn : h[n]? = some node)
    (_hs : node.NeuronType = NodeNeuronType.InputNeuron ∨
      node.NeuronType = NodeNeuronType.BiasNeuron)
    (he : node.Incoming = []) :
    (∃ h1 node1, AddIncoming h n inp weight = some h1 ∧ h1[n]? = some node1 ∧
        node1.NeuronType = node.NeuronType ∧
        node1.Incoming = [NewLink weight inp n false]) ∧
      (∃ h2 node2, AddIncomingRecurrent h n inp weight recur = some h2 ∧
        h2[n]? = some node2 ∧ node2.NeuronType = node.NeuronType ∧
        node2.Incoming = [NewLink weight inp n recur]) := by
  constructor
  · refine ⟨_, { node with Incoming := node.Incoming ++ [NewLink weight inp n false] }, ?_,
      getElem?_set_self_of_some h n node _ hn, rfl, ?_⟩
    · simp only [AddIncoming, hn]
    · simp [he]
  · refine ⟨_, { node with Incoming := node.Incoming ++ [NewLink weight inp n recur] }, ?_,
      getElem?_set_self_of_some h n node _ hn, rfl, ?_⟩
    · simp only [AddIncomingRecurrent, hn]
    · simp [he]

theorem sensor_addIncoming_singleton_witness :
    (∃ h1 node1, AddIncoming [biasNode, outputNode] 0 1 Float64.two = some h1 ∧
        h1[0]? = some node1 ∧ node1.NeuronType = biasNode.NeuronType ∧
        node1.Incoming = [NewLink Float64.two 1 0 false]) ∧
      (∃ h2 node2, AddIncomingRecurrent [biasNode, outputNode] 0 1 Float64.two true =
        some h2 ∧ h2[0]? = some node2 ∧ node2.NeuronType = biasNode.NeuronType ∧
        node2.Incoming = [NewLink Float64.two 1 0 true]) :=
  sensor_addIncoming_singleton [biasNode, outputNode] 0 1 biasNode Float64.two true rfl
    (Or.inr rfl) rfl

/-- C10: `AddIncoming(in, w)` on the node at `n` appends exactly one link at the
end of its `Incoming` list and keeps the earlier links in order; the link goes
from `in` to `n`, has weight `w` and is not recurrent;
`AddIncomingRecurrent(in, w, false)` does the same. -/
theorem addIncoming_appends (h : Heap) (n inp : Ptr) (node : NNode) (weight : Float64)
    (hn : h[n]? = some node) :
    ∃ h1 node1 l, AddIncoming h n inp weight = some h1 ∧
      h1 = h.set n node1 ∧ h1[n]? = some node1 ∧
      node1 = { node with Incoming := node.Incoming ++ [l] } ∧
      l.From = inp ∧ l.To = n ∧ l.Weight = weight ∧ l.IsRecurrent = false ∧
      AddIncomingRecurrent h n inp weight false = some h1 := by
  refine ⟨_, _, NewLink weight inp n false, ?_, rfl,
    getElem?_set_self_of_some h n node _ hn, rfl, rfl, rfl, rfl, rfl, ?_⟩
  · simp only [AddIncoming, hn]
  · simp only [AddIncomingRecurrent, hn]

theorem addIncoming_appends_witness :
    ∃ h1 node1 l, AddIncoming [inputNode, hiddenNode] 1 0 Float64.two = some h1 ∧
      h1 = [inputNode, hiddenNode].set 1 node1 ∧ h1[1]? = some node1 ∧
      node1 = { hiddenNode with Incoming := hiddenNode.Incoming ++ [l] } ∧
      l.From = 0 ∧ l.To = 1 ∧ l.Weight = Float64.two ∧ l.IsRecurrent = false ∧
      AddIncomingRecurrent [inputNode, hiddenNode] 1 0 Float64.two false = some h1 :=
  addIncoming_appends [inputNode, hiddenNode] 1 0 hiddenNode Float64.two rfl

/-! ### Depth -/

theorem depthLoop_done (call : Ptr → Run (Int × Option String)) (ls : List Link) :
    ∀ m : Int, (∀ l ∈ ls, ∃ v, call l.InNode = Run.done (v, none)) →
    ∃ r, depthLoop call ls m = Run.done (r, none) ∧ m ≤ r ∧
      (∀ l ∈ ls, ∀ v, call l.InNode = Run.done (v, none) → v ≤ r) ∧
      (r = m ∨ ∃ l ∈ ls, call l.InNode = Run.done (r, none)) := by
  induction ls with
  | nil =>
    intro m _
    exact ⟨m, rfl, le_refl m, by simp, Or.inl rfl⟩
  | cons l ls ih =>
    intro m hall
    obtain ⟨v, hv⟩ := hall l (List.mem_cons_self l ls)
    obtain ⟨r, hr, hmr, hbound, hwhich⟩ :=
      ih (if v > m then v else m) (fun l1 hl1 => hall l1 (List.mem_cons_of_mem l hl1))
    have hvm : v ≤ (if v > m then v else m) ∧ m ≤ (if v > m then v else m) := by
      split <;> constructor <;> omega
    refine ⟨r, ?_, le_trans hvm.2 hmr, ?_, ?_⟩
    · simp only [depthLoop, hv]
      exact hr
    · intro l1 hl1 v1 hv1
      rcases List.mem_cons.mp hl1 with rfl | hl1
      · rw [hv] at hv1
        cases hv1
        exact le_trans hvm.1 hmr
      · exact hbound l1 hl1 v1 hv1
    · rcases hwhich with hrm | ⟨l1, hl1, hv1⟩
      · by_cases hgt : v > m
        · rw [if_pos hgt] at hrm
          exact Or.inr ⟨l, List.mem_cons_self l ls, hrm ▸ hv⟩
        · rw [if_neg hgt] at hrm
          exact Or.inl hrm
      · exact Or.inr ⟨l1, List.mem_cons_of_mem l hl1, hv1⟩

theorem backPath_of_sensor (h : Heap) (n : Ptr) (node : NNode) (k : Nat)
    (hn : h[n]? = some node) (hs : node.IsSensor = true) (hp : BackPath h n k) : k = 0 := by
  cases hp with
  | stop => rfl
  | link _ node1 l k1 hn1 hs1 _ _ =>
    rw [hn] at hn1
    cases hn1
    rw [hs] at hs1
    cases hs1

theorem depthFuel_longest (h : Heap) (hv : LinksValid h) :
    ∀ (fuel : Nat) (n : Ptr) (d : Int), 101 - d < (fuel : Int) → n < h.length →
    (∀ k, BackPath h n k → (k : Int) ≤ 100 - d) →
    ∃ L : Nat, DepthFuel h fuel n d = Run.done (d + (L : Int), none) ∧ BackPath h n L ∧
      ∀ k, BackPath h n k → k ≤ L := by
  intro fuel
  induction fuel with
  | zero =>
    intro n d hf _ hb
    have := hb 0 (BackPath.stop n)
    simp at hf this
    omega
  | succ fuel ih =>
    intro n d hf hn hb
    have hd : ¬ d > 100 := by
      have := hb 0 (BackPath.stop n)
      simp at this
      omega
    have hnode : h[n]? = some h[n] := List.getElem?_eq_getElem hn
    generalize h[n] = node at hnode
    simp only [DepthFuel, if_neg hd, hnode]
    by_cases hs : node.IsSensor = true
    · refine ⟨0, ?_, BackPath.stop n, ?_⟩
      · simp [hs]
      · intro k hk
        exact le_of_eq (backPath_of_sensor h n node k hnode hs hk)
    · have hs0 : node.IsSensor = false := by simpa using hs
      rw [if_neg hs]
      have hcalls : ∀ l ∈ node.Incoming, ∃ L : Nat,
          DepthFuel h fuel l.InNode (d + 1) = Run.done (d + 1 + (L : Int), none) ∧
          BackPath h l.InNode L ∧ ∀ k, BackPath h l.InNode k → k ≤ L := by
        intro l hl
        have hlt : l.InNode < h.length := hv node (List.getElem?_mem hnode) l hl
        apply ih l.InNode (d + 1) (by push_cast at hf; omega) hlt
        intro k hk
        have := hb (k + 1) (BackPath.link n node l k hnode hs0 hl hk)
        push_cast at this
        omega
      obtain ⟨r, hr, hdr, hbound, hwhich⟩ :=
        depthLoop_done (fun p => DepthFuel h fuel p (d + 1)) node.Incoming d
          (fun l hl => by
            obtain ⟨L, hL, _⟩ := hcalls l hl
            exact ⟨_, hL⟩)
      rw [hr]
      rcases hwhich with hrd | ⟨l, hl, hlr⟩
      · refine ⟨0, by simp [hrd], BackPath.stop n, ?_⟩
        intro k hk
        cases hk with
        | stop => exact le_refl 0
        | link _ node1 l1 k1 hn1 _ hl1 _ =>
          rw [hnode] at hn1
          cases hn1
          obtain ⟨L1, hL1, _, _⟩ := hcalls l1 hl1
          have := hbound l1 hl1 _ hL1
          omega
      · obtain ⟨L, hL, hpath, hmax⟩ := hcalls l hl
        have hrL : r = d + 1 + (L : Int) := by
          have h1 : DepthFuel h fuel l.InNode (d + 1) = Run.done (r, none) := hlr
          rw [hL] at h1
          cases h1
          rfl
        refine ⟨L + 1, ?_, BackPath.link n node l L hnode hs0 hl hpath, ?_⟩
        · rw [hrL]
          push_cast
          ring_nf
        · intro k hk
          cases hk with
          | stop => exact Nat.zero_le _
          | link _ node1 l1 k1 hn1 _ hl1 hp1 =>
            rw [hnode] at hn1
            cases hn1
            obtain ⟨L1, hL1, _, hmax1⟩ := hcalls l1 hl1
            have h1 := hbound l1 hl1 _ hL1
            have h2 := hmax1 k1 hp1
            omega

theorem depthFuel_leaf (h : Heap) (fuel : Nat) (n : Ptr) (node : NNode) (d : Int)
    (hn : h[n]? = some node) (hd : d ≤ 100)
    (hleaf : node.IsSensor = true ∨ node.Incoming = []) :
    DepthFuel h (fuel + 1) n d = Run.done (d, none) := by
  have hd1 : ¬ d > 100 := by omega
  simp only [DepthFuel, if_neg hd1, hn]
  rcases hleaf with hs | he
  · simp [hs]
  · split
    · rfl
    · rw [he]
      rfl

/-- C8: when every backward path from `n` has at most `100 - d` links, `Depth(d)`
returns no error and the value `d + L`, where `L` is the number of links of the
longest backward path from `n`; for a sensor and for a neuron without incoming
links it returns `d`. -/
theorem depth_longest_path (h : Heap) (n : Ptr) (node : NNode) (d : Int)
    (hv : LinksValid h) (hn : h[n]? = some node) (hd : d ≤ 100)
    (hb : ∀ k, BackPath h n k → (k : Int) ≤ 100 - d) :
    (∃ L : Nat, Depth h n d = Run.done (d + (L : Int), none) ∧ BackPath h n L ∧
        ∀ k, BackPath h n k → k ≤ L) ∧
      (node.IsSensor = true ∨ node.Incoming = [] → Depth h n d = Run.done (d, none)) := by
  have hlt : n < h.length := by
    rcases Nat.lt_or_ge n h.length with hlt | hge
    · exact hlt
    · rw [List.getElem?_eq_none hge] at hn
      cases hn
  constructor
  · apply depthFuel_longest h hv _ n d _ hlt hb
    push_cast
    omega
  · intro hleaf
    exact depthFuel_leaf h _ n node d hn hd hleaf

theorem backPath_le_address (h : Heap)
    (hord : ∀ (p : Ptr) (node : NNode), h[p]? = some node →
      ∀ l ∈ node.Incoming, l.InNode < p)
    (n : Ptr) (k : Nat) (hp : BackPath h n k) : k ≤ n := by
  induction hp with
  | stop n => exact Nat.zero_le n
  | link n node l k hn _ hl _ ih =>
    have hlt : @LT.lt Nat _ l.InNode n := hord n node hn l hl
    omega

theorem feedForwardHeap_ordered :
    ∀ (p : Ptr) (node : NNode), feedForwardHeap[p]? = some node →
      ∀ l ∈ node.Incoming, l.InNode < p := by
  intro p node hp l hl
  have hlt : p < 3 := by
    rcases Nat.lt_or_ge p 3 with hlt | hge
    · exact hlt
    · rw [List.getElem?_eq_none (by simpa [feedForwardHeap] using hge)] at hp
      cases hp
  have hall : ∀ q, q < 3 → ∀ l ∈ (feedForwardHeap.getD q hiddenNode).Incoming,
      l.InNode < q := by decide
  have hget : feedForwardHeap.getD p hiddenNode = node := by
    rw [List.getD_eq_getElem?_getD, hp]
    rfl
  exact hall p hlt l (hget ▸ hl)

theorem depth_longest_path_witness :
    LinksValid feedForwardHeap ∧
      (∃ L : Nat, Depth feedForwardHeap 2 0 = Run.done (0 + (L : Int), none) ∧
        BackPath feedForwardHeap 2 L ∧ ∀ k, BackPath feedForwardHeap 2 k → k ≤ L) ∧
      ({ outputNode with
          Incoming := [NewLink Float64.one 1 2 false, NewLink Float64.two 0 2 false] }.IsSensor
            = true ∨
          ({ outputNode with
            Incoming := [NewLink Float64.one 1 2 false,
              NewLink Float64.two 0 2 false] } : NNode).Incoming = [] →
        Depth feedForwardHeap 2 0 = Run.done (0, none)) :=
  ⟨by decide,
    depth_longest_path feedForwardHeap 2 _ 0 (by decide) rfl (by decide)
      (fun k hk => by
        have := backPath_le_address feedForwardHeap feedForwardHeap_ordered 2 k hk
        omega)⟩

theorem depthLoop_total (call : Ptr → Run (Int × Option String)) (ls : List Link) :
    ∀ m : Int, (∀ l ∈ ls, ∃ r, call l.InNode = Run.done r) →
    ∃ r, depthLoop call ls m = Run.done r := by
  induction ls with
  | nil =>
    intro m _
    exact ⟨_, rfl⟩
  | cons l ls ih =>
    intro m hall
    obtain ⟨⟨v, e⟩, hv⟩ := hall l (List.mem_cons_self l ls)
    cases e with
    | none =>
      simp only [depthLoop, hv]
      exact ih _ (fun l1 hl1 => hall l1 (List.mem_cons_of_mem l hl1))
    | some e =>
      simp only [depthLoop, hv]
      exact ⟨_, rfl⟩

theorem depthLoop_error (call : Ptr → Run (Int × Option String)) (ls : List Link) :
    ∀ m : Int, (∀ l ∈ ls, ∃ r, call l.InNode = Run.done r) →
    (∃ l ∈ ls, ∃ v e, call l.InNode = Run.done (v, some e)) →
    ∃ v e, depthLoop call ls m = Run.done (v, some e) := by
  induction ls with
  | nil =>
    intro m _ hex
    obtain ⟨l, hl, _⟩ := hex
    cases hl
  | cons l ls ih =>
    intro m hall hex
    obtain ⟨⟨v, e⟩, hv⟩ := hall l (List.mem_cons_self l ls)
    cases e with
    | some e =>
      simp only [depthLoop, hv]
      exact ⟨v, e, rfl⟩
    | none =>
      simp only [depthLoop, hv]
      apply ih _ (fun l1 hl1 => hall l1 (List.mem_cons_of_mem l hl1))
      obtain ⟨l1, hl1, v1, e1, h1⟩ := hex
      rcases List.mem_cons.mp hl1 with rfl | hl1
      · rw [hv] at h1
        cases h1
      · exact ⟨l1, hl1, v1, e1, h1⟩

/-- With valid links a call of `Depth` returns: it neither dereferences a missing
node nor uses up the evaluation budget. -/
theorem depthFuel_total (h : Heap) (hv : LinksValid h) :
    ∀ (fuel : Nat) (n : Ptr) (d : Int), 0 < fuel → 101 - d < (fuel : Int) → n < h.length →
    ∃ r, DepthFuel h fuel n d = Run.done r := by
  intro fuel
  induction fuel with
  | zero =>
    intro n d h0
    exact absurd h0 (lt_irrefl 0)
  | succ fuel ih =>
    intro n d _ hf hn
    by_cases hd : d > 100
    · refine ⟨(10, some depthLoopError), ?_⟩
      simp only [DepthFuel, if_pos hd]
    · have hnode : h[n]? = some h[n] := List.getElem?_eq_getElem hn
      generalize h[n] = node at hnode
      simp only [DepthFuel, if_neg hd, hnode]
      split
      · exact ⟨_, rfl⟩
      · apply depthLoop_total
        intro l hl
        exact ih l.InNode (d + 1) (by push_cast at hf; omega) (by push_cast at hf; omega)
          (hv node (List.getElem?_mem hnode) l hl)

theorem depthLoop_ne_noFuel (call : Ptr → Run (Int × Option String)) (ls : List Link) :
    ∀ m : Int, (∀ l ∈ ls, call l.InNode ≠ Run.noFuel) →
    depthLoop call ls m ≠ Run.noFuel := by
  induction ls with
  | nil =>
    intro m _ hcontra
    cases hcontra
  | cons l ls ih =>
    intro m hall
    have hl := hall l (List.mem_cons_self l ls)
    have hrest := fun m1 => ih m1 (fun l1 hl1 => hall l1 (List.mem_cons_of_mem l hl1))
    unfold depthLoop
    split
    · exact hrest _
    · intro hcontra
      cases hcontra
    · intro hcontra
      cases hcontra
    · next heq => exact absurd heq hl

/-- The evaluation budget of `Depth` is never used up, on any heap. -/
theorem depth_ne_noFuel (h : Heap) (n : Ptr) (d : Int) : Depth h n d ≠ Run.noFuel := by
  have key : ∀ (fuel : Nat) (n : Ptr) (d : Int), 0 < fuel → 101 - d < (fuel : Int) →
      DepthFuel h fuel n d ≠ Run.noFuel := by
    intro fuel
    induction fuel with
    | zero =>
      intro n d h0
      exact absurd h0 (lt_irrefl 0)
    | succ fuel ih =>
      intro n d _ hf
      unfold DepthFuel
      split
      · intro hcontra
        cases hcontra
      · next hd =>
        split
        · intro hcontra
          cases hcontra
        · split
          · intro hcontra
            cases hcontra
          · apply depthLoop_ne_noFuel
            intro l _
            exact ih l.InNode (d + 1) (by push_cast at hf; omega) (by push_cast at hf; omega)
  apply key _ n d (Nat.succ_pos _)
  push_cast
  omega

theorem not_sensor_of_neuron (node : NNode) (hn : node.IsNeuron = true) :
    node.IsSensor = false := by
  unfold NNode.IsNeuron at hn
  unfold NNode.IsSensor
  cases hnt : node.NeuronType <;> simp [hnt] at hn ⊢

theorem neuronChain_of_cycle (h : Heap) (c : Ptr)
    (hcyc : Relation.TransGen (NeuronEdge h) c c) :
    ∀ (k : Nat) (x : Ptr), Relation.ReflTransGen (NeuronEdge h) x c → NeuronChain h x k := by
  intro k
  induction k with
  | zero =>
    intro x _
    exact NeuronChain.stop x
  | succ k ih =>
    intro x hx
    obtain ⟨y, hxy, hyc⟩ := Relation.TransGen.head'_iff.mp (Relation.TransGen.trans_right hx hcyc)
    exact NeuronChain.link x y k hxy (ih y hyc)

theorem depthFuel_error_of_chain (h : Heap) (hv : LinksValid h) :
    ∀ (fuel : Nat) (n : Ptr) (d : Int) (k : Nat), 0 < fuel → 101 - d < (fuel : Int) →
    NeuronChain h n k → 100 < d + (k : Int) →
    ∃ v e, DepthFuel h fuel n d = Run.done (v, some e) := by
  intro fuel
  induction fuel with
  | zero =>
    intro n d k h0
    exact absurd h0 (lt_irrefl 0)
  | succ fuel ih =>
    intro n d k _ hf hchain hk
    by_cases hd : d > 100
    · refine ⟨10, depthLoopError, ?_⟩
      simp only [DepthFuel, if_pos hd]
    · cases hchain with
      | stop =>
        simp at hk
        omega
      | link _ b k1 hedge hrest =>
        obtain ⟨na, nb, l, hna, hneu, hl, hlb, hnb, _⟩ := hedge
        have hsen : na.IsSensor = false := not_sensor_of_neuron na hneu
        simp only [DepthFuel, if_neg hd, hna, hsen]
        apply depthLoop_error
        · intro l1 hl1
          exact depthFuel_total h hv fuel l1.InNode (d + 1) (by push_cast at hf; omega)
            (by push_cast at hf; omega) (hv na (List.getElem?_mem hna) l1 hl1)
        · refine ⟨l, hl, ?_⟩
          rw [hlb]
          exact ih b (d + 1) k1 (by push_cast at hf; omega) (by push_cast at hf; omega)
            hrest (by push_cast at hk; omega)

/-- C9: from a neuron that reaches, through incoming links between neurons, a
cycle made of neurons, `Depth(d)` returns a non-nil error for every start depth
`d`. -/
theorem depth_error_on_cycle (h : Heap) (n c : Ptr) (d : Int)
    (hv : LinksValid h)
    (hreach : Relation.ReflTransGen (NeuronEdge h) n c)
    (hcyc : Relation.TransGen (NeuronEdge h) c c) :
    ∃ v e, Depth h n d = Run.done (v, some e) := by
  have hchain : NeuronChain h n ((101 - d).toNat) :=
    neuronChain_of_cycle h c hcyc _ n hreach
  apply depthFuel_error_of_chain h hv _ n d _ (Nat.succ_pos _) _ hchain
  · omega
  · push_cast
    omega

theorem selfLoopHeap_edge : NeuronEdge selfLoopHeap 0 0 :=
  ⟨_, _, NewLink Float64.one 0 0 true, rfl, rfl, List.mem_singleton.mpr rfl, rfl, rfl, rfl⟩

theorem depth_error_on_cycle_witness :
    LinksValid selfLoopHeap ∧ ∃ v e, Depth selfLoopHeap 0 0 = Run.done (v, some e) :=
  ⟨by decide,
    depth_error_on_cycle selfLoopHeap 0 0 0 (by decide) Relation.ReflTransGen.refl
      (Relation.TransGen.single selfLoopHeap_edge)⟩

/-! ### Trait parameters -/

theorem copyTraitParams_append (ps : List Float64) :
    ∀ (i : Nat) (done rest : List Float64), done.length = i → ps.length ≤ rest.length →
    copyTraitParams ps i (done ++ rest) = some (done ++ ps ++ rest.drop ps.length) := by
  induction ps with
  | nil =>
    intro i done rest _ _
    simp [copyTraitParams]
  | cons p ps ih =>
    intro i done rest hi hlen
    cases rest with
    | nil => simp at hlen
    | cons r rest =>
      simp only [List.length_cons, Nat.add_le_add_iff_right] at hlen
      have hlt : i < (done ++ r :: rest).length := by
        simp only [List.length_append, List.length_cons]
        omega
      simp only [copyTraitParams, if_pos hlt]
      have hset : (done ++ r :: rest).set i p = (done ++ [p]) ++ rest := by
        rw [List.set_append_right _ _ (by omega), hi.symm]
        simp
      rw [hset, ih (i + 1) (done ++ [p]) rest (by simp [hi]) hlen]
      simp

/-- C19: for a trait with at most `Num_trait_params` parameters, `DeriveTrait`
returns, sets `Params` to a vector of length exactly `Num_trait_params` that
starts with the parameters of the trait and continues with zeros, and leaves the
trait as it was; for a nil trait `Params` is all zeros. -/
theorem deriveTrait_params (numTraitParams : Nat) (n : NNode) (t : Trait)
    (hlen : t.Params.length ≤ numTraitParams) :
    (∃ n1, n.DeriveTrait numTraitParams (some t) = some (n1, some t) ∧
        n1 = { n with Params := t.Params ++
          List.replicate (numTraitParams - t.Params.length) Float64.zero } ∧
        n1.Params.length = numTraitParams ∧
        n1.Params.take t.Params.length = t.Params ∧
        (∀ i, t.Params.length ≤ i → i < numTraitParams →
          n1.Params[i]? = some Float64.zero)) ∧
      n.DeriveTrait numTraitParams none =
        some ({ n with Params := List.replicate numTraitParams Float64.zero }, none) := by
  refine ⟨⟨_, ?_, rfl, ?_, ?_, ?_⟩, rfl⟩
  · have h := copyTraitParams_append t.Params 0 []
      (List.replicate numTraitParams Float64.zero) rfl (by simpa using hlen)
    simp only [List.nil_append] at h
    simp only [NNode.DeriveTrait, h, List.drop_replicate]
  · simp only [List.length_append, List.length_replicate]
    omega
  · simp
  · intro i h1 h2
    rw [List.getElem?_append_right h1, List.getElem?_replicate]
    simp
    omega

theorem deriveTrait_params_witness :
    (∃ n1, hiddenNode.DeriveTrait 8 (some ⟨1, [Float64.one, Float64.two]⟩) =
          some (n1, some ⟨1, [Float64.one, Float64.two]⟩) ∧
        n1 = { hiddenNode with
          Params := ([Float64.one, Float64.two] ++ List.replicate (8 - 2) Float64.zero) } ∧
        n1.Params.length = 8 ∧
        n1.Params.take 2 = [Float64.one, Float64.two] ∧
        (∀ i, 2 ≤ i → i < 8 → n1.Params[i]? = some Float64.zero)) ∧
      hiddenNode.DeriveTrait 8 none =
        some ({ hiddenNode with Params := List.replicate 8 Float64.zero }, none) :=
  deriveTrait_params 8 hiddenNode ⟨1, [Float64.one, Float64.two]⟩ (by decide)

/-! ### Depth and acyclic networks -/

theorem transGen_rank_lt (h : Heap) (r : Ptr → Nat)
    (hr : ∀ a b, BackEdge h a b → r b < r a) (a b : Ptr)
    (hab : Relation.TransGen (BackEdge h) a b) : r b < r a := by
  induction hab with
  | single hab => exact hr _ _ hab
  | tail _ hbc ih => exact lt_trans (hr _ _ hbc) ih

theorem backwardAcyclic_of_rank (h : Heap) (r : Ptr → Nat)
    (hr : ∀ a b, BackEdge h a b → r b < r a) (n : Ptr) : BackwardAcyclic h n := by
  intro c _ hcc
  exact lt_irrefl _ (transGen_rank_lt h r hr c c hcc)

theorem chainHeap_edge (links : Nat) (a b : Nat) (hab : BackEdge (chainHeap links) a b) :
    b = a + 1 ∧ a < links := by
  obtain ⟨na, l, hna, _, hl, hlb⟩ := hab
  simp only [chainHeap, List.getElem?_map, List.getElem?_range, Option.map_eq_some'] at hna
  obtain ⟨i, hi, hna⟩ := hna
  by_cases ha : a < links + 1
  · rw [List.getElem?_range ha] at hi
    cases hi
    by_cases hal : a < links
    · rw [if_pos hal] at hna
      subst hna
      simp only [List.mem_singleton] at hl
      subst hl
      exact ⟨hlb.symm, hal⟩
    · rw [if_neg hal] at hna
      subst hna
      cases hl
  · rw [List.getElem?_eq_none (by simpa using ha)] at hi
    cases hi

theorem chainHeap_acyclic (links : Nat) (n : Ptr) : BackwardAcyclic (chainHeap links) n := by
  apply backwardAcyclic_of_rank (chainHeap links) (fun p => links + 1 - p)
  intro a b hab
  have hedge : @Eq Nat b (a + 1) ∧ @LT.lt Nat _ a links := chainHeap_edge links a b hab
  show @LT.lt Nat _ (links + 1 - b) (links + 1 - a)
  omega

set_option maxRecDepth 100000 in
/-- C20 (as stated, refuted): a feed-forward chain of 101 links has valid links
and an acyclic backward graph, and `Depth(0)` on its first neuron returns the
loop error. -/
theorem acyclic_chain_depth_error :
    LinksValid (chainHeap 101) ∧ BackwardAcyclic (chainHeap 101) 0 ∧
      Depth (chainHeap 101) 0 0 = Run.done (10, some depthLoopError) :=
  ⟨by decide, chainHeap_acyclic 101 0, by decide⟩

/-- C20 (amended): for every node whose backward graph is acyclic and whose
backward paths have at most 100 links, `Depth(0)` returns no error. -/
theorem depth_no_error_of_short_paths (h : Heap) (n : Ptr) (node : NNode)
    (hv : LinksValid h) (hn : h[n]? = some node) (_hacyc : BackwardAcyclic h n)
    (hb : ∀ k, BackPath h n k → k ≤ 100) :
    ∃ v, Depth h n 0 = Run.done (v, none) := by
  have hlt : n < h.length := by
    rcases Nat.lt_or_ge n h.length with hlt | hge
    · exact hlt
    · rw [List.getElem?_eq_none hge] at hn
      cases hn
  obtain ⟨L, hL, _, _⟩ := depthFuel_longest h hv ((101 - (0 : Int)).toNat + 1) n 0
    (by decide) hlt (fun k hk => by have := hb k hk; omega)
  exact ⟨_, hL⟩

theorem feedForwardHeap_acyclic (n : Ptr) : BackwardAcyclic feedForwardHeap n := by
  apply backwardAcyclic_of_rank feedForwardHeap (fun p => p)
  rintro a b ⟨na, l, hna, _, hl, rfl⟩
  exact feedForwardHeap_ordered a na hna l hl

theorem depth_no_error_of_short_paths_witness :
    ∃ v, Depth feedForwardHeap 2 0 = Run.done (v, none) :=
  depth_no_error_of_short_paths feedForwardHeap 2 _ (by decide) rfl
    (feedForwardHeap_acyclic 2)
    (fun k hk => by
      have := backPath_le_address feedForwardHeap feedForwardHeap_ordered 2 k hk
      omega)

/-! ### float64 arithmetic: the number of binary digits -/

theorem bitCount_zero (fuel : Nat) : Float64.bitCount fuel 0 = 0 := by
  cases fuel <;> simp [Float64.bitCount]

theorem bitCount_spec :
    ∀ (fuel n : Nat), n < 2 ^ fuel → n ≠ 0 →
    2 ^ (Float64.bitCount fuel n - 1) ≤ n ∧ n < 2 ^ Float64.bitCount fuel n := by
  intro fuel
  induction fuel with
  | zero =>
    intro n hn h0
    simp at hn
    exact absurd hn h0
  | succ fuel ih =>
    intro n hn h0
    simp only [Float64.bitCount, if_neg h0, Nat.shiftRight_eq_div_pow, pow_one,
      Nat.add_sub_cancel]
    by_cases hhalf : n / 2 = 0
    · rw [hhalf, bitCount_zero]
      have : n < 2 := by
        rcases Nat.lt_or_ge n 2 with h | h
        · exact h
        · have := Nat.div_pos h (by decide : 0 < 2)
          omega
      simp
      omega
    · have hlt : n / 2 < 2 ^ fuel := by
        rw [Nat.div_lt_iff_lt_mul (by decide)]
        rw [pow_succ] at hn
        exact hn
      obtain ⟨h1, h2⟩ := ih (n / 2) hlt hhalf
      have hpos : 0 < Float64.bitCount fuel (n / 2) := by
        rcases Nat.eq_zero_or_pos (Float64.bitCount fuel (n / 2)) with h | h
        · rw [h] at h2
          simp at h2
          exact absurd h2 hhalf
        · exact h
      have hpow : 2 ^ Float64.bitCount fuel (n / 2) =
          2 * 2 ^ (Float64.bitCount fuel (n / 2) - 1) := by
        have he : Float64.bitCount fuel (n / 2) =
            (Float64.bitCount fuel (n / 2) - 1) + 1 := by omega
        conv_lhs => rw [he, pow_succ']
      constructor
      · rw [hpow]
        omega
      · rw [pow_succ]
        omega

theorem limbCount_zero (fuel : Nat) : Float64.limbCount fuel 0 = 0 := by
  cases fuel <;> simp [Float64.limbCount]

theorem limbCount_spec :
    ∀ (fuel n : Nat), n < 2 ^ (64 * fuel) → n ≠ 0 →
    2 ^ (64 * (Float64.limbCount fuel n - 1)) ≤ n ∧
      n < 2 ^ (64 * Float64.limbCount fuel n) := by
  intro fuel
  induction fuel with
  | zero =>
    intro n hn h0
    simp at hn
    exact absurd hn h0
  | succ fuel ih =>
    intro n hn h0
    simp only [Float64.limbCount, if_neg h0, Nat.shiftRight_eq_div_pow, Nat.add_sub_cancel]
    have hsplit : (2 : Nat) ^ (64 * (fuel + 1)) = 2 ^ (64 * fuel) * 2 ^ 64 := by
      rw [Nat.mul_add, Nat.mul_one, pow_add]
    by_cases htop : n / 2 ^ 64 = 0
    · rw [htop, limbCount_zero]
      have hlt : n < 2 ^ 64 := by
        rcases Nat.lt_or_ge n (2 ^ 64) with h | h
        · exact h
        · have := Nat.div_pos h (by positivity : 0 < 2 ^ 64)
          omega
      simp
      omega
    · have hlt : n / 2 ^ 64 < 2 ^ (64 * fuel) := by
        rw [Nat.div_lt_iff_lt_mul (by positivity)]
        rw [hsplit] at hn
        exact hn
      obtain ⟨h1, h2⟩ := ih (n / 2 ^ 64) hlt htop
      have hpos : 0 < Float64.limbCount fuel (n / 2 ^ 64) := by
        rcases Nat.eq_zero_or_pos (Float64.limbCount fuel (n / 2 ^ 64)) with h | h
        · rw [h] at h2
          simp at h2
          exact absurd h2 htop
        · exact h
      have hpow : (2 : Nat) ^ (64 * Float64.limbCount fuel (n / 2 ^ 64)) =
          2 ^ (64 * (Float64.limbCount fuel (n / 2 ^ 64) - 1)) * 2 ^ 64 := by
        have he : 64 * Float64.limbCount fuel (n / 2 ^ 64) =
            64 * (Float64.limbCount fuel (n / 2 ^ 64) - 1) + 64 := by omega
        conv_lhs => rw [he, pow_add]
      have hdm := Nat.div_add_mod n (2 ^ 64)
      have hmod := Nat.mod_lt n (by positivity : 0 < 2 ^ 64)
      constructor
      · rw [hpow]
        calc 2 ^ (64 * (Float64.limbCount fuel (n / 2 ^ 64) - 1)) * 2 ^ 64
            ≤ n / 2 ^ 64 * 2 ^ 64 := Nat.mul_le_mul_right _ h1
          _ ≤ n := Nat.div_mul_le_self n (2 ^ 64)
      · have hsucc : (2 : Nat) ^ (64 * (Float64.limbCount fuel (n / 2 ^ 64) + 1)) =
            2 ^ (64 * Float64.limbCount fuel (n / 2 ^ 64)) * 2 ^ 64 := by
          rw [Nat.mul_add, Nat.mul_one, pow_add]
        rw [hsucc]
        calc n = 2 ^ 64 * (n / 2 ^ 64) + n % 2 ^ 64 := hdm.symm
          _ < 2 ^ 64 * (n / 2 ^ 64) + 2 ^ 64 := by omega
          _ = (n / 2 ^ 64 + 1) * 2 ^ 64 := by ring
          _ ≤ 2 ^ (64 * Float64.limbCount fuel (n / 2 ^ 64)) * 2 ^ 64 :=
            Nat.mul_le_mul_right _ h2

/-- The function `bitLength` gives the number of binary digits: a positive `n`
lies between `2^(bitLength n - 1)` and `2^(bitLength n)`. -/
theorem bitLength_spec (n : Nat) (h0 : n ≠ 0) :
    2 ^ (Float64.bitLength n - 1) ≤ n ∧ n < 2 ^ Float64.bitLength n := by
  have hfuel : n < 2 ^ (64 * n) := by
    calc n < 2 ^ n := Nat.lt_two_pow n
      _ ≤ 2 ^ (64 * n) := Nat.pow_le_pow_right (by decide) (by omega)
  obtain ⟨h1, h2⟩ := limbCount_spec n n hfuel h0
  have hpos : 0 < Float64.limbCount n n := by
    rcases Nat.eq_zero_or_pos (Float64.limbCount n n) with h | h
    · rw [h] at h2
      simp at h2
      omega
    · exact h
  simp only [Float64.bitLength, Nat.shiftRight_eq_div_pow]
  generalize Float64.limbCount n n = c at h1 h2 hpos
  have hc : 64 * c = 64 * (c - 1) + 64 := by omega
  have hmul : (c - 1) * 64 = 64 * (c - 1) := Nat.mul_comm _ _
  rw [hmul]
  have hq : (2 : Nat) ^ (64 * (c - 1)) > 0 := by positivity
  have htop0 : n / 2 ^ (64 * (c - 1)) ≠ 0 := by
    have := Nat.div_pos h1 hq
    omega
  have htoplt : n / 2 ^ (64 * (c - 1)) < 2 ^ 64 := by
    rw [Nat.div_lt_iff_lt_mul hq, ← pow_add, Nat.add_comm, ← hc]
    exact h2
  obtain ⟨b1, b2⟩ := bitCount_spec 64 _ htoplt htop0
  have hbpos : 0 < Float64.bitCount 64 (n / 2 ^ (64 * (c - 1))) := by
    rcases Nat.eq_zero_or_pos (Float64.bitCount 64 (n / 2 ^ (64 * (c - 1)))) with h | h
    · rw [h] at b2
      simp at b2
      exact absurd b2 htop0
    · exact h
  generalize Float64.bitCount 64 (n / 2 ^ (64 * (c - 1))) = b at b1 b2 hbpos
  constructor
  · have he : 64 * (c - 1) + b - 1 = (b - 1) + 64 * (c - 1) := by omega
    rw [he, pow_add]
    calc 2 ^ (b - 1) * 2 ^ (64 * (c - 1))
        ≤ n / 2 ^ (64 * (c - 1)) * 2 ^ (64 * (c - 1)) := Nat.mul_le_mul_right _ b1
      _ ≤ n := Nat.div_mul_le_self n _
  · have he : 64 * (c - 1) + b = b + 64 * (c - 1) := by omega
    rw [he, pow_add]
    exact (Nat.div_lt_iff_lt_mul hq).mp b2

/-! ### float64 arithmetic: rounding -/

/-- The magnitude that the bits `e * 2^52 + m` encode, for `m` of at most 53
binary digits and below the infinity: `m * 2^e` units, provided that `e = 0`
when `m` has fewer than 53 digits. -/
theorem magUnits_encode (e m : Nat) (hm : m ≤ 2 ^ 53) (hsub : m < 2 ^ 52 → e = 0)
    (hfin : e * 2 ^ 52 + m < 0x7FF0000000000000) :
    Float64.magUnits ⟨e * 2 ^ 52 + m⟩ = m * 2 ^ e := by
  have h52 : (2 : Nat) ^ 52 = 4503599627370496 := by norm_num
  have h53 : (2 : Nat) ^ 53 = 9007199254740992 := by norm_num
  rw [h52] at hsub hfin ⊢
  rw [h53] at hm
  simp only [Float64.magUnits, Float64.expField, Float64.fracField,
    Nat.shiftRight_eq_div_pow, Nat.shiftLeft_eq, Nat.one_mul, h52]
  rcases Nat.lt_or_ge m 4503599627370496 with hlt | hge
  · have he := hsub hlt
    subst he
    have hdiv : (0 * 4503599627370496 + m) / 4503599627370496 = 0 := by omega
    have hmod : (0 * 4503599627370496 + m) % 4503599627370496 = m := by omega
    rw [hdiv, hmod]
    simp
  · rcases Nat.lt_or_ge m 9007199254740992 with hlt | hge2
    · have hdiv : (e * 4503599627370496 + m) / 4503599627370496 = e + 1 := by omega
      have hmod : (e * 4503599627370496 + m) % 4503599627370496 = m - 4503599627370496 := by
        omega
      have he : e + 1 < 2047 := by omega
      rw [hdiv, hmod, Nat.mod_eq_of_lt (by omega), if_neg (by omega)]
      have : 4503599627370496 + (m - 4503599627370496) = m := by omega
      rw [this, Nat.add_sub_cancel]
    · have hm2 : m = 9007199254740992 := by omega
      subst hm2
      have hdiv : (e * 4503599627370496 + 9007199254740992) / 4503599627370496 = e + 2 := by
        omega
      have hmod : (e * 4503599627370496 + 9007199254740992) % 4503599627370496 = 0 := by
        omega
      have he : e + 2 < 2047 := by omega
      rw [hdiv, hmod, Nat.mod_eq_of_lt (by omega), if_neg (by omega)]
      have : e + 2 - 1 = e + 1 := by omega
      rw [this, pow_succ]
      ring

/-- The function `roundMag` rounds to nearest, ties to even. For a positive
magnitude `a * 2^-(1074 + k)` whose rounding is finite, the result is `m1` times
the quantum `2^shift` (in the units of `a`), with `m1` of at most 53 binary
digits; it differs from `a` by at most half a quantum, and when it differs by
exactly half a quantum `m1` is even. -/
theorem roundMag_nearest (a k : Nat) (h0 : a ≠ 0)
    (hfin : Float64.roundMag a k < 0x7FF0000000000000) :
    ∃ m1 : Nat, m1 ≤ 2 ^ 53 ∧
      Float64.magUnits ⟨Float64.roundMag a k⟩ * 2 ^ k =
        m1 * 2 ^ max (Float64.bitLength a - 53) k ∧
      2 * a ≤ 2 * (m1 * 2 ^ max (Float64.bitLength a - 53) k) +
        2 ^ max (Float64.bitLength a - 53) k ∧
      2 * (m1 * 2 ^ max (Float64.bitLength a - 53) k) ≤
        2 * a + 2 ^ max (Float64.bitLength a - 53) k ∧
      ((2 * a = 2 * (m1 * 2 ^ max (Float64.bitLength a - 53) k) +
          2 ^ max (Float64.bitLength a - 53) k ∨
        2 * (m1 * 2 ^ max (Float64.bitLength a - 53) k) =
          2 * a + 2 ^ max (Float64.bitLength a - 53) k) → m1 % 2 = 0) := by
  obtain ⟨hlo, hhi⟩ := bitLength_spec a h0
  generalize hL : Float64.bitLength a = L at hlo hhi ⊢
  have hround : Float64.roundMag a k =
      (if (max (L - 53) k - k) * 2 ^ 52 +
          (if max (L - 53) k = 0 then a / 2 ^ max (L - 53) k
          else if a % 2 ^ max (L - 53) k > 2 ^ (max (L - 53) k - 1) ∨
              (a % 2 ^ max (L - 53) k = 2 ^ (max (L - 53) k - 1) ∧
                a / 2 ^ max (L - 53) k % 2 = 1) then a / 2 ^ max (L - 53) k + 1
          else a / 2 ^ max (L - 53) k) ≥ 0x7FF0000000000000 then 0x7FF0000000000000
      else (max (L - 53) k - k) * 2 ^ 52 +
          (if max (L - 53) k = 0 then a / 2 ^ max (L - 53) k
          else if a % 2 ^ max (L - 53) k > 2 ^ (max (L - 53) k - 1) ∨
              (a % 2 ^ max (L - 53) k = 2 ^ (max (L - 53) k - 1) ∧
                a / 2 ^ max (L - 53) k % 2 = 1) then a / 2 ^ max (L - 53) k + 1
          else a / 2 ^ max (L - 53) k)) := by
    simp only [Float64.roundMag, if_neg h0, hL, Nat.shiftRight_eq_div_pow, Nat.shiftLeft_eq,
      Nat.one_mul]
  rw [hround] at hfin ⊢
  generalize hs : max (L - 53) k = shift at hfin ⊢
  have hsk : k ≤ shift := by rw [← hs]; exact le_max_right _ _
  have hsL : L - 53 ≤ shift := by rw [← hs]; exact le_max_left _ _
  have hP : 0 < 2 ^ shift := by positivity
  have hdm := Nat.div_add_mod a (2 ^ shift)
  have hrem := Nat.mod_lt a hP
  -- the quotient has at most 53 binary digits
  have hm53 : a / 2 ^ shift < 2 ^ 53 := by
    rw [Nat.div_lt_iff_lt_mul hP, ← pow_add]
    calc a < 2 ^ L := hhi
      _ ≤ 2 ^ (53 + shift) := Nat.pow_le_pow_right (by decide) (by omega)
  -- and exactly 53 when the quantum is above the smallest one
  have hm52 : k < shift → 2 ^ 52 ≤ a / 2 ^ shift := by
    intro hks
    have hLs : L = shift + 53 := by
      have : shift = L - 53 := by
        rw [← hs]
        rcases le_total (L - 53) k with h | h
        · rw [max_eq_right h] at hs
          omega
        · exact max_eq_left h
      omega
    rw [Nat.le_div_iff_mul_le hP, ← pow_add]
    calc 2 ^ (52 + shift) = 2 ^ (L - 1) := by congr 1; omega
      _ ≤ a := hlo
  generalize hm : a / 2 ^ shift = m at hfin hdm hm53 hm52 ⊢
  generalize hr : a % 2 ^ shift = rem at hfin hdm hrem ⊢
  have hhalf : shift ≠ 0 → 2 ^ shift = 2 * 2 ^ (shift - 1) := by
    intro hne
    have he : shift = (shift - 1) + 1 := by omega
    conv_lhs => rw [he, pow_succ']
  generalize hH : 2 ^ (shift - 1) = H at hfin hhalf ⊢
  generalize hPv : 2 ^ shift = P at hfin hdm hrem hhalf hP ⊢
  -- the rounded significand
  generalize hm1 : (if shift = 0 then m
      else if rem > H ∨ (rem = H ∧ m % 2 = 1) then m + 1 else m) = m1 at hfin ⊢
  have hbits : (shift - k) * 2 ^ 52 + m1 < 0x7FF0000000000000 := by
    split at hfin
    · exact absurd hfin (lt_irrefl _)
    · exact hfin
  rw [if_neg (by omega)]
  have hm1le : m1 ≤ 2 ^ 53 := by
    rw [← hm1]
    split
    · omega
    · split <;> omega
  have hm1ge : m ≤ m1 := by
    rw [← hm1]
    split
    · omega
    · split <;> omega
  have hdec := magUnits_encode (shift - k) m1 hm1le
    (fun hlt => by
      rcases Nat.lt_or_ge k shift with hks | hks
      · have := hm52 hks
        omega
      · omega) hbits
  refine ⟨m1, hm1le, ?_, ?_⟩
  · rw [hdec, Nat.mul_assoc, ← pow_add, Nat.sub_add_cancel hsk, hPv]
  · by_cases hz : shift = 0
    · rw [if_pos hz] at hm1
      subst hm1
      have hP1 : P = 1 := by rw [← hPv, hz]; rfl
      subst hP1
      have : rem = 0 := by omega
      subst this
      refine ⟨by omega, by omega, ?_⟩
      rintro (h | h) <;> omega
    · have hPH := hhalf hz
      rw [if_neg hz] at hm1
      have hmP : m1 * P = m * P + (m1 - m) * P := by
        rw [← Nat.add_mul]
        congr 1
        omega
      by_cases hup : rem > H ∨ (rem = H ∧ m % 2 = 1)
      · rw [if_pos hup] at hm1
        subst hm1
        have hexp : (m + 1) * P = P * m + P := by ring
        rw [hexp]
        refine ⟨by omega, by omega, ?_⟩
        rintro (h | h)
        · omega
        · have hrH : rem = H := by omega
          rcases hup with h1 | ⟨_, h2⟩
          · omega
          · omega
      · rw [if_neg hup] at hm1
        subst hm1
        have hexp : m * P = P * m := Nat.mul_comm _ _
        rw [hexp]
        have hle : rem ≤ H := by
          by_contra hc
          exact hup (Or.inl (by omega))
        refine ⟨by omega, by omega, ?_⟩
        rintro (h | h)
        · have hrH : rem = H := by omega
          by_contra hodd
          exact hup (Or.inr ⟨hrH, by omega⟩)
        · omega

/-! ### float64 arithmetic: sample values -/

/-- The arithmetic on bit patterns reproduces known `float64` results:
`0.1 + 0.2`, the constants `0.001` and `math.Pi / 180.0`, a product and a
difference with rounding, and the comparisons with a NaN. -/
theorem float64_samples :
    Float64.add (Float64.ofRatio 1 10) (Float64.ofRatio 2 10) = ⟨0x3FD3333333333334⟩ ∧
      Float64.ofRatio 1 1000 = ⟨0x3F50624DD2F1A9FC⟩ ∧
      oneDegree Arith.binary64 = ⟨0x3F91DF46A2529D39⟩ ∧
      Float64.mul (Float64.ofRatio 1 10) (Float64.ofRatio 1 10) = ⟨0x3F847AE147AE147C⟩ ∧
      Float64.sub (Float64.ofRatio 7 10) (Float64.ofRatio 1 10) = ⟨0x3FE3333333333333⟩ ∧
      Float64.ofRatio 1 1 = Float64.one ∧ Float64.ofRatio 2 1 = Float64.two ∧
      Float64.ofRatio 0 1 = Float64.zero ∧
      Float64.ofInt 9007199254740993 = ⟨0x4340000000000000⟩ ∧
      Float64.lt Float64.nan Float64.one = false ∧
      Float64.le Float64.nan Float64.nan = false ∧
      Float64.le (Float64.neg Float64.zero) Float64.zero = true := by
  decide

/-! ### The double-pole evaluator -/

/-- What `orgEvaluate` returns: in the three modes with a threshold, true when
the new fitness meets the threshold or the organism was a winner before; false
in the ordinary non-Markov mode. -/
theorem orgEvaluate_returns {R : Type} (A : Arith R)
    (evalNet : CartPole R → R × CartPole R) (cp : CartPole R) (organism : Organism R) :
    (orgEvaluate A evalNet cp organism).2.2 =
        (orgEvaluate A evalNet cp organism).2.1.IsWinner ∧
      (orgEvaluate A evalNet cp organism).2.1.Fitness = (evalNet cp).1 ∧
      (orgEvaluate A evalNet cp organism).2.2 =
        (if (evalNet cp).2.isMarkov then
          A.le (evalNet cp).2.maxFitness (evalNet cp).1 || organism.IsWinner
        else if (evalNet cp).2.nonMarkovLong then
          A.le (A.ratio 99999 1) (evalNet cp).1 || organism.IsWinner
        else if (evalNet cp).2.generalizationTest then
          A.le (A.ratio 999 1) (evalNet cp).1 || organism.IsWinner
        else false) := by
  refine ⟨rfl, ?_, ?_⟩
  · simp only [orgEvaluate]
    split_ifs <;> rfl
  · simp only [orgEvaluate]
    split_ifs <;> simp_all

/-- C11 (the code at the failing input): in the generalization test, an
organism that the long test has marked as winner is evaluated with the fitness
5, below the threshold 999, and `orgEvaluate` still returns true and leaves it
marked as winner. -/
theorem orgEvaluate_keeps_earlier_winner :
    generalizationCartPole.isMarkov = false ∧
      generalizationCartPole.nonMarkovLong = false ∧
      generalizationCartPole.generalizationTest = true ∧
      longTestWinner.IsWinner = true ∧
      (orgEvaluate Arith.binary64 fiveStepRun generalizationCartPole longTestWinner).2.1.Fitness
        = Float64.ofRatio 5 1 ∧
      Float64.le (Float64.ofRatio 999 1) (Float64.ofRatio 5 1) = false ∧
      (orgEvaluate Arith.binary64 fiveStepRun generalizationCartPole longTestWinner).2.2
        = true ∧
      (orgEvaluate Arith.binary64 fiveStepRun generalizationCartPole
        longTestWinner).2.1.IsWinner = true := by
  decide

/-- In the generalization test `resetState` overwrites the whole state: every
component is 0 except `state[2]`, which is one degree. -/
theorem resetState_generalization {R : Type} (A : Arith R) (cp : CartPole R)
    (hg : cp.generalizationTest = true) (i : Fin 6) :
    (cp.resetState A).state i = if i = 2 then oneDegree A else A.ratio 0 1 := by
  have hg1 : (if cp.isMarkov = true then
      { cp with cartpos_sum := A.ratio 0 1, cartv_sum := A.ratio 0 1,
                polepos_sum := A.ratio 0 1, polev_sum := A.ratio 0 1 }
      else cp).generalizationTest = true := by
    split <;> exact hg
  simp only [CartPole.resetState, hg1, if_true]
  fin_cases i <;> simp [Function.update]

/-- Outside the generalization test `resetState` keeps `state[0..3]` as the
previous evaluation left them; it zeroes `state[4]`, `state[5]` and
`balanced_sum`. -/
theorem resetState_ordinary {R : Type} (A : Arith R) (cp : CartPole R)
    (hg : cp.generalizationTest = false) :
    (cp.resetState A).balanced_sum = 0 ∧
      ∀ i : Fin 6, (cp.resetState A).state i =
        if i = 4 ∨ i = 5 then A.ratio 0 1 else cp.state i := by
  have hg1 : (if cp.isMarkov = true then
      { cp with cartpos_sum := A.ratio 0 1, cartv_sum := A.ratio 0 1,
                polepos_sum := A.ratio 0 1, polev_sum := A.ratio 0 1 }
      else cp).generalizationTest = false := by
    split <;> exact hg
  have hs : (if cp.isMarkov = true then
      { cp with cartpos_sum := A.ratio 0 1, cartv_sum := A.ratio 0 1,
                polepos_sum := A.ratio 0 1, polev_sum := A.ratio 0 1 }
      else cp).state = cp.state := by
    split <;> rfl
  constructor
  · simp only [CartPole.resetState, hg1]
    rfl
  · intro i
    simp only [CartPole.resetState, hg1, hs]
    fin_cases i <;> simp [Function.update]

/-- C12 (the code at the failing input): for the grid point with all four indices
0 the evaluator writes `state[0..3]` (here `state[0]` is -1.944, rounded), and the
reset at the start of `evalNet` replaces them by 0, 0, one degree and 0. -/
theorem resetState_discards_grid_point :
    (setGridPoint Arith.binary64 (newCartPole Arith.binary64 false) 0 0 0 0).generalizationTest
        = true ∧
      (setGridPoint Arith.binary64 (newCartPole Arith.binary64 false) 0 0 0 0).state 0
        = ⟨0xBFFF1A9FBE76C8B5⟩ ∧
      ((setGridPoint Arith.binary64 (newCartPole Arith.binary64 false) 0 0 0 0).resetState
        Arith.binary64).state 0 = Float64.zero ∧
      ((setGridPoint Arith.binary64 (newCartPole Arith.binary64 false) 0 0 0 0).resetState
        Arith.binary64).state 1 = Float64.zero ∧
      ((setGridPoint Arith.binary64 (newCartPole Arith.binary64 false) 0 0 0 0).resetState
        Arith.binary64).state 2 = ⟨0x3F91DF46A2529D39⟩ ∧
      ((setGridPoint Arith.binary64 (newCartPole Arith.binary64 false) 0 0 0 0).resetState
        Arith.binary64).state 3 = Float64.zero ∧
      (∀ i : Fin 4,
        ((setGridPoint Arith.binary64 (newCartPole Arith.binary64 false) 0 0 0 0).resetState
          Arith.binary64).state (Fin.castLE (by decide) i) ≠
        (setGridPoint Arith.binary64 (newCartPole Arith.binary64 false) 0 0 0 0).state
          (Fin.castLE (by decide) i)) := by
  decide

/-- C13 (the code at the failing input): two cart-poles of an ordinary non-Markov
run agree on the flags and parameters and differ in the state a previous
evaluation left; after `resetState` both have `balanced_sum = 0`, and `state[0]`
is still 0 in the one and 1.0 in the other. -/
theorem resetState_keeps_previous_state :
    (newCartPole Arith.binary64 false).generalizationTest = false ∧
      usedCartPole.generalizationTest = false ∧
      ((newCartPole Arith.binary64 false).resetState Arith.binary64).balanced_sum = 0 ∧
      (usedCartPole.resetState Arith.binary64).balanced_sum = 0 ∧
      ((newCartPole Arith.binary64 false).resetState Arith.binary64).state 0
        = Float64.zero ∧
      (usedCartPole.resetState Arith.binary64).state 0 = Float64.one ∧
      ((newCartPole Arith.binary64 false).resetState Arith.binary64).state ≠
        (usedCartPole.resetState Arith.binary64).state := by
  refine ⟨by decide, by decide, by decide, by decide, by decide, by decide, ?_⟩
  intro h
  have h0 := congrFun h 0
  revert h0
  decide

/-! ### The XOR evaluator -/

/-- The flag `xor_evaluate` returns is the winner flag it stores, and it is true
exactly when `out[0] < precision`, `out[1] >= 1 - precision`,
`out[2] >= 1 - precision` and `out[3] < precision`. -/
theorem xor_evaluate_winner {R : Type} (A : Arith R) (organism : Organism R)
    (success : Bool) (out : Fin 4 → R) :
    (xor_evaluate A organism success out).1.IsWinner =
        (xor_evaluate A organism success out).2 ∧
      ((xor_evaluate A organism success out).2 = true ↔
        A.lt (out 0) (precision A) = true ∧ A.le (oneMinusPrecision A) (out 1) = true ∧
          A.le (oneMinusPrecision A) (out 2) = true ∧ A.lt (out 3) (precision A) = true) := by
  have hw : xorWinner A out = true ↔
      A.lt (out 0) (precision A) = true ∧ A.le (oneMinusPrecision A) (out 1) = true ∧
        A.le (oneMinusPrecision A) (out 2) = true ∧ A.lt (out 3) (precision A) = true := by
    simp only [xorWinner, Bool.and_eq_true, and_assoc]
  rw [← hw]
  by_cases hc : xorWinner A out = true
  · simp only [xor_evaluate, hc, if_true, and_self]
  · simp only [xor_evaluate, hc]
    simp

theorem xor_success_exact {R : Type} [LinearOrderedField R] (organism : Organism R)
    (out : Fin 4 → R) :
    (xor_evaluate (Arith.exact R) organism true out).1.Error =
        |out 0| + |1 - out 1| + |1 - out 2| + |out 3| ∧
      (xor_evaluate (Arith.exact R) organism true out).1.Fitness =
        (4 - (xor_evaluate (Arith.exact R) organism true out).1.Error) ^ 2 := by
  by_cases hc : xorWinner (Arith.exact R) out = true
  · simp only [xor_evaluate, hc, if_true]
    simp [xorErrorSum, Arith.exact]
  · simp only [xor_evaluate, hc, if_true]
    simp [xorErrorSum, Arith.exact]

theorem xor_error_bounds {R : Type} [LinearOrderedField R] (out : Fin 4 → R)
    (h01 : ∀ i, 0 ≤ out i ∧ out i ≤ 1) :
    |out 0| + |1 - out 1| + |1 - out 2| + |out 3| =
        out 0 + (1 - out 1) + (1 - out 2) + out 3 ∧
      0 ≤ out 0 + (1 - out 1) + (1 - out 2) + out 3 ∧
      out 0 + (1 - out 1) + (1 - out 2) + out 3 ≤ 4 := by
  obtain ⟨a0, a1⟩ := h01 0
  obtain ⟨b0, b1⟩ := h01 1
  obtain ⟨c0, c1⟩ := h01 2
  obtain ⟨d0, d1⟩ := h01 3
  refine ⟨?_, by linarith, by linarith⟩
  rw [abs_of_nonneg a0, abs_of_nonneg (by linarith : (0 : R) ≤ 1 - out 1),
    abs_of_nonneg (by linarith : (0 : R) ≤ 1 - out 2), abs_of_nonneg d0]

set_option maxRecDepth 100000 in
/-- C14 (as stated, refuted): in `float64` arithmetic the outputs
`(2^-60, 1, 1, 0)` lie in `[0, 1]` and differ from `(0, 1, 1, 0)`, and a
successful evaluation assigns them the fitness 16 as well, because
`4.0 - 2^-60` rounds to `4.0`. -/
theorem xor_fitness_16_by_rounding :
    (∀ i : Fin 4,
      Float64.le Float64.zero
          (outputs ⟨0x3C30000000000000⟩ Float64.one Float64.one Float64.zero i) = true ∧
        Float64.le (outputs ⟨0x3C30000000000000⟩ Float64.one Float64.one Float64.zero i)
          Float64.one = true) ∧
      outputs ⟨0x3C30000000000000⟩ Float64.one Float64.one Float64.zero 0 ≠ Float64.zero ∧
      xorErrorSum Arith.binary64
          (outputs ⟨0x3C30000000000000⟩ Float64.one Float64.one Float64.zero) =
        ⟨0x3C30000000000000⟩ ∧
      Float64.sub (Float64.ofRatio 4 1) ⟨0x3C30000000000000⟩ = Float64.ofRatio 4 1 ∧
      (xor_evaluate Arith.binary64 (freshOrganism Arith.binary64) true
        (outputs ⟨0x3C30000000000000⟩ Float64.one Float64.one Float64.zero)).1.Fitness =
        Float64.ofRatio 16 1 ∧
      (xor_evaluate Arith.binary64 (freshOrganism Arith.binary64) true
        (outputs Float64.zero Float64.one Float64.one Float64.zero)).1.Fitness =
        Float64.ofRatio 16 1 := by
  decide

/-- The evaluation in exact arithmetic, for comparison with the `float64`
one: with the four outputs in `[0, 1]` the error is
`|o0| + |1 - o1| + |1 - o2| + |o3|` and the fitness `(4 - Error)^2`, between 0
and 16, and 16 exactly for the outputs `(0, 1, 1, 0)`. -/
theorem xor_fitness_exact {R : Type} [LinearOrderedField R] (organism : Organism R)
    (out : Fin 4 → R) (h01 : ∀ i, 0 ≤ out i ∧ out i ≤ 1) :
    (xor_evaluate (Arith.exact R) organism true out).1.Error =
        |out 0| + |1 - out 1| + |1 - out 2| + |out 3| ∧
      (xor_evaluate (Arith.exact R) organism true out).1.Fitness =
        (4 - (xor_evaluate (Arith.exact R) organism true out).1.Error) ^ 2 ∧
      0 ≤ (xor_evaluate (Arith.exact R) organism true out).1.Fitness ∧
      (xor_evaluate (Arith.exact R) organism true out).1.Fitness ≤ 16 ∧
      ((xor_evaluate (Arith.exact R) organism true out).1.Fitness = 16 ↔
        out 0 = 0 ∧ out 1 = 1 ∧ out 2 = 1 ∧ out 3 = 0) := by
  obtain ⟨hE, hF⟩ := xor_success_exact organism out
  obtain ⟨habs, hlo, hhi⟩ := xor_error_bounds out h01
  obtain ⟨a0, a1⟩ := h01 0
  obtain ⟨b0, b1⟩ := h01 1
  obtain ⟨c0, c1⟩ := h01 2
  obtain ⟨d0, d1⟩ := h01 3
  refine ⟨hE, hF, ?_, ?_, ?_⟩
  · rw [hF]
    positivity
  · rw [hF, hE, habs]
    nlinarith
  · rw [hF, hE, habs]
    constructor
    · intro h16
      have hzero : out 0 + (1 - out 1) + (1 - out 2) + out 3 = 0 := by nlinarith
      refine ⟨by linarith, by linarith, by linarith, by linarith⟩
    · rintro ⟨h0, h1, h2, h3⟩
      rw [h0, h1, h2, h3]
      norm_num

theorem outputs_unit_interval :
    ∀ i : Fin 4, (0 : ℚ) ≤ outputs (1 / 4) (3 / 4) 1 0 i ∧
      outputs (1 / 4 : ℚ) (3 / 4) 1 0 i ≤ 1 := by
  intro i
  fin_cases i <;> simp [outputs] <;> norm_num

theorem xor_fitness_exact_witness :
    (xor_evaluate (Arith.exact ℚ) (freshOrganism (Arith.exact ℚ)) true
        (outputs (1 / 4) (3 / 4) 1 0)).1.Error =
        |outputs (1 / 4 : ℚ) (3 / 4) 1 0 0| + |1 - outputs (1 / 4 : ℚ) (3 / 4) 1 0 1| +
          |1 - outputs (1 / 4 : ℚ) (3 / 4) 1 0 2| + |outputs (1 / 4 : ℚ) (3 / 4) 1 0 3| ∧
      (xor_evaluate (Arith.exact ℚ) (freshOrganism (Arith.exact ℚ)) true
        (outputs (1 / 4) (3 / 4) 1 0)).1.Fitness =
        (4 - (xor_evaluate (Arith.exact ℚ) (freshOrganism (Arith.exact ℚ)) true
          (outputs (1 / 4) (3 / 4) 1 0)).1.Error) ^ 2 ∧
      0 ≤ (xor_evaluate (Arith.exact ℚ) (freshOrganism (Arith.exact ℚ)) true
        (outputs (1 / 4) (3 / 4) 1 0)).1.Fitness ∧
      (xor_evaluate (Arith.exact ℚ) (freshOrganism (Arith.exact ℚ)) true
        (outputs (1 / 4) (3 / 4) 1 0)).1.Fitness ≤ 16 ∧
      ((xor_evaluate (Arith.exact ℚ) (freshOrganism (Arith.exact ℚ)) true
        (outputs (1 / 4) (3 / 4) 1 0)).1.Fitness = 16 ↔
        outputs (1 / 4 : ℚ) (3 / 4) 1 0 0 = 0 ∧ outputs (1 / 4 : ℚ) (3 / 4) 1 0 1 = 1 ∧
          outputs (1 / 4 : ℚ) (3 / 4) 1 0 2 = 1 ∧ outputs (1 / 4 : ℚ) (3 / 4) 1 0 3 = 0) :=
  xor_fitness_exact (freshOrganism (Arith.exact ℚ)) (outputs (1 / 4) (3 / 4) 1 0)
    outputs_unit_interval

set_option maxRecDepth 100000 in
/-- C15 (as stated, refuted): the outputs `(0.25, 0.75, 0.75, 0.25)` of a
successful activation make the organism a winner with the fitness 9, which is
below 15.5. -/
theorem xor_winner_with_fitness_9 :
    (xor_evaluate Arith.binary64 (freshOrganism Arith.binary64) true
        (outputs (Float64.ofRatio 1 4) (Float64.ofRatio 3 4) (Float64.ofRatio 3 4)
          (Float64.ofRatio 1 4))).2 = true ∧
      (xor_evaluate Arith.binary64 (freshOrganism Arith.binary64) true
        (outputs (Float64.ofRatio 1 4) (Float64.ofRatio 3 4) (Float64.ofRatio 3 4)
          (Float64.ofRatio 1 4))).1.IsWinner = true ∧
      (xor_evaluate Arith.binary64 (freshOrganism Arith.binary64) true
        (outputs (Float64.ofRatio 1 4) (Float64.ofRatio 3 4) (Float64.ofRatio 3 4)
          (Float64.ofRatio 1 4))).1.Fitness = Float64.ofRatio 9 1 ∧
      Float64.le (Float64.ofRatio 155 10) (Float64.ofRatio 9 1) = false := by
  decide

/-- The winner in exact arithmetic, for comparison with the `float64` one:
with outputs in `[0, 1]` the error is below 2 and the fitness above 4. -/
theorem xor_winner_fitness_exact {R : Type} [LinearOrderedField R]
    (organism : Organism R) (out : Fin 4 → R) (h01 : ∀ i, 0 ≤ out i ∧ out i ≤ 1)
    (hw : (xor_evaluate (Arith.exact R) organism true out).2 = true) :
    (xor_evaluate (Arith.exact R) organism true out).1.Error < 2 ∧
      4 < (xor_evaluate (Arith.exact R) organism true out).1.Fitness := by
  obtain ⟨hE, hF⟩ := xor_success_exact organism out
  obtain ⟨habs, hlo, hhi⟩ := xor_error_bounds out h01
  obtain ⟨h0, h1, h2, h3⟩ := (xor_evaluate_winner (Arith.exact R) organism true out).2.mp hw
  simp only [Arith.exact, precision, oneMinusPrecision, decide_eq_true_eq] at h0 h1 h2 h3
  have hhalf : ((5 : Nat) : R) / ((10 : Nat) : R) = 1 / 2 := by norm_num
  rw [hhalf] at h0 h1 h2 h3
  have hlt : out 0 + (1 - out 1) + (1 - out 2) + out 3 < 2 := by linarith
  constructor
  · rw [hE, habs]
    exact hlt
  · rw [hF, hE, habs]
    nlinarith

theorem outputs_winner_interval :
    ∀ i : Fin 4, (0 : ℚ) ≤ outputs (1 / 4) (3 / 4) (3 / 4) (1 / 4) i ∧
      outputs (1 / 4 : ℚ) (3 / 4) (3 / 4) (1 / 4) i ≤ 1 := by
  intro i
  fin_cases i <;> simp [outputs] <;> norm_num

theorem outputs_winner_flag :
    (xor_evaluate (Arith.exact ℚ) (freshOrganism (Arith.exact ℚ)) true
      (outputs (1 / 4) (3 / 4) (3 / 4) (1 / 4))).2 = true := by
  rw [(xor_evaluate_winner (Arith.exact ℚ) _ true _).2]
  simp only [Arith.exact, precision, oneMinusPrecision, outputs, decide_eq_true_eq]
  norm_num

theorem xor_winner_fitness_exact_witness :
    (xor_evaluate (Arith.exact ℚ) (freshOrganism (Arith.exact ℚ)) true
        (outputs (1 / 4) (3 / 4) (3 / 4) (1 / 4))).1.Error < 2 ∧
      4 < (xor_evaluate (Arith.exact ℚ) (freshOrganism (Arith.exact ℚ)) true
        (outputs (1 / 4) (3 / 4) (3 / 4) (1 / 4))).1.Fitness :=
  xor_winner_fitness_exact (freshOrganism (Arith.exact ℚ))
    (outputs (1 / 4) (3 / 4) (3 / 4) (1 / 4)) outputs_winner_interval outputs_winner_flag

set_option maxRecDepth 100000 in
/-- C16 (the code at the failing input): for the outputs `(0, 0.5, 0.5, 0)` the
outputs 1 and 2 are not greater than `1 - precision`, and `xor_evaluate` marks
the organism as winner. -/
theorem xor_winner_at_half :
    Float64.lt (oneMinusPrecision Arith.binary64)
        (outputs Float64.zero (Float64.ofRatio 1 2) (Float64.ofRatio 1 2) Float64.zero 1)
        = false ∧
      Float64.lt (oneMinusPrecision Arith.binary64)
        (outputs Float64.zero (Float64.ofRatio 1 2) (Float64.ofRatio 1 2) Float64.zero 2)
        = false ∧
      (xor_evaluate Arith.binary64 (freshOrganism Arith.binary64) true
        (outputs Float64.zero (Float64.ofRatio 1 2) (Float64.ofRatio 1 2)
          Float64.zero)).2 = true ∧
      (xor_evaluate Arith.binary64 (freshOrganism Arith.binary64) true
        (outputs Float64.zero (Float64.ofRatio 1 2) (Float64.ofRatio 1 2)
          Float64.zero)).1.IsWinner = true := by
  decide

set_option maxRecDepth 100000 in
/-- C17 (as stated, refuted): a failed activation is assigned the fitness 0.001,
and the successful activation with the outputs `(1, 0, 0, 1)` is assigned the
fitness 0, which is smaller. -/
theorem xor_failed_fitness_not_minimal :
    (xor_evaluate Arith.binary64 (freshOrganism Arith.binary64) false
        (outputs Float64.one Float64.zero Float64.zero Float64.one)).1.Fitness =
        Float64.ofRatio 1 1000 ∧
      (xor_evaluate Arith.binary64 (freshOrganism Arith.binary64) true
        (outputs Float64.one Float64.zero Float64.zero Float64.one)).1.Fitness =
        Float64.zero ∧
      Float64.le (Float64.ofRatio 1 1000) Float64.zero = false ∧
      Float64.lt Float64.zero (Float64.ofRatio 1 1000) = true := by
  decide

/-- The failed activation in exact arithmetic, for comparison with the
`float64` one: its fitness 0.001 is at most the fitness of a successful
activation with outputs in `[0, 1]` whose error is at most 3.96. -/
theorem xor_failed_fitness_exact {R : Type} [LinearOrderedField R]
    (organism : Organism R) (out failedOut : Fin 4 → R)
    (_h01 : ∀ i, 0 ≤ out i ∧ out i ≤ 1)
    (herr : (xor_evaluate (Arith.exact R) organism true out).1.Error ≤ 396 / 100) :
    (xor_evaluate (Arith.exact R) organism false failedOut).1.Fitness = 1 / 1000 ∧
      (xor_evaluate (Arith.exact R) organism false failedOut).1.Fitness ≤
        (xor_evaluate (Arith.exact R) organism true out).1.Fitness := by
  obtain ⟨hE, hF⟩ := xor_success_exact organism out
  have hfail : (xor_evaluate (Arith.exact R) organism false failedOut).1.Fitness
      = 1 / 1000 := by
    by_cases hc : xorWinner (Arith.exact R) failedOut = true
    · simp only [xor_evaluate, hc, if_true]
      simp [Arith.exact]
    · simp only [xor_evaluate, hc, if_true]
      simp [Arith.exact]
  refine ⟨hfail, ?_⟩
  rw [hfail, hF]
  nlinarith

theorem outputs_winner_error :
    (xor_evaluate (Arith.exact ℚ) (freshOrganism (Arith.exact ℚ)) true
      (outputs (1 / 4) (3 / 4) (3 / 4) (1 / 4))).1.Error ≤ 396 / 100 := by
  rw [(xor_success_exact _ _).1, (xor_error_bounds _ outputs_winner_interval).1]
  simp only [outputs]
  norm_num

theorem xor_failed_fitness_exact_witness :
    (xor_evaluate (Arith.exact ℚ) (freshOrganism (Arith.exact ℚ)) false
        (outputs 0 0 0 0)).1.Fitness = 1 / 1000 ∧
      (xor_evaluate (Arith.exact ℚ) (freshOrganism (Arith.exact ℚ)) false
        (outputs 0 0 0 0)).1.Fitness ≤
        (xor_evaluate (Arith.exact ℚ) (freshOrganism (Arith.exact ℚ)) true
          (outputs (1 / 4) (3 / 4) (3 / 4) (1 / 4))).1.Fitness :=
  xor_failed_fitness_exact (freshOrganism (Arith.exact ℚ))
    (outputs (1 / 4) (3 / 4) (3 / 4) (1 / 4)) (outputs 0 0 0 0)
    outputs_winner_interval outputs_winner_error

/-! ### Generation statistics -/

theorem fillSpeciesLoop_lengths {R : Type} (A : Arith R) (species : List (Species R)) :
    ∀ (i : Nat) (m : R) (epoch result : Epoch R),
    fillSpeciesLoop A species i m epoch = some result →
    result.Diversity = epoch.Diversity ∧ result.Age.length = epoch.Age.length ∧
      result.Compexity.length = epoch.Compexity.length ∧
      result.Fitness.length = epoch.Fitness.length := by
  induction species with
  | nil =>
    intro i m epoch result h
    simp only [fillSpeciesLoop, Option.some.injEq] at h
    subst h
    exact ⟨rfl, rfl, rfl, rfl⟩
  | cons sp rest ih =>
    intro i m epoch result h
    unfold fillSpeciesLoop at h
    split at h
    · cases h
    · dsimp only at h
      split at h
      · obtain ⟨h1, h2, h3, h4⟩ := ih _ _ _ _ h
        simp only [List.length_set] at h2 h3 h4
        exact ⟨h1, h2, h3, h4⟩
      · obtain ⟨h1, h2, h3, h4⟩ := ih _ _ _ _ h
        simp only [List.length_set] at h2 h3 h4
        exact ⟨h1, h2, h3, h4⟩

/-- When the statistics are filled, `Diversity` and the lengths of the `Fitness`,
`Age` and `Compexity` vectors equal the number of species. -/
theorem fillStatistics_lengths {R : Type} (A : Arith R) (species : List (Species R))
    (epoch result : Epoch R) (h : fillStatistics A species epoch = some result) :
    result.Diversity = (species.length : Int) ∧ result.Age.length = species.length ∧
      result.Compexity.length = species.length ∧
      result.Fitness.length = species.length := by
  obtain ⟨h1, h2, h3, h4⟩ := fillSpeciesLoop_lengths A species _ _ _ _ h
  simp only [List.length_replicate] at h2 h3 h4
  exact ⟨h1, h2, h3, h4⟩

set_option maxRecDepth 100000 in
/-- C18 (the code at the failing input): for an unsolved generation over one
species whose organisms have the positive fitness 1.0 and 2.0, in this order,
the statistics have `Diversity` and the vector lengths equal to the number of
species, and `Best` is the first organism, with fitness 1.0, although the
maximum fitness over all organisms is 2.0. -/
theorem fillStatistics_best_is_first_organism :
    (fillStatistics Arith.binary64 unsortedSpecies emptyEpoch).map (fun e => e.Best) =
        some (some (organismWithFitness Float64.one)) ∧
      (fillStatistics Arith.binary64 unsortedSpecies emptyEpoch).map
        (fun e => (e.Diversity, e.Fitness.length, e.Age.length, e.Compexity.length)) =
        some (1, 1, 1, 1) ∧
      organismWithFitness Float64.two ∈
        unsortedSpecies.flatMap (fun s => s.Organisms) ∧
      Float64.lt (organismWithFitness Float64.one).Fitness
        (organismWithFitness Float64.two).Fitness = true ∧
      (∀ o ∈ unsortedSpecies.flatMap (fun s => s.Organisms),
        Float64.lt Float64.zero o.Fitness = true) := by
  decide

/-! ### Flush check -/

/-- When `FlushbackCheck` returns an error: exactly when the activation count or
one of the three activation values is greater than 0. -/
theorem flushbackCheck_error_iff (n : NNode) :
    n.FlushbackCheck ≠ none ↔
      (n.ActivationsCount > 0 ∨ Float64.lt Float64.zero n.Activation = true ∨
        Float64.lt Float64.zero n.lastActivation = true ∨
        Float64.lt Float64.zero n.lastActivation2 = true) := by
  unfold NNode.FlushbackCheck
  split_ifs with h1 h2 h3 h4 <;> simp_all

/-- C21 (the code at the failing input): a node whose activation is -1.0 is not
flushed, and `FlushbackCheck` returns no error for it; the same holds for a
node whose activation count is -1. -/
theorem flushbackCheck_misses_negative :
    ({ hiddenNode with Activation := Float64.neg Float64.one } : NNode).Activation
        ≠ Float64.zero ∧
      ({ hiddenNode with Activation := Float64.neg Float64.one } : NNode).FlushbackCheck
        = none ∧
      ({ hiddenNode with ActivationsCount := -1 } : NNode).FlushbackCheck = none := by
  decide

/-! ### The final save step -/

/-- C26: when the creation of the results file succeeds the program calls
`log.Fatal` and does not write the experiment data; the write is attempted
exactly when the creation of the file failed. -/
theorem saveExperimentData_inverted (createErr writeErr : Option String) :
    saveExperimentData none writeErr = [SaveAction.fatalCreate] ∧
      SaveAction.writeData ∉ saveExperimentData none writeErr ∧
      (SaveAction.writeData ∈ saveExperimentData createErr writeErr ↔ createErr ≠ none) := by
  refine ⟨rfl, by simp [saveExperimentData], ?_⟩
  unfold saveExperimentData
  split_ifs with h1 h2 <;> simp [h1]

/-! ### float64 arithmetic: small integers -/

/-- The number of binary digits is determined by the two bounds. -/
theorem bitLength_unique (n L : Nat) (hlo : 2 ^ (L - 1) ≤ n) (hhi : n < 2 ^ L)
    (hL : 0 < L) : Float64.bitLength n = L := by
  have h0 : n ≠ 0 := by
    have := Nat.two_pow_pos (L - 1)
    omega
  obtain ⟨h1, h2⟩ := bitLength_spec n h0
  have hb : 0 < Float64.bitLength n := by
    rcases Nat.eq_zero_or_pos (Float64.bitLength n) with h | h
    · rw [h] at h2
      simp at h2
      exact absurd h2 h0
    · exact h
  have ha : Float64.bitLength n - 1 < L :=
    (Nat.pow_lt_pow_iff_right (by decide : 1 < 2)).1 (lt_of_le_of_lt h1 hhi)
  have hc : L - 1 < Float64.bitLength n :=
    (Nat.pow_lt_pow_iff_right (by decide : 1 < 2)).1 (lt_of_le_of_lt hlo h2)
  omega

/-- A magnitude `m * 2^e` with `m` below `2^53` is rounded to itself: the bits
that `roundMag` gives are those of a finite value of this magnitude. -/
theorem roundMag_scaled (m e : Nat) (h0 : 0 < m) (hm : m < 2 ^ 53) (he1 : 53 ≤ e)
    (he2 : e ≤ 1074) :
    Float64.roundMag (m * 2 ^ e) 0 < 0x7FF0000000000000 ∧
      Float64.magUnits ⟨Float64.roundMag (m * 2 ^ e) 0⟩ = m * 2 ^ e := by
  obtain ⟨hb1, hb2⟩ := bitLength_spec m (by omega)
  set b := Float64.bitLength m with hbdef
  have hbpos : 0 < b := by
    rcases Nat.eq_zero_or_pos b with h | h
    · rw [h] at hb2
      simp at hb2
      omega
    · exact h
  have hb53 : b ≤ 53 := by
    have : b - 1 < 53 :=
      (Nat.pow_lt_pow_iff_right (by decide : 1 < 2)).1 (lt_of_le_of_lt hb1 hm)
    omega
  have hbl : Float64.bitLength (m * 2 ^ e) = b + e := by
    apply bitLength_unique
    · have : b + e - 1 = (b - 1) + e := by omega
      rw [this, pow_add]
      exact Nat.mul_le_mul_right _ hb1
    · rw [pow_add]
      exact Nat.mul_lt_mul_of_pos_right hb2 (Nat.two_pow_pos e)
    · omega
  have hapos : m * 2 ^ e ≠ 0 := Nat.ne_of_gt (Nat.mul_pos h0 (Nat.two_pow_pos e))
  have hshift : max (b + e - 53) 0 = b + e - 53 := Nat.max_eq_left (Nat.zero_le _)
  have hexp : e = (53 - b) + (b + e - 53) := by omega
  have hsplit : m * 2 ^ e = (m * 2 ^ (53 - b)) * 2 ^ (b + e - 53) := by
    rw [Nat.mul_assoc, ← pow_add, ← hexp]
  have hpp : 0 < 2 ^ (b + e - 53) := Nat.two_pow_pos _
  have hdiv : m * 2 ^ e / 2 ^ (b + e - 53) = m * 2 ^ (53 - b) := by
    rw [hsplit]
    exact Nat.mul_div_cancel _ hpp
  have hmod : m * 2 ^ e % 2 ^ (b + e - 53) = 0 := by
    rw [hsplit]
    exact Nat.mul_mod_left _ _
  have h52s : 52 = (b - 1) + (53 - b) := by omega
  have h53s : 53 = b + (53 - b) := by omega
  have hMlo : 2 ^ 52 ≤ m * 2 ^ (53 - b) := by
    have : (2 : Nat) ^ 52 = 2 ^ (b - 1) * 2 ^ (53 - b) := by
      rw [← pow_add, ← h52s]
    rw [this]
    exact Nat.mul_le_mul_right _ hb1
  have hMhi : m * 2 ^ (53 - b) < 2 ^ 53 := by
    have : (2 : Nat) ^ 53 = 2 ^ b * 2 ^ (53 - b) := by
      rw [← pow_add, ← h53s]
    rw [this]
    exact Nat.mul_lt_mul_of_pos_right hb2 (Nat.two_pow_pos _)
  have hhalf : 0 < 2 ^ (b + e - 53 - 1) := Nat.two_pow_pos _
  have h52 : (2 : Nat) ^ 52 = 4503599627370496 := by norm_num
  have h53 : (2 : Nat) ^ 53 = 9007199254740992 := by norm_num
  have hfin : (b + e - 53) * 2 ^ 52 + m * 2 ^ (53 - b) < 0x7FF0000000000000 := by
    rw [h52]
    rw [h53] at hMhi
    omega
  have hbits : Float64.roundMag (m * 2 ^ e) 0 =
      (b + e - 53) * 2 ^ 52 + m * 2 ^ (53 - b) := by
    simp only [Float64.roundMag, if_neg hapos, hbl, hshift, Nat.shiftRight_eq_div_pow,
      Nat.shiftLeft_eq, Nat.one_mul, hdiv, hmod, Nat.sub_zero]
    have hne : b + e - 53 ≠ 0 := by omega
    have hno : ¬ (0 > 2 ^ (b + e - 53 - 1) ∨
        (0 = 2 ^ (b + e - 53 - 1) ∧ m * 2 ^ (53 - b) % 2 = 1)) := by
      rintro (h | ⟨h, _⟩) <;> omega
    rw [if_neg hne, if_neg hno, if_neg (not_le.mpr hfin)]
  refine ⟨by rw [hbits]; exact hfin, ?_⟩
  rw [hbits, magUnits_encode (b + e - 53) (m * 2 ^ (53 - b)) (le_of_lt hMhi)
    (fun h => absurd hMlo (not_le.mpr h)) hfin]
  exact hsplit.symm

theorem one_shiftLeft (e : Nat) : 1 <<< e = 2 ^ e := by
  rw [Nat.shiftLeft_eq, Nat.one_mul]

theorem one_shiftLeft_pos (e : Nat) : 0 < 1 <<< e := by
  rw [one_shiftLeft]
  exact Nat.two_pow_pos _

theorem shiftLeft_eq_mul_one_shiftLeft (m e : Nat) : m <<< e = m * (1 <<< e) := by
  rw [one_shiftLeft, Nat.shiftLeft_eq]

theorem shiftRight_eq_div_one_shiftLeft (m e : Nat) : m >>> e = m / (1 <<< e) := by
  rw [one_shiftLeft, Nat.shiftRight_eq_div_pow]

theorem oneUnits_pos : 0 < Float64.oneUnits := one_shiftLeft_pos 1074

theorem shiftLeft_oneUnits (m : Nat) : m <<< 1074 = m * Float64.oneUnits :=
  shiftLeft_eq_mul_one_shiftLeft m 1074

theorem shiftRight_oneUnits (m : Nat) : m >>> 1074 = m / Float64.oneUnits :=
  shiftRight_eq_div_one_shiftLeft m 1074

/-- An integer `m` below `2^53` is rounded to itself. -/
theorem roundMag_oneUnits (m : Nat) (h0 : 0 < m) (hm : m < 2 ^ 53) :
    Float64.roundMag (m * Float64.oneUnits) 0 < 0x7FF0000000000000 ∧
      Float64.magUnits ⟨Float64.roundMag (m * Float64.oneUnits) 0⟩ =
        m * Float64.oneUnits := by
  unfold Float64.oneUnits
  rw [one_shiftLeft]
  exact roundMag_scaled m 1074 h0 hm (by omega) (by omega)

/-- A finite magnitude with a sign bit: the fields of the result. -/
theorem withSign_fields (s : Bool) (bits : Nat) (h : bits < 0x7FF0000000000000) :
    (Float64.withSign s bits).signBit = s ∧ (Float64.withSign s bits).isNaN = false ∧
      (Float64.withSign s bits).isInf = false ∧
      (Float64.withSign s bits).magUnits = Float64.magUnits ⟨bits⟩ := by
  have hexp : (Float64.withSign s bits).expField = Float64.expField ⟨bits⟩ := by
    cases s <;>
      simp only [Float64.withSign, Float64.expField, Nat.shiftRight_eq_div_pow,
        Nat.shiftLeft_eq, Nat.one_mul, if_true, Bool.false_eq_true, if_false]
    norm_num
    omega
  have hfrac : (Float64.withSign s bits).fracField = Float64.fracField ⟨bits⟩ := by
    cases s <;>
      simp only [Float64.withSign, Float64.fracField, Nat.shiftLeft_eq, Nat.one_mul,
        if_true, Bool.false_eq_true, if_false]
    norm_num
    omega
  have hfinite : Float64.expField ⟨bits⟩ ≠ 2047 := by
    simp only [Float64.expField, Nat.shiftRight_eq_div_pow]
    norm_num
    omega
  refine ⟨?_, ?_, ?_, ?_⟩
  · cases s <;>
      simp only [Float64.withSign, Float64.signBit, Nat.shiftRight_eq_div_pow,
        Nat.shiftLeft_eq, Nat.one_mul, if_true, Bool.false_eq_true, if_false,
        decide_eq_true_eq, decide_eq_false_iff_not] <;>
      norm_num <;> omega
  · simp only [Float64.isNaN, hexp, decide_eq_false_iff_not]
    exact fun h1 => hfinite h1.1
  · simp only [Float64.isInf, hexp, decide_eq_false_iff_not]
    exact fun h1 => hfinite h1.1
  · simp only [Float64.magUnits, hexp, hfrac]

/-- The integer `m` below `2^53` with a sign is a `float64`. -/
theorem holdsInt_withSign (s : Bool) (m : Nat) (hm : m < 2 ^ 53) :
    Float64.holdsInt (Float64.withSign s (Float64.roundMag (m * Float64.oneUnits) 0))
      (if s then -(m : Int) else (m : Int)) := by
  have hbits : Float64.roundMag (m * Float64.oneUnits) 0 < 0x7FF0000000000000 ∧
      Float64.magUnits ⟨Float64.roundMag (m * Float64.oneUnits) 0⟩ = m * Float64.oneUnits := by
    rcases Nat.eq_zero_or_pos m with h0 | h0
    · subst h0
      simp [Float64.roundMag, Float64.magUnits, Float64.expField, Float64.fracField]
    · exact roundMag_oneUnits m h0 hm
  obtain ⟨h1, h2, h3, h4⟩ := withSign_fields s _ hbits.1
  refine ⟨h2, h3, ?_⟩
  simp only [Float64.units, h1, h4, hbits.2]
  cases s <;> simp

/-- The negation of an integer. -/
theorem holdsInt_neg (y : Float64) (b : Int) (h : Float64.holdsInt y b) :
    Float64.holdsInt (Float64.neg y) (-b) := by
  obtain ⟨hn, hi, hu⟩ := h
  have hexp : y.expField ≠ 2047 := by
    intro he
    simp only [Float64.isNaN, Float64.isInf, decide_eq_false_iff_not, he, true_and] at hn hi
    exact hn hi
  have hlt : y.bits % (1 <<< 63) < 0x7FF0000000000000 := by
    simp only [Float64.expField, Nat.shiftRight_eq_div_pow] at hexp
    simp only [Nat.shiftLeft_eq, Nat.one_mul]
    norm_num at hexp ⊢
    omega
  obtain ⟨h1, h2, h3, h4⟩ := withSign_fields (!y.signBit) _ hlt
  have hmag : Float64.magUnits ⟨y.bits % (1 <<< 63)⟩ = y.magUnits := by
    have e1 : Float64.expField ⟨y.bits % (1 <<< 63)⟩ = y.expField := by
      simp only [Float64.expField, Nat.shiftRight_eq_div_pow, Nat.shiftLeft_eq, Nat.one_mul]
      norm_num
      omega
    have e2 : Float64.fracField ⟨y.bits % (1 <<< 63)⟩ = y.fracField := by
      simp only [Float64.fracField, Nat.shiftLeft_eq, Nat.one_mul]
      norm_num
    simp only [Float64.magUnits, e1, e2]
  refine ⟨h2, h3, ?_⟩
  simp only [Float64.units] at hu
  simp only [Float64.neg, Float64.units, h1, h4, hmag]
  cases hs : y.signBit <;> simp [hs] at hu ⊢ <;> linarith

/-- The sum of two integers, when it is below `2^53` in magnitude. -/
theorem holdsInt_add (x y : Float64) (a b : Int) (hx : Float64.holdsInt x a)
    (hy : Float64.holdsInt y b) (hab : (a + b).natAbs < 2 ^ 53) :
    Float64.holdsInt (Float64.add x y) (a + b) := by
  obtain ⟨hxn, hxi, hxu⟩ := hx
  obtain ⟨hyn, hyi, hyu⟩ := hy
  have hs : x.units + y.units = (a + b) * (Float64.oneUnits : Int) := by
    rw [hxu, hyu]
    ring
  have hpos : (0 : Int) < (Float64.oneUnits : Int) := by
    exact_mod_cast oneUnits_pos
  simp only [Float64.add, hxn, hyn, hxi, hyi, Bool.or_self, Bool.false_eq_true, if_false]
  by_cases h0 : a + b = 0
  · have hz : x.units + y.units = 0 := by rw [hs, h0, zero_mul]
    simp only [hz, if_true]
    have := holdsInt_withSign (x.signBit && y.signBit) 0 (by norm_num)
    simp only [Nat.zero_mul, Float64.roundMag, if_true] at this
    rw [h0]
    simpa using this
  · have hnz : x.units + y.units ≠ 0 := by
      rw [hs]
      exact mul_ne_zero h0 (ne_of_gt hpos)
    simp only [hnz, if_false]
    have hna : (x.units + y.units).natAbs = (a + b).natAbs * Float64.oneUnits := by
      rw [hs, Int.natAbs_mul, Int.natAbs_ofNat]
    have hneg : decide (x.units + y.units < 0) = decide (a + b < 0) := by
      rw [hs]
      congr 1
      exact propext ⟨fun h => by
          by_contra hc
          exact absurd h (not_lt.mpr (mul_nonneg (not_lt.mp hc) (le_of_lt hpos))),
        fun h => mul_neg_of_neg_of_pos h hpos⟩
    rw [hna, hneg]
    have := holdsInt_withSign (decide (a + b < 0)) (a + b).natAbs hab
    have hval : (if decide (a + b < 0) = true then -(((a + b).natAbs : Nat) : Int)
        else (((a + b).natAbs : Nat) : Int)) = a + b := by
      by_cases hlt : a + b < 0
      · simp only [hlt, decide_True, if_true]
        omega
      · simp only [hlt, decide_False, Bool.false_eq_true, if_false]
        omega
    rw [hval] at this
    exact this

/-- The difference of two integers, when it is below `2^53` in magnitude. -/
theorem holdsInt_sub (x y : Float64) (a b : Int) (hx : Float64.holdsInt x a)
    (hy : Float64.holdsInt y b) (hab : (a - b).natAbs < 2 ^ 53) :
    Float64.holdsInt (Float64.sub x y) (a - b) := by
  have := holdsInt_add x (Float64.neg y) a (-b) hx (holdsInt_neg y b hy)
    (by rw [← sub_eq_add_neg]; exact hab)
  rw [← sub_eq_add_neg] at this
  exact this

/-- The conversion of an integer below `2^53` in magnitude. -/
theorem holdsInt_ofInt (n : Int) (hn : n.natAbs < 2 ^ 53) :
    Float64.holdsInt (Float64.ofInt n) n := by
  have := holdsInt_withSign (decide (n < 0)) n.natAbs hn
  have hval : (if decide (n < 0) = true then -((n.natAbs : Nat) : Int)
      else ((n.natAbs : Nat) : Int)) = n := by
    by_cases hlt : n < 0
    · simp only [hlt, decide_True, if_true]
      omega
    · simp only [hlt, decide_False, Bool.false_eq_true, if_false]
      omega
  rw [hval] at this
  simp only [Float64.ofInt, shiftLeft_oneUnits]
  exact this

/-- Go: `int(x)` of a `float64` that is an integer gives this integer. -/
theorem toInt_holdsInt (x : Float64) (k : Int) (h : Float64.holdsInt x k)
    (hk : k.natAbs < 2 ^ 63) : Float64.toInt x = k := by
  obtain ⟨hn, hi, hu⟩ := h
  have hpos : 0 < Float64.oneUnits := oneUnits_pos
  have hmag : x.magUnits = k.natAbs * Float64.oneUnits := by
    have := congrArg Int.natAbs hu
    rw [Int.natAbs_mul, Int.natAbs_ofNat] at this
    rw [← this]
    simp only [Float64.units]
    split_ifs <;> simp
  have hq : x.magUnits >>> 1074 = k.natAbs := by
    rw [shiftRight_oneUnits, hmag]
    exact Nat.mul_div_cancel _ hpos
  have h63 : (2 : Nat) ^ 63 = 9223372036854775808 := by norm_num
  rw [h63] at hk
  simp only [Float64.toInt, hn, hq, Bool.false_or, decide_eq_true_eq]
  rw [if_neg (by omega)]
  simp only [Float64.units, hmag] at hu
  have hposI : (0 : Int) < (Float64.oneUnits : Int) := by exact_mod_cast hpos
  by_cases hs : x.signBit = true
  · simp only [hs, if_true] at hu ⊢
    have : -((k.natAbs : Nat) : Int) = k := by
      have h2 : (-((k.natAbs : Nat) : Int)) * (Float64.oneUnits : Int) =
          k * (Float64.oneUnits : Int) := by
        rw [← hu]
        push_cast
        ring
      exact mul_right_cancel₀ (ne_of_gt hposI) h2
    exact this
  · simp only [hs, Bool.false_eq_true, if_false] at hu ⊢
    have h2 : (((k.natAbs : Nat) : Int)) * (Float64.oneUnits : Int) =
        k * (Float64.oneUnits : Int) := by
      rw [← hu]
      push_cast
      ring
    exact mul_right_cancel₀ (ne_of_gt hposI) h2

set_option maxRecDepth 100000 in
/-- Sample values of the division and of the conversion to an integer, against
the results of Go on amd64: 1/3, 0.01/6, -7.5/0.3, a quotient below the smallest
positive value, an overflow; `int` of 1000, -2.5, 0.9999, 1e300 and -0. -/
theorem float64_div_samples :
    Float64.div ⟨0x3FF0000000000000⟩ ⟨0x4008000000000000⟩ = ⟨0x3FD5555555555555⟩ ∧
      Float64.div ⟨4576918229304087675⟩ ⟨4618441417868443648⟩ = ⟨4565328966262987599⟩ ∧
      Float64.div ⟨13843502304583483392⟩ ⟨4599075939470750515⟩ = ⟨13851102128954671104⟩ ∧
      Float64.div ⟨1⟩ ⟨4613937818241073152⟩ = ⟨0⟩ ∧
      Float64.div ⟨9214871658872686752⟩ ⟨4457293557087583675⟩ = ⟨9218868437227405312⟩ ∧
      Float64.toInt ⟨4652007308841189376⟩ = 1000 ∧
      Float64.toInt ⟨13836183955189006336⟩ = (-2) ∧
      Float64.toInt ⟨4607181518080091934⟩ = 0 ∧
      Float64.toInt ⟨9094988921128908188⟩ = (-9223372036854775808) ∧
      Float64.toInt ⟨9223372036854775808⟩ = 0 := by
  decide


/-! ### The cart-pole simulation -/

/-- The call of `step` changes neither the cart-pole nor the array of its
caller. -/
theorem step_changes_nothing {R : Type} (P : PoleArith R) (cp : CartPole R) (action : R)
    (derivs : Fin 6 → R) : cp.step P action derivs = (cp, derivs) :=
  rfl

/-- C22 (the code at every input): the output of the network has no influence on
the result of `performAction`: for every cart-pole, every step number and any two
outputs the results are equal. The output only reaches `step`, whose result is
lost. -/
theorem performAction_ignores_output {R : Type} (P : PoleArith R) (cp : CartPole R)
    (output1 output2 step_num : R) :
    cp.performAction P output1 step_num = cp.performAction P output2 step_num ∧
      (∀ (derivs : Fin 6 → R), cp.step P output1 derivs = cp.step P output2 derivs) ∧
      (∀ (dydx : Fin 6 → R) (tau : R),
        cp.rk4 P output1 dydx tau = cp.rk4 P output2 dydx tau) :=
  ⟨rfl, fun _ => rfl, fun _ _ => rfl⟩

theorem writeJiggle_state {R : Type} (P : PoleArith R) (cp cp1 : CartPole R)
    (step_num : R) (h : cp.writeJiggle P step_num = some cp1) : cp1.state = cp.state := by
  simp only [CartPole.writeJiggle] at h
  split_ifs at h with h1 h2
  · simp only [Option.some.injEq] at h
    subst h
    rfl
  · simp only [Option.some.injEq] at h
    subst h
    rfl

theorem countBalanced_state {R : Type} (P : PoleArith R) (cp : CartPole R) :
    (cp.countBalanced P).state = cp.state := by
  simp only [CartPole.countBalanced]
  split_ifs <;> rfl

/-- The write to `jiggleStep` fails exactly when the step number is at most 1000
and the index is out of range. -/
theorem writeJiggle_eq_none {R : Type} (P : PoleArith R) (cp : CartPole R) (step_num : R) :
    cp.writeJiggle P step_num = none ↔
      (P.le step_num (P.ratio 1000 1) = true ∧
        ¬ (0 ≤ jiggleIndex P step_num ∧ jiggleIndex P step_num < 1000)) := by
  simp only [CartPole.writeJiggle]
  split_ifs with h1 h2
  · simp [h2]
  · simp [h1, h2]
  · simp [h1]

/-- The write to `jiggleStep` decides whether `performAction` returns. -/
theorem performAction_eq_none {R : Type} (P : PoleArith R) (cp : CartPole R)
    (output step_num : R) :
    cp.performAction P output step_num = none ↔
      (P.le step_num (P.ratio 1000 1) = true ∧
        ¬ (0 ≤ jiggleIndex P step_num ∧ jiggleIndex P step_num < 1000)) := by
  rw [← writeJiggle_eq_none P
    ((CartPole.integrate P output 2 (cp, fun _ => P.ratio 0 1)).1.recordSums P) step_num]
  simp only [CartPole.performAction]
  split <;> simp_all

/-- When `performAction` returns, the state is that after the two rounds of the
integration. -/
theorem performAction_state {R : Type} (P : PoleArith R) (cp cp1 : CartPole R)
    (output step_num : R) (h : cp.performAction P output step_num = some cp1) :
    cp1.state = (CartPole.integrate P output 2 (cp, fun _ => P.ratio 0 1)).1.state := by
  simp only [CartPole.performAction] at h
  split at h
  · exact absurd h (by simp)
  · rename_i w hw
    simp only [Option.some.injEq] at h
    subst h
    rw [countBalanced_state, writeJiggle_state P _ _ _ hw]
    rfl

/-- In exact arithmetic one call of `rk4` adds `tau` times the derivative to
every component of the state, when the array `dydx` holds the velocities at
the indices 0, 2, 4 and zeros at the indices 1, 3, 5. -/
theorem rk4_exact {R : Type} [LinearOrderedField R] [FloorRing R] (cos sin : R → R)
    (cp : CartPole R) (f tau : R) (dydx : Fin 6 → R)
    (h0 : dydx 0 = cp.state 1) (h1 : dydx 1 = 0) (h2 : dydx 2 = cp.state 3)
    (h3 : dydx 3 = 0) (h4 : dydx 4 = cp.state 5) (h5 : dydx 5 = 0) (i : Fin 6) :
    (cp.rk4 (PoleArith.exact R cos sin) f dydx tau).state i = cp.state i + tau * dydx i := by
  fin_cases i <;>
    simp [CartPole.rk4, CartPole.step, forIndex6, PoleArith.exact, Arith.exact,
      Function.update, h0, h1, h2, h3, h4, h5] <;>
    ring

/-- In exact arithmetic `n` rounds of the integration leave the velocities
unchanged and add `n * TAU` times the velocity to each position. -/
theorem integrate_exact {R : Type} [LinearOrderedField R] [FloorRing R] (cos sin : R → R)
    (output : R) (n : Nat) :
    ∀ (cp : CartPole R) (dydx : Fin 6 → R), dydx 1 = 0 → dydx 3 = 0 → dydx 5 = 0 →
      ((CartPole.integrate (PoleArith.exact R cos sin) output n (cp, dydx)).1.state 1
          = cp.state 1 ∧
        (CartPole.integrate (PoleArith.exact R cos sin) output n (cp, dydx)).1.state 3
          = cp.state 3 ∧
        (CartPole.integrate (PoleArith.exact R cos sin) output n (cp, dydx)).1.state 5
          = cp.state 5 ∧
        (CartPole.integrate (PoleArith.exact R cos sin) output n (cp, dydx)).1.state 0
          = cp.state 0 + (n : R) * (1 / 100) * cp.state 1 ∧
        (CartPole.integrate (PoleArith.exact R cos sin) output n (cp, dydx)).1.state 2
          = cp.state 2 + (n : R) * (1 / 100) * cp.state 3 ∧
        (CartPole.integrate (PoleArith.exact R cos sin) output n (cp, dydx)).1.state 4
          = cp.state 4 + (n : R) * (1 / 100) * cp.state 5) := by
  induction n with
  | zero =>
    intro cp dydx _ _ _
    simp [CartPole.integrate]
  | succ n ih =>
    intro cp dydx h1 h3 h5
    have hd : ∀ i : Fin 6,
        (Function.update (Function.update (Function.update dydx 0 (cp.state 1)) 2
          (cp.state 3)) 4 (cp.state 5)) i =
          if i = 0 then cp.state 1 else if i = 2 then cp.state 3
          else if i = 4 then cp.state 5 else 0 := by
      intro i
      fin_cases i <;> simp [Function.update, h1, h3, h5]
    have hrk := rk4_exact cos sin cp output (1 / 100)
      (Function.update (Function.update (Function.update dydx 0 (cp.state 1)) 2
          (cp.state 3)) 4 (cp.state 5))
      (by rw [hd]; simp) (by rw [hd]; simp) (by rw [hd]; simp) (by rw [hd]; simp)
      (by rw [hd]; simp) (by rw [hd]; simp)
    have hnext := ih
      (cp.rk4 (PoleArith.exact R cos sin) output
        (Function.update (Function.update (Function.update dydx 0 (cp.state 1)) 2
          (cp.state 3)) 4 (cp.state 5)) (1 / 100))
      (Function.update (Function.update (Function.update dydx 0 (cp.state 1)) 2
          (cp.state 3)) 4 (cp.state 5))
      (by rw [hd]; simp) (by rw [hd]; simp) (by rw [hd]; simp)
    have hratio : (PoleArith.exact R cos sin).ratio 1 100 = (1 / 100 : R) := by
      simp [PoleArith.exact, Arith.exact]
    simp only [CartPole.integrate, CartPole.step, hratio]
    obtain ⟨e1, e3, e5, e0, e2, e4⟩ := hnext
    rw [e1, e3, e5, e0, e2, e4]
    simp only [hrk, hd]
    push_cast
    refine ⟨by simp, by simp, by simp, ?_, ?_, ?_⟩ <;> simp <;> ring

/-- In exact arithmetic the index of the write to `jiggleStep` is in range for
every step number from 1 to 1000. -/
theorem jiggleIndex_exact {R : Type} [LinearOrderedField R] [FloorRing R] (cos sin : R → R)
    (step_num : R) (h1 : 1 ≤ step_num) (h2 : step_num ≤ 1000) :
    0 ≤ jiggleIndex (PoleArith.exact R cos sin) step_num ∧
      jiggleIndex (PoleArith.exact R cos sin) step_num < 1000 := by
  have hpos : (0 : R) ≤ step_num := le_trans zero_le_one h1
  have habs : |step_num| = step_num := abs_of_nonneg hpos
  have hlo : (1 : Int) ≤ ⌊step_num⌋ := Int.le_floor.mpr (by simpa using h1)
  have hhi : ⌊step_num⌋ ≤ (1000 : Int) := by
    have : ⌊step_num⌋ < (1000 : Int) + 1 := Int.floor_lt.mpr (by push_cast; linarith)
    omega
  have hnot : ¬ step_num < 0 := not_lt.mpr hpos
  simp only [jiggleIndex, PoleArith.exact, habs, wrapInt64]
  rw [if_neg (by omega), if_neg hnot]
  omega

/-- C27: in exact arithmetic, for every cart-pole, every output and every step
number from 1 on, `performAction` returns, leaves the velocities `state[1]`,
`state[3]`, `state[5]` unchanged and adds 0.02 times the velocity to each
position; and a call of `step` changes neither the array passed to it nor the
cart-pole. -/
theorem performAction_exact {R : Type} [LinearOrderedField R] [FloorRing R]
    (cos sin : R → R) (cp : CartPole R) (output step_num : R) (h : 1 ≤ step_num) :
    (∃ cp1 : CartPole R,
      cp.performAction (PoleArith.exact R cos sin) output step_num = some cp1 ∧
        cp1.state 1 = cp.state 1 ∧ cp1.state 3 = cp.state 3 ∧ cp1.state 5 = cp.state 5 ∧
        cp1.state 0 = cp.state 0 + 2 / 100 * cp.state 1 ∧
        cp1.state 2 = cp.state 2 + 2 / 100 * cp.state 3 ∧
        cp1.state 4 = cp.state 4 + 2 / 100 * cp.state 5) ∧
      ∀ (c : CartPole R) (action : R) (derivs : Fin 6 → R),
        c.step (PoleArith.exact R cos sin) action derivs = (c, derivs) := by
  refine ⟨?_, fun _ _ _ => rfl⟩
  have hsome : cp.performAction (PoleArith.exact R cos sin) output step_num ≠ none := by
    rw [Ne, performAction_eq_none]
    rintro ⟨hle, hidx⟩
    have h2 : step_num ≤ 1000 := by
      simpa [PoleArith.exact, Arith.exact] using hle
    exact hidx (jiggleIndex_exact cos sin step_num h h2)
  obtain ⟨cp1, hcp1⟩ := Option.ne_none_iff_exists'.mp hsome
  refine ⟨cp1, hcp1, ?_⟩
  have hst := performAction_state _ cp cp1 output step_num hcp1
  obtain ⟨e1, e3, e5, e0, e2, e4⟩ := integrate_exact cos sin output 2 cp
    (fun _ => (PoleArith.exact R cos sin).ratio 0 1)
    (by simp [PoleArith.exact, Arith.exact]) (by simp [PoleArith.exact, Arith.exact])
    (by simp [PoleArith.exact, Arith.exact])
  rw [hst, e1, e3, e5, e0, e2, e4]
  refine ⟨rfl, rfl, rfl, ?_, ?_, ?_⟩ <;> push_cast <;> ring

/-- C27 at an input: the cart at 0 with the velocity 1, the output 0 and the
step number 1. -/
theorem performAction_exact_witness :
    (1 : ℚ) ≤ 1 ∧
      ((∃ cp1 : CartPole ℚ,
        movingCartPole.performAction (PoleArith.exact ℚ (fun x => x) (fun x => x)) 0 1
            = some cp1 ∧
          cp1.state 1 = movingCartPole.state 1 ∧ cp1.state 3 = movingCartPole.state 3 ∧
          cp1.state 5 = movingCartPole.state 5 ∧
          cp1.state 0 = movingCartPole.state 0 + 2 / 100 * movingCartPole.state 1 ∧
          cp1.state 2 = movingCartPole.state 2 + 2 / 100 * movingCartPole.state 3 ∧
          cp1.state 4 = movingCartPole.state 4 + 2 / 100 * movingCartPole.state 5) ∧
        ∀ (c : CartPole ℚ) (action : ℚ) (derivs : Fin 6 → ℚ),
          c.step (PoleArith.exact ℚ (fun x => x) (fun x => x)) action derivs = (c, derivs)) :=
  ⟨le_refl 1, performAction_exact (fun x => x) (fun x => x) movingCartPole 0 1 (le_refl 1)⟩

/-! ### The jiggle window and the first step of `evalNet` -/

set_option maxRecDepth 100000 in
/-- The small integer constants of `evalNet` and `performAction` as `float64`
values. -/
theorem ofRatio_small :
    Float64.ofRatio 0 1 = Float64.ofInt 0 ∧ Float64.ofRatio 1 1 = Float64.ofInt 1 ∧
      Float64.ofRatio 2 1 = Float64.ofInt 2 ∧ Float64.ofRatio 99 1 = Float64.ofInt 99 ∧
      Float64.ofRatio 100 1 = Float64.ofInt 100 ∧
      Float64.ofRatio 1000 1 = Float64.ofInt 1000 := by
  decide

/-- The counter `steps` of `evalNet` is the integer `n` after `n` rounds, up to
`2^53`. -/
theorem stepsAfter_holdsInt (cos sin : Float64 → Float64) (n : Nat) (hn : n < 2 ^ 53) :
    Float64.holdsInt (stepsAfter (PoleArith.binary64 cos sin) n) (n : Int) := by
  induction n with
  | zero =>
    have := holdsInt_ofInt 0 (by norm_num)
    rw [← ofRatio_small.1] at this
    exact this
  | succ n ih =>
    have h1 := holdsInt_ofInt 1 (by norm_num)
    rw [← ofRatio_small.2.1] at h1
    have := holdsInt_add _ _ (n : Int) 1 (ih (by omega)) h1 (by omega)
    simpa [stepsAfter, PoleArith.binary64, Arith.binary64] using this

/-- The order of two integers as `float64` values. -/
theorem lt_holdsInt (x y : Float64) (a b : Int) (hx : Float64.holdsInt x a)
    (hy : Float64.holdsInt y b) : Float64.lt x y = decide (a < b) := by
  have hpos : (0 : Int) < (Float64.oneUnits : Int) := by exact_mod_cast oneUnits_pos
  simp only [Float64.lt, hx.1, hy.1, hx.2.2, hy.2.2, Bool.or_self, Bool.not_false,
    Bool.true_and]
  congr 1
  exact propext (mul_lt_mul_right hpos)

theorem mem_countRange (lo hi c : Int) : c ∈ countRange lo hi ↔ lo ≤ c ∧ c ≤ hi := by
  simp only [countRange, List.mem_map, List.mem_range]
  constructor
  · rintro ⟨k, hk, rfl⟩
    omega
  · rintro ⟨h1, h2⟩
    exact ⟨(c - lo).toNat, by omega, by omega⟩

theorem length_countRange (lo hi : Int) : (countRange lo hi).length = (hi + 1 - lo).toNat := by
  simp [countRange]

theorem getElem?_countRange (lo hi : Int) (i : Nat) (h : i < (hi + 1 - lo).toNat) :
    (countRange lo hi)[i]? = some (lo + (i : Int)) := by
  simp [countRange, List.getElem?_range h]

/-- The sum over indices in range does not fail. -/
theorem jiggleSum_isSome {R : Type} (P : PoleArith R) (cp : CartPole R) :
    ∀ (counts : List Int) (total : R), (∀ c ∈ counts, 0 ≤ c ∧ c < 1000) →
      jiggleSum P cp counts total ≠ none := by
  intro counts
  induction counts with
  | nil =>
    intro total _
    simp [jiggleSum]
  | cons c rest ih =>
    intro total h
    have hc := h c (List.mem_cons_self _ _)
    simp only [jiggleSum, dif_pos hc]
    exact ih _ (fun d hd => h d (List.mem_cons_of_mem _ hd))

/-- The loop that sums the last jiggle values, on its own: after `n` rounds with
`100 < n <= 1000` the sum is taken (`steps > 100.0`), the loop reads the indices
`n - 101` up to `n - 2` in this order, 100 of them, every index is in the range
0..999, and the sum does not fail. -/
theorem jiggle_reads_last_100 (cos sin : Float64 → Float64) (cp : CartPole Float64)
    (n : Nat) (h1 : 100 < n) (h2 : n ≤ 1000) :
    (PoleArith.binary64 cos sin).lt ((PoleArith.binary64 cos sin).ratio 100 1)
        (stepsAfter (PoleArith.binary64 cos sin) n) = true ∧
      jiggleCounts (PoleArith.binary64 cos sin) (stepsAfter (PoleArith.binary64 cos sin) n)
        = countRange ((n : Int) - 101) ((n : Int) - 2) ∧
      (jiggleCounts (PoleArith.binary64 cos sin)
        (stepsAfter (PoleArith.binary64 cos sin) n)).length = 100 ∧
      (∀ i : Nat, i < 100 →
        (jiggleCounts (PoleArith.binary64 cos sin)
          (stepsAfter (PoleArith.binary64 cos sin) n))[i]? = some ((n : Int) - 101 + i)) ∧
      (∀ c ∈ jiggleCounts (PoleArith.binary64 cos sin)
          (stepsAfter (PoleArith.binary64 cos sin) n), 0 ≤ c ∧ c < 1000) ∧
      jiggleSum (PoleArith.binary64 cos sin) cp
        (jiggleCounts (PoleArith.binary64 cos sin)
          (stepsAfter (PoleArith.binary64 cos sin) n))
        ((PoleArith.binary64 cos sin).ratio 0 1) ≠ none := by
  have hs := stepsAfter_holdsInt cos sin n (by
    have : (2 : Nat) ^ 53 = 9007199254740992 := by norm_num
    omega)
  have c2 := holdsInt_ofInt 2 (by norm_num)
  have c99 := holdsInt_ofInt 99 (by norm_num)
  have c100 := holdsInt_ofInt 100 (by norm_num)
  rw [← ofRatio_small.2.2.1] at c2
  rw [← ofRatio_small.2.2.2.1] at c99
  rw [← ofRatio_small.2.2.2.2.1] at c100
  have h53 : (2 : Nat) ^ 53 = 9007199254740992 := by norm_num
  have h63 : (2 : Nat) ^ 63 = 9223372036854775808 := by norm_num
  have d1 := holdsInt_sub _ _ _ _ hs c99 (by omega)
  have d2 := holdsInt_sub _ _ _ _ d1 c2 (by omega)
  have d3 := holdsInt_sub _ _ _ _ hs c2 (by omega)
  have lo := toInt_holdsInt _ _ d2 (by omega)
  have hi := toInt_holdsInt _ _ d3 (by omega)
  have hcounts : jiggleCounts (PoleArith.binary64 cos sin)
      (stepsAfter (PoleArith.binary64 cos sin) n)
        = countRange ((n : Int) - 101) ((n : Int) - 2) := by
    simp only [jiggleCounts]
    have e1 : (PoleArith.binary64 cos sin).toInt
        ((PoleArith.binary64 cos sin).sub
          ((PoleArith.binary64 cos sin).sub (stepsAfter (PoleArith.binary64 cos sin) n)
            ((PoleArith.binary64 cos sin).ratio 99 1))
          ((PoleArith.binary64 cos sin).ratio 2 1)) = (n : Int) - 101 := by
      have : ((n : Int) - 99 - 2) = (n : Int) - 101 := by omega
      rw [← this]
      exact lo
    have e2 : (PoleArith.binary64 cos sin).toInt
        ((PoleArith.binary64 cos sin).sub (stepsAfter (PoleArith.binary64 cos sin) n)
          ((PoleArith.binary64 cos sin).ratio 2 1)) = (n : Int) - 2 := hi
    rw [e1, e2]
  refine ⟨?_, hcounts, ?_, ?_, ?_, ?_⟩
  · have := lt_holdsInt _ _ _ _ c100 hs
    have hlt : ((100 : Int) < (n : Int)) := by omega
    rw [decide_eq_true hlt] at this
    exact this
  · rw [hcounts, length_countRange]
    omega
  · intro i hi
    rw [hcounts]
    exact getElem?_countRange _ _ i (by omega)
  · intro c hc
    rw [hcounts, mem_countRange] at hc
    omega
  · apply jiggleSum_isSome
    intro c hc
    rw [hcounts, mem_countRange] at hc
    omega

/-- The summation loop at an input: 150 rounds, with the identity in the place
of the cosine and the sine. -/
theorem jiggle_reads_last_100_witness :
    100 < 150 ∧ 150 ≤ 1000 ∧
      jiggleCounts (PoleArith.binary64 (fun x => x) (fun x => x))
          (stepsAfter (PoleArith.binary64 (fun x => x) (fun x => x)) 150)
        = countRange (((150 : Nat) : Int) - 101) (((150 : Nat) : Int) - 2) ∧
      (jiggleCounts (PoleArith.binary64 (fun x => x) (fun x => x))
        (stepsAfter (PoleArith.binary64 (fun x => x) (fun x => x)) 150)).length = 100 :=
  ⟨by decide, by decide,
    (jiggle_reads_last_100 (fun x => x) (fun x => x) usedCartPole 150 (by decide)
      (by decide)).2.1,
    (jiggle_reads_last_100 (fun x => x) (fun x => x) usedCartPole 150 (by decide)
      (by decide)).2.2.1⟩

/-- The operations of `PoleArith.binary64` are those of `Float64`. -/
theorem binary64_ops (cos sin : Float64 → Float64) :
    (∀ x y, (PoleArith.binary64 cos sin).lt x y = Float64.lt x y) ∧
      (∀ x y, (PoleArith.binary64 cos sin).le x y = Float64.le x y) ∧
      (∀ p q, (PoleArith.binary64 cos sin).ratio p q = Float64.ofRatio p q) ∧
      (∀ x, jiggleIndex (PoleArith.binary64 cos sin) x = wrapInt64 (Float64.toInt x - 1)) :=
  ⟨fun _ _ => rfl, fun _ _ => rfl, fun _ _ => rfl, fun _ => rfl⟩

set_option maxRecDepth 100000 in
/-- The first round of both loops of `evalNet`: the counter is 0, which is below
both bounds of the non-Markov loop and at most 1000, and the index of the write
to `jiggleStep` is -1. -/
theorem first_step_values :
    Float64.lt (Float64.ofRatio 0 1) (Float64.ofRatio 1000 1) = true ∧
      Float64.lt (Float64.ofRatio 0 1) (Float64.ofRatio 100000 1) = true ∧
      Float64.le (Float64.ofRatio 0 1) (Float64.ofRatio 1000 1) = true ∧
      wrapInt64 (Float64.toInt (Float64.ofRatio 0 1) - 1) = -1 := by
  decide

/-- For a `float64` step number of at most 1000 the index `int(step_num) - 1` is
in the range 0..999 exactly when the step number is at least 1. -/
theorem jiggleIndex_in_range_iff (cos sin : Float64 → Float64) (x : Float64)
    (hx : Float64.le x (Float64.ofRatio 1000 1) = true) :
    (0 ≤ jiggleIndex (PoleArith.binary64 cos sin) x ∧
        jiggleIndex (PoleArith.binary64 cos sin) x < 1000) ↔
      Float64.le (Float64.ofRatio 1 1) x = true := by
  have c1 := holdsInt_ofInt 1 (by norm_num)
  have c1000 := holdsInt_ofInt 1000 (by norm_num)
  rw [← ofRatio_small.2.1] at c1
  rw [← ofRatio_small.2.2.2.2.2] at c1000
  have hU := oneUnits_pos
  simp only [Float64.le, c1000.1, c1000.2.2, Bool.or_false, Bool.and_eq_true,
    Bool.not_eq_true', decide_eq_true_eq] at hx
  obtain ⟨hnan, hle⟩ := hx
  simp only [Float64.le, c1.1, c1.2.2, hnan, Bool.or_self, Bool.not_false, Bool.true_and,
    decide_eq_true_eq, one_mul]
  rw [(binary64_ops cos sin).2.2.2 x]
  simp only [Float64.toInt, hnan, Bool.false_or, decide_eq_true_eq, shiftRight_oneUnits]
  simp only [Float64.units] at hle ⊢
  have hone : 1 ≤ x.magUnits / Float64.oneUnits ↔ Float64.oneUnits ≤ x.magUnits := by
    rw [Nat.le_div_iff_mul_le hU, Nat.one_mul]
  have hq : x.signBit = false → x.magUnits / Float64.oneUnits ≤ 1000 := by
    intro hs
    simp only [hs, Bool.false_eq_true, if_false] at hle
    apply Nat.div_le_of_le_mul
    have : (x.magUnits : Int) ≤ ((Float64.oneUnits * 1000 : Nat) : Int) := by
      push_cast
      linarith
    exact_mod_cast this
  obtain ⟨q, hqdef⟩ : ∃ q, q = x.magUnits / Float64.oneUnits := ⟨_, rfl⟩
  rw [← hqdef] at hq ⊢
  by_cases hs : x.signBit = true
  · simp only [hs, if_true] at hle ⊢
    constructor
    · intro h
      exfalso
      simp only [wrapInt64] at h
      split_ifs at h <;> omega
    · intro h
      omega
  · simp only [hs, Bool.false_eq_true, if_false] at hle ⊢
    have hq := hq (by simpa using hs)
    rw [if_neg (by omega)]
    simp only [wrapInt64]
    constructor
    · intro h
      have : 1 ≤ q := by omega
      rw [hqdef] at this
      exact_mod_cast hone.mp this
    · intro h
      have : 1 ≤ q := by
        rw [hqdef]
        exact hone.mpr (by exact_mod_cast h)
      omega

/-- One round of the Markov loop in which the network activates and
`performAction` fails. -/
theorem markovLoop_fault {R S : Type} (P : PoleArith R) (N : NetModel R S) (fuel : Nat)
    (cp : CartPole R) (net : S) (steps : R) (hlt : P.lt steps cp.maxFitness = true)
    (hact : (N.Activate (N.LoadSensors net (markovInput P cp))).2 = true)
    (hfail : ∀ output : R, cp.performAction P output steps = none) :
    markovLoop P N (fuel + 1) cp net steps = Run.fault := by
  simp only [markovLoop, hlt, if_true, hact, Bool.not_true, Bool.false_eq_true, if_false]
  cases N.Output0 (N.Activate (N.LoadSensors net (markovInput P cp))).1 with
  | none => rfl
  | some output => simp only [hfail output]

/-- One round of the non-Markov loop in which the network activates and
`performAction` fails. -/
theorem nonMarkovLoop_fault {R S : Type} (P : PoleArith R) (N : NetModel R S) (fuel : Nat)
    (cp : CartPole R) (net : S) (non_markov_max steps : R)
    (hlt : P.lt steps non_markov_max = true)
    (hact : (N.Activate (N.LoadSensors net (nonMarkovInput P cp))).2 = true)
    (hfail : ∀ output : R, cp.performAction P output steps = none) :
    nonMarkovLoop P N non_markov_max (fuel + 1) cp net steps = Run.fault := by
  simp only [nonMarkovLoop, hlt, if_true, hact, Bool.not_true, Bool.false_eq_true, if_false]
  cases N.Output0 (N.Activate (N.LoadSensors net (nonMarkovInput P cp))).1 with
  | none => rfl
  | some output => simp only [hfail output]

theorem resetState_flags {R : Type} (A : Arith R) (cp : CartPole R) :
    (cp.resetState A).isMarkov = cp.isMarkov ∧
      (cp.resetState A).maxFitness = cp.maxFitness := by
  simp only [CartPole.resetState]
  split_ifs <;> exact ⟨rfl, rfl⟩

/-- The simulation `evalNet` fails in its first round when the loop is entered,
the network activates and `performAction` fails at the step number 0. -/
theorem evalNet_fault {R S : Type} (P : PoleArith R) (N : NetModel R S) (fuel : Nat)
    (cp : CartPole R) (net : S)
    (hmarkov : cp.isMarkov = true → P.lt (P.ratio 0 1) cp.maxFitness = true)
    (hlong : P.lt (P.ratio 0 1) (P.ratio 100000 1) = true)
    (hshort : P.lt (P.ratio 0 1) (P.ratio 1000 1) = true)
    (hact : (N.Activate (N.LoadSensors net (firstInput P cp))).2 = true)
    (hfail : ∀ (c : CartPole R) (output : R), c.performAction P output (P.ratio 0 1) = none) :
    cp.evalNet P N (fuel + 1) net = Run.fault := by
  obtain ⟨hm, hmax⟩ := resetState_flags P.toArith cp
  by_cases hmk : cp.isMarkov = true
  · have hloop := markovLoop_fault P N fuel (cp.resetState P.toArith) net (P.ratio 0 1)
      (by rw [hmax]; exact hmarkov hmk) (by simpa [firstInput, hmk] using hact)
      (hfail _)
    simp only [CartPole.evalNet, hm, hmk, if_true, hloop]
  · have hloop := nonMarkovLoop_fault P N fuel (cp.resetState P.toArith) net
      (if cp.nonMarkovLong = true then P.ratio 100000 1 else P.ratio 1000 1) (P.ratio 0 1)
      (by split_ifs; exact hlong; exact hshort) (by simpa [firstInput, hmk] using hact)
      (hfail _)
    simp only [CartPole.evalNet, hm, hmk, Bool.false_eq_true, if_false, hloop]

/-- At the step number 0 `performAction` fails for every cart-pole and every
output. -/
theorem performAction_zero (cos sin : Float64 → Float64) (c : CartPole Float64)
    (output : Float64) :
    c.performAction (PoleArith.binary64 cos sin) output
      ((PoleArith.binary64 cos sin).ratio 0 1) = none := by
  rw [performAction_eq_none, (binary64_ops cos sin).2.1, (binary64_ops cos sin).2.2.1,
    (binary64_ops cos sin).2.2.1, (binary64_ops cos sin).2.2.2, first_step_values.2.2.2]
  exact ⟨first_step_values.2.2.1, by omega⟩

/-- C28: for a step number of at most 1000 the write of `performAction` to
`jiggleStep` is in range exactly when the step number is at least 1, and
`performAction` fails otherwise; at the step number 0 the index is -1; and
`evalNet`, which passes 0 in the first round of both loops, fails in this round
when the loop is entered and the first activation of the network succeeds. -/
theorem evalNet_fails_at_first_step (cos sin : Float64 → Float64) {S : Type}
    (N : NetModel Float64 S) (fuel : Nat) (cp : CartPole Float64) (net : S) (x : Float64)
    (hx : Float64.le x (Float64.ofRatio 1000 1) = true)
    (hloop : cp.isMarkov = true → Float64.lt (Float64.ofRatio 0 1) cp.maxFitness = true)
    (hact : (N.Activate (N.LoadSensors net
      (firstInput (PoleArith.binary64 cos sin) cp))).2 = true) :
    ((0 ≤ jiggleIndex (PoleArith.binary64 cos sin) x ∧
          jiggleIndex (PoleArith.binary64 cos sin) x < 1000) ↔
        Float64.le (Float64.ofRatio 1 1) x = true) ∧
      (∀ (c : CartPole Float64) (output : Float64),
        c.performAction (PoleArith.binary64 cos sin) output x = none ↔
          Float64.le (Float64.ofRatio 1 1) x = false) ∧
      jiggleIndex (PoleArith.binary64 cos sin) (Float64.ofRatio 0 1) = -1 ∧
      (∀ (c : CartPole Float64) (output : Float64),
        c.performAction (PoleArith.binary64 cos sin) output (Float64.ofRatio 0 1) = none) ∧
      cp.evalNet (PoleArith.binary64 cos sin) N (fuel + 1) net = Run.fault := by
  have hiff := jiggleIndex_in_range_iff cos sin x hx
  refine ⟨hiff, ?_, ?_, performAction_zero cos sin, ?_⟩
  · intro c output
    rw [performAction_eq_none, hiff, (binary64_ops cos sin).2.1,
      (binary64_ops cos sin).2.2.1]
    constructor
    · rintro ⟨_, h⟩
      simpa using h
    · intro h
      exact ⟨hx, by simp [h]⟩
  · rw [(binary64_ops cos sin).2.2.2]
    exact first_step_values.2.2.2
  · have hlong : (PoleArith.binary64 cos sin).lt ((PoleArith.binary64 cos sin).ratio 0 1)
        ((PoleArith.binary64 cos sin).ratio 100000 1) = true := by
      rw [(binary64_ops cos sin).1, (binary64_ops cos sin).2.2.1,
        (binary64_ops cos sin).2.2.1]
      exact first_step_values.2.1
    have hshort : (PoleArith.binary64 cos sin).lt ((PoleArith.binary64 cos sin).ratio 0 1)
        ((PoleArith.binary64 cos sin).ratio 1000 1) = true := by
      rw [(binary64_ops cos sin).1, (binary64_ops cos sin).2.2.1,
        (binary64_ops cos sin).2.2.1]
      exact first_step_values.1
    have hmarkov : cp.isMarkov = true →
        (PoleArith.binary64 cos sin).lt ((PoleArith.binary64 cos sin).ratio 0 1)
          cp.maxFitness = true := by
      intro hmk
      rw [(binary64_ops cos sin).1, (binary64_ops cos sin).2.2.1]
      exact hloop hmk
    exact evalNet_fault (PoleArith.binary64 cos sin) N fuel cp net hmarkov hlong hshort hact
      (performAction_zero cos sin)

/-- C28 at an input: the step number 3, and a Markov cart-pole with a network
that activates. -/
theorem evalNet_fails_at_first_step_witness :
    Float64.le (Float64.ofRatio 3 1) (Float64.ofRatio 1000 1) = true ∧
      ((newCartPole Arith.binary64 true).isMarkov = true →
        Float64.lt (Float64.ofRatio 0 1) (newCartPole Arith.binary64 true).maxFitness
          = true) ∧
      (newCartPole Arith.binary64 true).evalNet
        (PoleArith.binary64 (fun x => x) (fun x => x)) constantNet 1 () = Run.fault :=
  ⟨by decide, fun _ => by decide,
    (evalNet_fails_at_first_step (fun x => x) (fun x => x) constantNet 0
      (newCartPole Arith.binary64 true) () (Float64.ofRatio 3 1) (by decide)
      (fun _ => by decide) rfl).2.2.2.2⟩

/-! ### The winner check of the non-Markov case -/

/-- The loop that looks for an unchecked species, when every species of a
non-empty slice is checked: it gives the position of the last species. -/
theorem findUnchecked_spec {R : Type} :
    ∀ (l : List (CheckedSpecies R)) (i : Nat) (curr : Option Nat),
      (∀ s ∈ l, s.IsChecked = true) → l ≠ [] →
        findUnchecked l i curr = some (i + l.length - 1) := by
  intro l
  induction l with
  | nil =>
    intro i curr _ hne
    exact absurd rfl hne
  | cons s rest ih =>
    intro i curr h _
    have hs : s.IsChecked = true := h s (List.mem_cons_self _ _)
    simp only [findUnchecked, hs, Bool.not_true, Bool.false_eq_true, if_false]
    by_cases hr : rest = []
    · subst hr
      simp [findUnchecked]
    · rw [ih (i + 1) (some i) (fun t ht => h t (List.mem_cons_of_mem _ ht)) hr]
      have : 0 < rest.length := List.length_pos.mpr hr
      simp only [List.length_cons]
      congr 1
      omega

/-- The position of the first unchecked species is what the loop gives when there
is one. -/
theorem findUnchecked_first {R : Type} :
    ∀ (l : List (CheckedSpecies R)) (i : Nat) (curr : Option Nat) (k : Nat)
      (_hk : k < l.length),
      (∀ j : Nat, j < k → ∃ s, l[j]? = some s ∧ s.IsChecked = true) →
      (∃ s, l[k]? = some s ∧ s.IsChecked = false) →
        findUnchecked l i curr = some (i + k) := by
  intro l
  induction l with
  | nil =>
    intro i curr k hk
    simp at hk
  | cons s rest ih =>
    intro i curr k hk hbefore hat
    cases k with
    | zero =>
      obtain ⟨t, ht, hc⟩ := hat
      simp only [List.getElem?_cons_zero, Option.some.injEq] at ht
      subst ht
      simp [findUnchecked, hc]
    | succ k =>
      obtain ⟨t, ht, hc⟩ := hbefore 0 (by omega)
      simp only [List.getElem?_cons_zero, Option.some.injEq] at ht
      subst ht
      simp only [findUnchecked, hc, Bool.not_true, Bool.false_eq_true, if_false]
      rw [ih (i + 1) (some i) k (by simpa using hk)
        (fun j hj => by simpa using hbefore (j + 1) (by omega))
        (by simpa using hat)]
      congr 1
      omega

/-- The species selected by the winner check when every species of a non-empty
slice stays checked: the last one. -/
theorem selectSpecies_all_checked {R : Type} (A : Arith R)
    (computeMax : CheckedSpecies R → R) (sorted_species : List (CheckedSpecies R))
    (hne : sorted_species ≠ [])
    (hall : ∀ s ∈ sorted_species, s.IsChecked = true ∧
      A.lt s.MaxFitnessEver (computeMax s) = false) :
    ∃ species, selectSpecies A computeMax sorted_species
      = some (sorted_species.length - 1, species) := by
  have hupd : updateChecked A computeMax sorted_species = sorted_species := by
    simp only [updateChecked]
    conv_rhs => rw [← List.map_id sorted_species]
    apply List.map_congr_left
    intro s hs
    simp [(hall s hs).2]
  have hfind := findUnchecked_spec sorted_species 0 none (fun s hs => (hall s hs).1) hne
  simp only [Nat.zero_add] at hfind
  simp only [selectSpecies, hupd, hfind]
  exact ⟨_, rfl⟩

/-- The species selected by the winner check when a species is unchecked after
the update of the flags: the first unchecked one, and it is checked afterwards. -/
theorem selectSpecies_first_unchecked {R : Type} (A : Arith R)
    (computeMax : CheckedSpecies R → R) (sorted_species : List (CheckedSpecies R)) (k : Nat)
    (hk : k < (updateChecked A computeMax sorted_species).length)
    (hbefore : ∀ j : Nat, j < k →
      ∃ s, (updateChecked A computeMax sorted_species)[j]? = some s ∧ s.IsChecked = true)
    (hat : ∃ s, (updateChecked A computeMax sorted_species)[k]? = some s ∧
      s.IsChecked = false) :
    ∃ species, selectSpecies A computeMax sorted_species = some (k, species) ∧
      ∃ s, species[k]? = some s ∧ s.IsChecked = true := by
  have hfind := findUnchecked_first (updateChecked A computeMax sorted_species) 0 none k hk
    hbefore hat
  simp only [Nat.zero_add] at hfind
  simp only [selectSpecies, hfind]
  refine ⟨_, rfl, ?_⟩
  obtain ⟨s, hs, _⟩ := hat
  refine ⟨{ s with IsChecked := true }, ?_, rfl⟩
  rw [List.getElem?_modify, hs]
  simp

set_option maxRecDepth 100000 in
/-- C23 (the code at the failing input): of two species that are both checked
and stay checked, the winner check selects the second one, at the position 1,
not the most fit species `sorted_species[0]`. -/
theorem selectSpecies_takes_last_checked :
    (checkedSpecies.map (fun s => s.IsChecked)) = [true, true] ∧
      (updateChecked Arith.binary64 firstFitness checkedSpecies).map
        (fun s => s.IsChecked) = [true, true] ∧
      findUnchecked (updateChecked Arith.binary64 firstFitness checkedSpecies) 0 none
        = some 1 ∧
      (selectSpecies Arith.binary64 firstFitness checkedSpecies).map (fun r => r.1)
        = some 1 := by
  decide

/-- The long test dereferences `generation.Best`: when this pointer is `nil` the
winner check fails, whatever the champion is. -/
theorem championTest_nil_best {R : Type} (A : Arith R)
    (evalNetOf : Nat → CartPole R → R × CartPole R) (cp : CartPole R)
    (orgs : List (Organism R)) (solved : Bool) (champion : Nat) :
    championTest A evalNetOf cp orgs { Solved := solved, Best := none } champion = none := by
  simp only [championTest, orgEvaluateAt]
  split <;> rfl

set_option maxRecDepth 100000 in
/-- C24 (the code at the failing input): the champion is the organism at the
position 0 and `generation.Best` points to the organism at the position 1. The
long test evaluates the organism at the position 1: its fitness becomes the 5 of
the simulation, and the champion keeps its fitness 2.0. When `generation.Best`
is `nil` the check fails. -/
theorem championTest_evaluates_best :
    (championTest Arith.binary64 fiveSteps (newCartPole Arith.binary64 false) twoOrganisms
        { Solved := false, Best := some 1 } 0).map (fun r => r.2.1.map (fun o => o.Fitness))
      = some [Float64.two, Float64.ofRatio 5 1] ∧
      twoOrganisms.map (fun o => o.Fitness) = [Float64.two, Float64.one] ∧
      (championTest Arith.binary64 fiveSteps (newCartPole Arith.binary64 false) twoOrganisms
        { Solved := false, Best := none } 0).isNone = true := by
  decide

/-! ### float64 arithmetic: bounds of a rounded result -/

/-- A magnitude of at most `k + 2097` binary digits is rounded to a finite
value. -/
theorem roundMag_finite (a k : Nat) (h0 : a ≠ 0)
    (hlen : Float64.bitLength a ≤ k + 2097) :
    Float64.roundMag a k < 0x7FF0000000000000 := by
  obtain ⟨_, hhi⟩ := bitLength_spec a h0
  generalize hL : Float64.bitLength a = L at hlen hhi
  simp only [Float64.roundMag, if_neg h0, hL, Nat.shiftRight_eq_div_pow, Nat.shiftLeft_eq,
    Nat.one_mul]
  generalize hs : max (L - 53) k = shift
  have hsk : shift - k ≤ 2044 := by
    rw [← hs]
    rcases le_total (L - 53) k with h | h
    · rw [max_eq_right h]
      omega
    · rw [max_eq_left h]
      omega
  have hsL : L ≤ 53 + shift := by
    have : L - 53 ≤ shift := by rw [← hs]; exact le_max_left _ _
    omega
  have hP : 0 < 2 ^ shift := Nat.two_pow_pos _
  have hm53 : a / 2 ^ shift < 2 ^ 53 := by
    rw [Nat.div_lt_iff_lt_mul hP, ← pow_add]
    exact lt_of_lt_of_le hhi (Nat.pow_le_pow_right (by decide) hsL)
  generalize a / 2 ^ shift = m at hm53
  have h53 : (2 : Nat) ^ 53 = 9007199254740992 := by norm_num
  have h52 : (2 : Nat) ^ 52 = 4503599627370496 := by norm_num
  rw [h53] at hm53
  rw [h52]
  split_ifs <;> omega

/-- Rounding does not cross a representable bound from below: when the
magnitude `a` is at most `n * 2^e`, a value of at most 53 binary digits at a
quantum not below that of the result, so is the rounded magnitude, which is
finite. -/
theorem roundMag_le (a k n e : Nat) (h0 : a ≠ 0) (ha : a ≤ n * 2 ^ e) (hn : n < 2 ^ 53)
    (hke : k ≤ e) (hek : e ≤ k + 2044) :
    Float64.roundMag a k < 0x7FF0000000000000 ∧
      Float64.magUnits ⟨Float64.roundMag a k⟩ * 2 ^ k ≤ n * 2 ^ e := by
  obtain ⟨hlo, _⟩ := bitLength_spec a h0
  have hlen : Float64.bitLength a ≤ e + 53 := by
    have h1 : 2 ^ (Float64.bitLength a - 1) < 2 ^ (53 + e) := by
      calc 2 ^ (Float64.bitLength a - 1) ≤ a := hlo
        _ ≤ n * 2 ^ e := ha
        _ < 2 ^ 53 * 2 ^ e := Nat.mul_lt_mul_of_pos_right hn (Nat.two_pow_pos e)
        _ = 2 ^ (53 + e) := (pow_add 2 53 e).symm
    have := (Nat.pow_lt_pow_iff_right (by decide : 1 < 2)).1 h1
    omega
  have hfin := roundMag_finite a k h0 (by omega)
  refine ⟨hfin, ?_⟩
  obtain ⟨m1, _, hmag, _, hup, _⟩ := roundMag_nearest a k h0 hfin
  rw [hmag]
  generalize hs : max (Float64.bitLength a - 53) k = shift at hup ⊢
  have hse : shift ≤ e := by
    rw [← hs]
    exact max_le (by omega) hke
  have hq : 0 < 2 ^ shift := Nat.two_pow_pos _
  have hsplit : n * 2 ^ e = (n * 2 ^ (e - shift)) * 2 ^ shift := by
    rw [Nat.mul_assoc, ← pow_add, Nat.sub_add_cancel hse]
  rw [hsplit] at ha ⊢
  generalize n * 2 ^ (e - shift) = N at ha ⊢
  generalize 2 ^ shift = q at hq ha hup ⊢
  have h2 : (2 * m1) * q ≤ (2 * N + 1) * q := by
    have : 2 * a ≤ 2 * (N * q) := Nat.mul_le_mul_left 2 ha
    calc (2 * m1) * q = 2 * (m1 * q) := Nat.mul_assoc _ _ _
      _ ≤ 2 * a + q := hup
      _ ≤ 2 * (N * q) + q := by omega
      _ = (2 * N + 1) * q := by ring
  have h3 := Nat.le_of_mul_le_mul_right h2 hq
  exact Nat.mul_le_mul_right q (by omega)

/-- Rounding does not cross a representable bound from above: when the
magnitude `a` is at least `n * 2^e`, a value of at most 53 binary digits, so is
the rounded magnitude. -/
theorem roundMag_ge (a k n e : Nat) (h0 : a ≠ 0) (ha : n * 2 ^ e ≤ a) (hn : n < 2 ^ 53)
    (hke : k ≤ e) (hfin : Float64.roundMag a k < 0x7FF0000000000000) :
    n * 2 ^ e ≤ Float64.magUnits ⟨Float64.roundMag a k⟩ * 2 ^ k := by
  obtain ⟨hlo, _⟩ := bitLength_spec a h0
  obtain ⟨m1, _, hmag, hdown, _, _⟩ := roundMag_nearest a k h0 hfin
  rw [hmag]
  generalize hL : Float64.bitLength a = L at hlo hdown ⊢
  generalize hs : max (L - 53) k = shift at hdown ⊢
  have hq : 0 < 2 ^ shift := Nat.two_pow_pos _
  rcases Nat.lt_or_ge e shift with hlt | hge
  · -- the bound lies below the binade of `a`
    have hshift : shift = L - 53 := by
      rw [← hs]
      rcases le_total (L - 53) k with h | h
      · rw [max_eq_right h] at hs
        omega
      · exact max_eq_left h
    have hLs : L - 1 = 52 + shift := by omega
    rw [hLs, pow_add] at hlo
    have hB : n * 2 ^ e ≤ 2 ^ 52 * 2 ^ shift := by
      have h1 : n * 2 ^ e ≤ 2 ^ 53 * 2 ^ e := Nat.mul_le_mul_right _ (le_of_lt hn)
      have h2 : 2 ^ 53 * 2 ^ e = 2 ^ 52 * 2 ^ (e + 1) := by
        rw [← pow_add, ← pow_add]
        congr 1
        omega
      have h3 : 2 ^ (e + 1) ≤ 2 ^ shift := Nat.pow_le_pow_right (by decide) hlt
      calc n * 2 ^ e ≤ 2 ^ 53 * 2 ^ e := h1
        _ = 2 ^ 52 * 2 ^ (e + 1) := h2
        _ ≤ 2 ^ 52 * 2 ^ shift := Nat.mul_le_mul_left _ h3
    refine le_trans hB ?_
    generalize 2 ^ shift = q at hq hlo hdown ⊢
    have h52 : (2 : Nat) ^ 52 = 4503599627370496 := by norm_num
    rw [h52] at hlo ⊢
    have h2 : (2 * 4503599627370496) * q ≤ (2 * m1 + 1) * q := by
      calc (2 * 4503599627370496) * q = 2 * (4503599627370496 * q) := Nat.mul_assoc _ _ _
        _ ≤ 2 * a := Nat.mul_le_mul_left 2 hlo
        _ ≤ 2 * (m1 * q) + q := hdown
        _ = (2 * m1 + 1) * q := by ring
    have h3 := Nat.le_of_mul_le_mul_right h2 hq
    exact Nat.mul_le_mul_right q (by omega)
  · have hsplit : n * 2 ^ e = (n * 2 ^ (e - shift)) * 2 ^ shift := by
      rw [Nat.mul_assoc, ← pow_add, Nat.sub_add_cancel hge]
    rw [hsplit] at ha ⊢
    generalize n * 2 ^ (e - shift) = N at ha ⊢
    generalize 2 ^ shift = q at hq ha hdown ⊢
    have h2 : (2 * N) * q ≤ (2 * m1 + 1) * q := by
      calc (2 * N) * q = 2 * (N * q) := Nat.mul_assoc _ _ _
        _ ≤ 2 * a := Nat.mul_le_mul_left 2 ha
        _ ≤ 2 * (m1 * q) + q := hdown
        _ = (2 * m1 + 1) * q := by ring
    have h3 := Nat.le_of_mul_le_mul_right h2 hq
    exact Nat.mul_le_mul_right q (by omega)

/-- The negation of a finite value: finite, with the opposite value. -/
theorem neg_fields (y : Float64) (hn : y.isNaN = false) (hi : y.isInf = false) :
    (Float64.neg y).isNaN = false ∧ (Float64.neg y).isInf = false ∧
      (Float64.neg y).units = -y.units := by
  have hexp : y.expField ≠ 2047 := by
    intro he
    simp only [Float64.isNaN, Float64.isInf, decide_eq_false_iff_not, he, true_and] at hn hi
    exact hn hi
  have hlt : y.bits % (1 <<< 63) < 0x7FF0000000000000 := by
    simp only [Float64.expField, Nat.shiftRight_eq_div_pow] at hexp
    simp only [Nat.shiftLeft_eq, Nat.one_mul]
    norm_num at hexp ⊢
    omega
  obtain ⟨h1, h2, h3, h4⟩ := withSign_fields (!y.signBit) _ hlt
  have hmag : Float64.magUnits ⟨y.bits % (1 <<< 63)⟩ = y.magUnits := by
    have e1 : Float64.expField ⟨y.bits % (1 <<< 63)⟩ = y.expField := by
      simp only [Float64.expField, Nat.shiftRight_eq_div_pow, Nat.shiftLeft_eq, Nat.one_mul]
      norm_num
      omega
    have e2 : Float64.fracField ⟨y.bits % (1 <<< 63)⟩ = y.fracField := by
      simp only [Float64.fracField, Nat.shiftLeft_eq, Nat.one_mul]
      norm_num
    simp only [Float64.magUnits, e1, e2]
  refine ⟨h2, h3, ?_⟩
  simp only [Float64.neg, Float64.units, h1, h4, hmag]
  cases hs : y.signBit <;> simp

/-- The absolute value of a finite value: finite, with the magnitude as its
value. -/
theorem abs_fields (x : Float64) (hn : x.isNaN = false) (hi : x.isInf = false) :
    (Float64.abs x).isNaN = false ∧ (Float64.abs x).isInf = false ∧
      (Float64.abs x).units = |x.units| := by
  have hexp : x.expField ≠ 2047 := by
    intro he
    simp only [Float64.isNaN, Float64.isInf, decide_eq_false_iff_not, he, true_and] at hn hi
    exact hn hi
  have hlt : x.bits % (1 <<< 63) < 0x7FF0000000000000 := by
    simp only [Float64.expField, Nat.shiftRight_eq_div_pow] at hexp
    simp only [Nat.shiftLeft_eq, Nat.one_mul]
    norm_num at hexp ⊢
    omega
  obtain ⟨h1, h2, h3, h4⟩ := withSign_fields false _ hlt
  have hmag : Float64.magUnits ⟨x.bits % (1 <<< 63)⟩ = x.magUnits := by
    have e1 : Float64.expField ⟨x.bits % (1 <<< 63)⟩ = x.expField := by
      simp only [Float64.expField, Nat.shiftRight_eq_div_pow, Nat.shiftLeft_eq, Nat.one_mul]
      norm_num
      omega
    have e2 : Float64.fracField ⟨x.bits % (1 <<< 63)⟩ = x.fracField := by
      simp only [Float64.fracField, Nat.shiftLeft_eq, Nat.one_mul]
      norm_num
    simp only [Float64.magUnits, e1, e2]
  have hw : Float64.withSign false (x.bits % (1 <<< 63)) = Float64.abs x := rfl
  rw [hw] at h1 h2 h3 h4
  refine ⟨h2, h3, ?_⟩
  simp only [Float64.units, h1, h4, hmag, Bool.false_eq_true, if_false]
  cases hs : x.signBit <;> simp

/-- The sum of two finite values whose exact sum lies between two representable
bounds, the lower one not negative: the rounded sum is finite and lies between
the same bounds. -/
theorem add_bounds (x y : Float64) (hxn : x.isNaN = false) (hxi : x.isInf = false)
    (hyn : y.isNaN = false) (hyi : y.isInf = false) (nl el nh eh : Nat)
    (hnl : nl < 2 ^ 53) (hnh : nh < 2 ^ 53) (heh : eh ≤ 2044)
    (hlo : ((nl * 2 ^ el : Nat) : Int) ≤ x.units + y.units)
    (hhi : x.units + y.units ≤ ((nh * 2 ^ eh : Nat) : Int)) :
    (Float64.add x y).isNaN = false ∧ (Float64.add x y).isInf = false ∧
      ((nl * 2 ^ el : Nat) : Int) ≤ (Float64.add x y).units ∧
      (Float64.add x y).units ≤ ((nh * 2 ^ eh : Nat) : Int) := by
  simp only [Float64.add, hxn, hyn, hxi, hyi, Bool.or_self, Bool.false_eq_true, if_false]
  generalize hB : nl * 2 ^ el = Bl at hlo ⊢
  generalize hC : nh * 2 ^ eh = Bh at hhi ⊢
  by_cases hz : x.units + y.units = 0
  · simp only [hz, if_true]
    obtain ⟨h1, h2, h3, h4⟩ := withSign_fields (x.signBit && y.signBit) 0 (by norm_num)
    have hm0 : Float64.magUnits ⟨0⟩ = 0 := by
      simp [Float64.magUnits, Float64.expField, Float64.fracField]
    have hu : (Float64.withSign (x.signBit && y.signBit) 0).units = 0 := by
      simp only [Float64.units, h4, hm0]
      split_ifs <;> simp
    rw [hz] at hlo hhi
    exact ⟨h2, h3, by rw [hu]; exact hlo, by rw [hu]; exact hhi⟩
  · simp only [hz, if_false]
    have hpos : 0 < x.units + y.units := by omega
    have hneg : decide (x.units + y.units < 0) = false := by
      simp only [decide_eq_false_iff_not]
      omega
    rw [hneg]
    generalize hs : x.units + y.units = s at hlo hhi hpos
    have ha0 : s.natAbs ≠ 0 := by omega
    have hup := roundMag_le s.natAbs 0 nh eh ha0 (by rw [hC]; omega) hnh (Nat.zero_le _)
      (by omega)
    have hdown := roundMag_ge s.natAbs 0 nl el ha0 (by rw [hB]; omega) hnl (Nat.zero_le _)
      hup.1
    rw [hC] at hup
    rw [hB] at hdown
    obtain ⟨h1, h2, h3, h4⟩ := withSign_fields false _ hup.1
    have hu : (Float64.withSign false (Float64.roundMag s.natAbs 0)).units =
        ((Float64.magUnits ⟨Float64.roundMag s.natAbs 0⟩ : Nat) : Int) := by
      simp only [Float64.units, h1, h4, Bool.false_eq_true, if_false]
    have hup2 := hup.2
    rw [pow_zero, Nat.mul_one] at hup2 hdown
    refine ⟨h2, h3, ?_, ?_⟩
    · rw [hu]
      exact_mod_cast hdown
    · rw [hu]
      exact_mod_cast hup2

/-- The difference of two finite values, with the bounds of `add_bounds`. -/
theorem sub_bounds (x y : Float64) (hxn : x.isNaN = false) (hxi : x.isInf = false)
    (hyn : y.isNaN = false) (hyi : y.isInf = false) (nl el nh eh : Nat)
    (hnl : nl < 2 ^ 53) (hnh : nh < 2 ^ 53) (heh : eh ≤ 2044)
    (hlo : ((nl * 2 ^ el : Nat) : Int) ≤ x.units - y.units)
    (hhi : x.units - y.units ≤ ((nh * 2 ^ eh : Nat) : Int)) :
    (Float64.sub x y).isNaN = false ∧ (Float64.sub x y).isInf = false ∧
      ((nl * 2 ^ el : Nat) : Int) ≤ (Float64.sub x y).units ∧
      (Float64.sub x y).units ≤ ((nh * 2 ^ eh : Nat) : Int) := by
  obtain ⟨h1, h2, h3⟩ := neg_fields y hyn hyi
  exact add_bounds x (Float64.neg y) hxn hxi h1 h2 nl el nh eh hnl hnh heh
    (by rw [h3]; omega) (by rw [h3]; omega)

/-- The product of two finite values whose exact magnitude lies between two
representable bounds: the rounded product is finite, has the sign of the exact
product and a magnitude between the same bounds. The magnitudes of the bounds
are in units of `2^-2148`. -/
theorem mul_bounds (x y : Float64) (hxn : x.isNaN = false) (hxi : x.isInf = false)
    (hyn : y.isNaN = false) (hyi : y.isInf = false) (nl el nh eh k : Nat) (hk : k = 1074)
    (hnl : nl < 2 ^ 53) (hnh : nh < 2 ^ 53) (hel : k ≤ el) (heh1 : k ≤ eh)
    (heh : eh ≤ k + 2044)
    (hlo : nl * 2 ^ el ≤ x.magUnits * y.magUnits)
    (hhi : x.magUnits * y.magUnits ≤ nh * 2 ^ eh) :
    (Float64.mul x y).isNaN = false ∧ (Float64.mul x y).isInf = false ∧
      (Float64.mul x y).signBit = (x.signBit != y.signBit) ∧
      nl * 2 ^ el ≤ (Float64.mul x y).magUnits * 2 ^ k ∧
      (Float64.mul x y).magUnits * 2 ^ k ≤ nh * 2 ^ eh := by
  have hmul : Float64.mul x y = Float64.withSign (x.signBit != y.signBit)
      (Float64.roundMag (x.magUnits * y.magUnits) k) := by
    subst hk
    simp only [Float64.mul, hxn, hyn, hxi, hyi, Bool.or_self, Bool.false_eq_true, if_false,
      Bool.false_and]
  rw [hmul]
  by_cases hz : x.magUnits * y.magUnits = 0
  · have hr : Float64.roundMag (x.magUnits * y.magUnits) k = 0 := by
      rw [hz]
      simp [Float64.roundMag]
    rw [hr]
    obtain ⟨h1, h2, h3, h4⟩ := withSign_fields (x.signBit != y.signBit) 0 (by norm_num)
    have hm0 : Float64.magUnits ⟨0⟩ = 0 := by
      simp [Float64.magUnits, Float64.expField, Float64.fracField]
    rw [h4, hm0, Nat.zero_mul]
    rw [hz] at hlo
    exact ⟨h2, h3, h1, hlo, Nat.zero_le _⟩
  · have hup := roundMag_le _ k nh eh hz hhi hnh heh1 heh
    have hdown := roundMag_ge _ k nl el hz hlo hnl hel hup.1
    obtain ⟨h1, h2, h3, h4⟩ := withSign_fields (x.signBit != y.signBit) _ hup.1
    rw [h4]
    exact ⟨h2, h3, h1, hdown, hup.2⟩

/-- What a comparison `x <= y` that holds says about the two values. -/
theorem le_fields (x y : Float64) (h : Float64.le x y = true) :
    x.isNaN = false ∧ y.isNaN = false ∧ x.units ≤ y.units := by
  simp only [Float64.le, Bool.and_eq_true, Bool.not_eq_true', Bool.or_eq_false_iff,
    decide_eq_true_eq] at h
  exact ⟨h.1.1, h.1.2, h.2⟩

/-- What a comparison `x < y` that holds says about the two values. -/
theorem lt_fields (x y : Float64) (h : Float64.lt x y = true) :
    x.isNaN = false ∧ y.isNaN = false ∧ x.units < y.units := by
  simp only [Float64.lt, Bool.and_eq_true, Bool.not_eq_true', Bool.or_eq_false_iff,
    decide_eq_true_eq] at h
  exact ⟨h.1.1, h.1.2, h.2⟩

/-- A value whose magnitude is below `2^2098` units is not an infinity. -/
theorem isInf_false_of_units (x : Float64) (e : Nat) (he : e = 2098)
    (hlo : -((2 ^ e : Nat) : Int) < x.units) (hhi : x.units < ((2 ^ e : Nat) : Int)) :
    x.isInf = false := by
  by_contra hc
  have hinf : x.isInf = true := by simpa using hc
  simp only [Float64.isInf, decide_eq_true_eq] at hinf
  have hmag : x.magUnits = 2 ^ 52 * 2 ^ 2046 := by
    simp only [Float64.magUnits, hinf.1, hinf.2, Nat.shiftLeft_eq, Nat.one_mul]
    norm_num
  have he2 : 2 ^ e = 2 ^ 52 * 2 ^ 2046 := by
    rw [he, ← pow_add]
  rw [he2] at hlo hhi
  rw [← hmag] at hlo hhi
  simp only [Float64.units] at hlo hhi
  split_ifs at hlo hhi <;> omega

/-! ### The XOR evaluator in float64 arithmetic -/

set_option maxRecDepth 100000 in
/-- The constants of `xor_evaluate` as `float64` values: they are finite and
their values in units of `2^-1074` are these; 3.96 and 0.001 are rounded. -/
theorem xor_constants :
    ((Float64.ofRatio 0 1).isNaN = false ∧ (Float64.ofRatio 0 1).isInf = false ∧
        (Float64.ofRatio 0 1).units = 0) ∧
      ((Float64.ofRatio 1 1).isNaN = false ∧ (Float64.ofRatio 1 1).isInf = false ∧
        (Float64.ofRatio 1 1).units = ((1 <<< 1074 : Nat) : Int)) ∧
      ((Float64.ofRatio 2 1).isNaN = false ∧
        (Float64.ofRatio 2 1).units = ((2 <<< 1074 : Nat) : Int)) ∧
      ((Float64.ofRatio 4 1).isNaN = false ∧ (Float64.ofRatio 4 1).isInf = false ∧
        (Float64.ofRatio 4 1).units = ((4 <<< 1074 : Nat) : Int)) ∧
      ((Float64.ofRatio 16 1).isNaN = false ∧
        (Float64.ofRatio 16 1).units = ((16 <<< 1074 : Nat) : Int)) ∧
      ((Float64.ofRatio 5 10).isNaN = false ∧
        (Float64.ofRatio 5 10).units = ((1 <<< 1073 : Nat) : Int)) ∧
      (Float64.ofRatio 396 100).units ≤ ((507 <<< 1067 : Nat) : Int) ∧
      ((Float64.ofRatio 1 1000).isNaN = false ∧
        (Float64.ofRatio 1 1000).units ≤ ((25 <<< 1060 : Nat) : Int)) := by
  decide

/-- An output in `[0, 1]` is a finite value between those of 0 and 1. -/
theorem unit_output_fields (o : Float64) (h0 : Float64.le (Float64.ofRatio 0 1) o = true)
    (h1 : Float64.le o (Float64.ofRatio 1 1) = true) :
    o.isNaN = false ∧ o.isInf = false ∧ 0 ≤ o.units ∧
      o.units ≤ (Float64.ofRatio 1 1).units := by
  obtain ⟨_, hn, hlo⟩ := le_fields _ _ h0
  obtain ⟨_, _, hhi⟩ := le_fields _ _ h1
  rw [xor_constants.1.2.2] at hlo
  have hone := xor_constants.2.1.2.2
  rw [Nat.shiftLeft_eq] at hone
  refine ⟨hn, ?_, hlo, hhi⟩
  exact isInf_false_of_units o 2098 rfl (by omega) (by omega)

/-- The sum of four finite values between 0 and `n * 2^g` units, added from the
left as `xor_evaluate` adds the four absolute errors: it is finite and lies
between 0 and `4 * n * 2^g` units. -/
theorem error_sum_bounds (t0 t1 t2 t3 : Float64) (n g : Nat) (hn : n ≤ 4) (hg : g ≤ 2044)
    (h0 : t0.isNaN = false ∧ t0.isInf = false ∧ 0 ≤ t0.units ∧
      t0.units ≤ ((n * 2 ^ g : Nat) : Int))
    (h1 : t1.isNaN = false ∧ t1.isInf = false ∧ 0 ≤ t1.units ∧
      t1.units ≤ ((n * 2 ^ g : Nat) : Int))
    (h2 : t2.isNaN = false ∧ t2.isInf = false ∧ 0 ≤ t2.units ∧
      t2.units ≤ ((n * 2 ^ g : Nat) : Int))
    (h3 : t3.isNaN = false ∧ t3.isInf = false ∧ 0 ≤ t3.units ∧
      t3.units ≤ ((n * 2 ^ g : Nat) : Int)) :
    (Float64.add (Float64.add (Float64.add t0 t1) t2) t3).isNaN = false ∧
      (Float64.add (Float64.add (Float64.add t0 t1) t2) t3).isInf = false ∧
      0 ≤ (Float64.add (Float64.add (Float64.add t0 t1) t2) t3).units ∧
      (Float64.add (Float64.add (Float64.add t0 t1) t2) t3).units ≤
        ((4 * n * 2 ^ g : Nat) : Int) := by
  obtain ⟨a0, b0, c0, d0⟩ := h0
  obtain ⟨a1, b1, c1, d1⟩ := h1
  obtain ⟨a2, b2, c2, d2⟩ := h2
  obtain ⟨a3, b3, c3, d3⟩ := h3
  have h53 : (2 : Nat) ^ 53 = 9007199254740992 := by norm_num
  obtain ⟨G, hG⟩ : ∃ G, n * 2 ^ g = G := ⟨_, rfl⟩
  have hG2 : 2 * n * 2 ^ g = 2 * G := by rw [← hG, Nat.mul_assoc]
  have hG3 : 3 * n * 2 ^ g = 3 * G := by rw [← hG, Nat.mul_assoc]
  have hG4 : 4 * n * 2 ^ g = 4 * G := by rw [← hG, Nat.mul_assoc]
  rw [hG] at d0 d1 d2 d3
  rw [hG4]
  push_cast at d0 d1 d2 d3 ⊢
  have s1 := add_bounds t0 t1 a0 b0 a1 b1 0 0 (2 * n) g (by omega) (by omega) hg
    (by push_cast; omega) (by rw [hG2]; push_cast; omega)
  rw [hG2] at s1
  push_cast at s1
  obtain ⟨a4, b4, c4, d4⟩ := s1
  have s2 := add_bounds _ t2 a4 b4 a2 b2 0 0 (3 * n) g (by omega) (by omega) hg
    (by push_cast; omega) (by rw [hG3]; push_cast; omega)
  rw [hG3] at s2
  push_cast at s2
  obtain ⟨a5, b5, c5, d5⟩ := s2
  have s3 := add_bounds _ t3 a5 b5 a3 b3 0 0 (4 * n) g (by omega) (by omega) hg
    (by push_cast; omega) (by rw [hG4]; push_cast; omega)
  rw [hG4] at s3
  push_cast at s3
  obtain ⟨a6, b6, c6, d6⟩ := s3
  exact ⟨a6, b6, by omega, d6⟩

/-- The absolute value of a finite value that is not negative. -/
theorem abs_of_nonneg_fields (x : Float64) (hn : x.isNaN = false) (hi : x.isInf = false)
    (h0 : 0 ≤ x.units) :
    (Float64.abs x).isNaN = false ∧ (Float64.abs x).isInf = false ∧
      (Float64.abs x).units = x.units := by
  obtain ⟨h1, h2, h3⟩ := abs_fields x hn hi
  exact ⟨h1, h2, by rw [h3, abs_of_nonneg h0]⟩

/-- The magnitude of a value that is not negative is its value. -/
theorem magUnits_of_nonneg (x : Float64) (h0 : 0 ≤ x.units) :
    (x.magUnits : Int) = x.units := by
  simp only [Float64.units] at h0 ⊢
  split_ifs at h0 ⊢ <;> omega

/-- The square of a magnitude of at most `n * 2^a`. -/
theorem sq_le_of_le (m n a b : Nat) (hb : b = a + a) (h : m ≤ n * 2 ^ a) :
    m * m ≤ (n * n) * 2 ^ b := by
  have : (n * 2 ^ a) * (n * 2 ^ a) = (n * n) * 2 ^ b := by
    rw [hb, pow_add]
    ring
  rw [← this]
  exact Nat.mul_le_mul h h

/-- The square of a magnitude of at least `n * 2^a`. -/
theorem sq_ge_of_ge (m n a b : Nat) (hb : b = a + a) (h : n * 2 ^ a ≤ m) :
    (n * n) * 2 ^ b ≤ m * m := by
  have : (n * 2 ^ a) * (n * 2 ^ a) = (n * n) * 2 ^ b := by
    rw [hb, pow_add]
    ring
  rw [← this]
  exact Nat.mul_le_mul h h

/-- A magnitude below `2^e` is at most the largest value of 53 binary digits
below `2^e`. -/
theorem magUnits_le_pred (x : Float64) (e : Nat) (he : 53 ≤ e) (h : x.magUnits < 2 ^ e) :
    x.magUnits ≤ (2 ^ 53 - 1) * 2 ^ (e - 53) := by
  have h52 : (2 : Nat) ^ 52 = 4503599627370496 := by norm_num
  have h53 : (2 : Nat) ^ 53 = 9007199254740992 := by norm_num
  have hfrac : x.fracField < 2 ^ 52 := by
    simp only [Float64.fracField, Nat.shiftLeft_eq, Nat.one_mul]
    exact Nat.mod_lt _ (Nat.two_pow_pos 52)
  have hq : 0 < 2 ^ (e - 53) := Nat.two_pow_pos _
  simp only [Float64.magUnits, Nat.shiftLeft_eq, Nat.one_mul] at h ⊢
  split_ifs at h ⊢ with hz
  · calc x.fracField ≤ (2 ^ 53 - 1) * 1 := by rw [h52] at hfrac; rw [h53]; omega
      _ ≤ (2 ^ 53 - 1) * 2 ^ (e - 53) := Nat.mul_le_mul_left _ hq
  · have hlt : 2 ^ (52 + (x.expField - 1)) < 2 ^ e := by
      calc 2 ^ (52 + (x.expField - 1)) = 2 ^ 52 * 2 ^ (x.expField - 1) := pow_add _ _ _
        _ ≤ (2 ^ 52 + x.fracField) * 2 ^ (x.expField - 1) :=
          Nat.mul_le_mul_right _ (Nat.le_add_right _ _)
        _ < 2 ^ e := h
    have hexp := (Nat.pow_lt_pow_iff_right (by decide : 1 < 2)).1 hlt
    calc (2 ^ 52 + x.fracField) * 2 ^ (x.expField - 1)
        ≤ (2 ^ 53 - 1) * 2 ^ (x.expField - 1) :=
          Nat.mul_le_mul_right _ (by rw [h52] at hfrac ⊢; rw [h53]; omega)
      _ ≤ (2 ^ 53 - 1) * 2 ^ (e - 53) :=
          Nat.mul_le_mul_left _ (Nat.pow_le_pow_right (by decide) (by omega))

/-- What a successful evaluation stores, in `float64` operations: the error is
the sum of the four absolute errors, added from the left, and the fitness is
the square of `4.0 - error_sum`; every operation is rounded. -/
theorem xor_success_binary64 (organism : Organism Float64) (out : Fin 4 → Float64) :
    (xor_evaluate Arith.binary64 organism true out).1.Error =
        Float64.add
          (Float64.add
            (Float64.add (Float64.abs (out 0))
              (Float64.abs (Float64.sub (Float64.ofRatio 1 1) (out 1))))
            (Float64.abs (Float64.sub (Float64.ofRatio 1 1) (out 2))))
          (Float64.abs (out 3)) ∧
      (xor_evaluate Arith.binary64 organism true out).1.Fitness =
        Float64.mul
          (Float64.sub (Float64.ofRatio 4 1)
            (xor_evaluate Arith.binary64 organism true out).1.Error)
          (Float64.sub (Float64.ofRatio 4 1)
            (xor_evaluate Arith.binary64 organism true out).1.Error) := by
  by_cases hc : xorWinner Arith.binary64 out = true
  · simp only [xor_evaluate, hc, if_true]
    exact ⟨rfl, rfl⟩
  · simp only [xor_evaluate, hc, if_true]
    exact ⟨rfl, rfl⟩

/-- The error sum of outputs in `[0, 1]` whose four absolute errors are at most
`n * 2^g` units: it is finite and lies between 0 and `4 * n * 2^g` units. -/
theorem xor_error_fields (organism : Organism Float64) (out : Fin 4 → Float64)
    (h01 : ∀ i, Float64.le (Float64.ofRatio 0 1) (out i) = true ∧
      Float64.le (out i) (Float64.ofRatio 1 1) = true)
    (n g : Nat) (hn : n ≤ 4) (hg : g ≤ 2044)
    (b0 : (out 0).units ≤ ((n * 2 ^ g : Nat) : Int))
    (b1 : (Float64.ofRatio 1 1).units - (out 1).units ≤ ((n * 2 ^ g : Nat) : Int))
    (b2 : (Float64.ofRatio 1 1).units - (out 2).units ≤ ((n * 2 ^ g : Nat) : Int))
    (b3 : (out 3).units ≤ ((n * 2 ^ g : Nat) : Int)) :
    (xor_evaluate Arith.binary64 organism true out).1.Error.isNaN = false ∧
      (xor_evaluate Arith.binary64 organism true out).1.Error.isInf = false ∧
      0 ≤ (xor_evaluate Arith.binary64 organism true out).1.Error.units ∧
      (xor_evaluate Arith.binary64 organism true out).1.Error.units ≤
        ((4 * n * 2 ^ g : Nat) : Int) := by
  rw [(xor_success_binary64 organism out).1]
  have h53 : (2 : Nat) ^ 53 = 9007199254740992 := by norm_num
  obtain ⟨n0, i0, l0, _⟩ := unit_output_fields _ (h01 0).1 (h01 0).2
  obtain ⟨n1, i1, _, u1⟩ := unit_output_fields _ (h01 1).1 (h01 1).2
  obtain ⟨n2, i2, _, u2⟩ := unit_output_fields _ (h01 2).1 (h01 2).2
  obtain ⟨n3, i3, l3, _⟩ := unit_output_fields _ (h01 3).1 (h01 3).2
  obtain ⟨c1n, c1i, _⟩ := xor_constants.2.1
  have t0 := abs_of_nonneg_fields _ n0 i0 l0
  have t3 := abs_of_nonneg_fields _ n3 i3 l3
  have hz : ((0 * 2 ^ 0 : Nat) : Int) = 0 := by norm_num
  have d1 := sub_bounds (Float64.ofRatio 1 1) (out 1) c1n c1i n1 i1 0 0 n g (by omega)
    (by omega) hg (by rw [hz]; omega) b1
  have d2 := sub_bounds (Float64.ofRatio 1 1) (out 2) c1n c1i n2 i2 0 0 n g (by omega)
    (by omega) hg (by rw [hz]; omega) b2
  rw [hz] at d1 d2
  have t1 := abs_of_nonneg_fields _ d1.1 d1.2.1 d1.2.2.1
  have t2 := abs_of_nonneg_fields _ d2.1 d2.2.1 d2.2.2.1
  exact error_sum_bounds _ _ _ _ n g hn hg
    ⟨t0.1, t0.2.1, by rw [t0.2.2]; exact l0, by rw [t0.2.2]; exact b0⟩
    ⟨t1.1, t1.2.1, by rw [t1.2.2]; exact d1.2.2.1, by rw [t1.2.2]; exact d1.2.2.2⟩
    ⟨t2.1, t2.2.1, by rw [t2.2.2]; exact d2.2.2.1, by rw [t2.2.2]; exact d2.2.2.2⟩
    ⟨t3.1, t3.2.1, by rw [t3.2.2]; exact l3, by rw [t3.2.2]; exact b3⟩

theorem shiftLeft_cast (n e : Nat) : ((n <<< e : Nat) : Int) = ((n * 2 ^ e : Nat) : Int) := by
  rw [Nat.shiftLeft_eq]

/-- The difference `4.0 - e` for a finite error sum `e` that is not negative and
leaves `4.0 - e` at least `nl * 2^el` units, a representable value: the rounded
difference is finite and lies between this bound and the value of 4.0. -/
theorem xor_diff_fields (e : Float64) (hen : e.isNaN = false) (hei : e.isInf = false)
    (he0 : 0 ≤ e.units) (nl el k : Nat) (hk : k = 1074) (hnl : nl < 2 ^ 53)
    (hlo : ((nl * 2 ^ el : Nat) : Int) ≤ (Float64.ofRatio 4 1).units - e.units) :
    (Float64.sub (Float64.ofRatio 4 1) e).isNaN = false ∧
      (Float64.sub (Float64.ofRatio 4 1) e).isInf = false ∧
      ((nl * 2 ^ el : Nat) : Int) ≤ (Float64.sub (Float64.ofRatio 4 1) e).units ∧
      (Float64.sub (Float64.ofRatio 4 1) e).units ≤ ((4 * 2 ^ k : Nat) : Int) := by
  have h53 : (2 : Nat) ^ 53 = 9007199254740992 := by norm_num
  obtain ⟨c4n, c4i, c4u⟩ := xor_constants.2.2.2.1
  have c4k : (Float64.ofRatio 4 1).units = ((4 * 2 ^ k : Nat) : Int) :=
    c4u.trans (by subst hk; exact shiftLeft_cast 4 1074)
  exact sub_bounds (Float64.ofRatio 4 1) e c4n c4i hen hei nl el 4 k hnl
    (by omega) (by omega) hlo (by rw [c4k]; omega)

/-- The square `x * x` of a finite value `x` that is not negative and lies
between two representable bounds, in units of `2^-k` for `k = 1074`: the rounded
square is finite and not negative, and its magnitude times `2^k` lies between
the squares of the bounds. -/
theorem square_fields (x : Float64) (xn : x.isNaN = false) (xi : x.isInf = false)
    (nl el nh eh k : Nat) (hk : k = 1074) (hnl : nl < 2 ^ 26) (hnh : nh < 2 ^ 26)
    (hel : k ≤ el + el) (heh1 : k ≤ eh + eh) (heh : eh + eh ≤ k + 2044)
    (xlo : ((nl * 2 ^ el : Nat) : Int) ≤ x.units)
    (xhi : x.units ≤ ((nh * 2 ^ eh : Nat) : Int)) :
    (Float64.mul x x).isNaN = false ∧
      (Float64.mul x x).units = (((Float64.mul x x).magUnits : Nat) : Int) ∧
      (nl * nl) * 2 ^ (el + el) ≤ (Float64.mul x x).magUnits * 2 ^ k ∧
      (Float64.mul x x).magUnits * 2 ^ k ≤ (nh * nh) * 2 ^ (eh + eh) := by
  have h53 : (2 : Nat) ^ 53 = 9007199254740992 := by norm_num
  have h26 : (2 : Nat) ^ 26 = 67108864 := by norm_num
  have hx0 : 0 ≤ x.units := le_trans (Int.natCast_nonneg _) xlo
  have hmag := magUnits_of_nonneg x hx0
  have mlo : nl * 2 ^ el ≤ x.magUnits := by
    have : ((nl * 2 ^ el : Nat) : Int) ≤ ((x.magUnits : Nat) : Int) := by
      rw [hmag]
      exact xlo
    exact_mod_cast this
  have mhi : x.magUnits ≤ nh * 2 ^ eh := by
    have : ((x.magUnits : Nat) : Int) ≤ ((nh * 2 ^ eh : Nat) : Int) := by
      rw [hmag]
      exact xhi
    exact_mod_cast this
  have plo := sq_ge_of_ge x.magUnits nl el (el + el) rfl mlo
  have phi := sq_le_of_le x.magUnits nh eh (eh + eh) rfl mhi
  have hsq : ∀ m : Nat, m < 2 ^ 26 → m * m < 2 ^ 53 := by
    intro m hm
    have h1 : m * m ≤ 67108864 * 67108864 := Nat.mul_le_mul (by omega) (by omega)
    omega
  obtain ⟨fn, _, fs, flo, fhi⟩ := mul_bounds x x xn xi xn xi (nl * nl) (el + el) (nh * nh)
    (eh + eh) k hk (hsq nl hnl) (hsq nh hnh) hel heh1 heh plo phi
  refine ⟨fn, ?_, flo, fhi⟩
  have hs : (Float64.mul x x).signBit = false := by
    rw [fs]
    cases x.signBit <;> rfl
  simp only [Float64.units, hs, Bool.false_eq_true, if_false]

/-- The square of a finite value that is not negative and below `2^e` units is
below `2^(2 e)`: its magnitude times `2^k`, for `k = 1074`, is at most the
largest value of 53 binary digits below `2^(2 e)`. -/
theorem square_below (x : Float64) (xn : x.isNaN = false) (xi : x.isInf = false)
    (e k : Nat) (hk : k = 1074) (he : 600 ≤ e) (he1 : e ≤ 1500)
    (hx0 : 0 ≤ x.units) (hx : x.units < ((2 ^ e : Nat) : Int)) :
    (Float64.mul x x).units = (((Float64.mul x x).magUnits : Nat) : Int) ∧
      (Float64.mul x x).magUnits * 2 ^ k ≤ (2 ^ 53 - 1) * 2 ^ (e + e - 53) := by
  have h53 : (2 : Nat) ^ 53 = 9007199254740992 := by norm_num
  have hmag := magUnits_of_nonneg x hx0
  have mlt : x.magUnits < 2 ^ e := by
    have : ((x.magUnits : Nat) : Int) < ((2 ^ e : Nat) : Int) := by
      rw [hmag]
      exact hx
    exact_mod_cast this
  have mle := magUnits_le_pred x e (by omega) mlt
  have phi : x.magUnits * x.magUnits ≤ (2 ^ 53 - 1) * 2 ^ (e + e - 53) := by
    have hexp : e + e - 53 = (e - 53) + 53 + (e - 53) := by omega
    calc x.magUnits * x.magUnits
        ≤ ((2 ^ 53 - 1) * 2 ^ (e - 53)) * ((2 ^ 53 - 1) * 2 ^ (e - 53)) :=
          Nat.mul_le_mul mle mle
      _ ≤ ((2 ^ 53 - 1) * 2 ^ (e - 53)) * (2 ^ 53 * 2 ^ (e - 53)) :=
          Nat.mul_le_mul_left _ (Nat.mul_le_mul_right _ (Nat.sub_le _ _))
      _ = (2 ^ 53 - 1) * 2 ^ (e + e - 53) := by
          rw [hexp, pow_add, pow_add]
          ring
  obtain ⟨_, _, fs, _, fhi⟩ := mul_bounds x x xn xi xn xi 0 k (2 ^ 53 - 1) (e + e - 53) k hk
    (by omega) (by omega) (le_refl _) (by omega) (by omega) (by omega) phi
  refine ⟨?_, fhi⟩
  have hs : (Float64.mul x x).signBit = false := by
    rw [fs]
    cases x.signBit <;> rfl
  simp only [Float64.units, hs, Bool.false_eq_true, if_false]

/-- The values of the `float64` constants 1, 4 and 16 in units of `2^-1074`, as
products with the power `2^k` for `k = 1074`. -/
theorem xor_constant_units (k : Nat) (hk : k = 1074) :
    (Float64.ofRatio 1 1).units = ((1 * 2 ^ k : Nat) : Int) ∧
      (Float64.ofRatio 2 1).units = ((2 * 2 ^ k : Nat) : Int) ∧
      (Float64.ofRatio 4 1).units = ((4 * 2 ^ k : Nat) : Int) ∧
      (Float64.ofRatio 16 1).units = ((16 * 2 ^ k : Nat) : Int) := by
  subst hk
  exact ⟨xor_constants.2.1.2.2.trans (shiftLeft_cast 1 1074),
    xor_constants.2.2.1.2.trans (shiftLeft_cast 2 1074),
    xor_constants.2.2.2.1.2.2.trans (shiftLeft_cast 4 1074),
    xor_constants.2.2.2.2.1.2.trans (shiftLeft_cast 16 1074)⟩

/-- C14 (amended): in `float64` arithmetic, for every organism whose activations
succeed with the four outputs in `[0, 1]`, `xor_evaluate` sets the error to the
rounded sum `|o0| + |1 - o1| + |1 - o2| + |o3|` and the fitness to the rounded
square of `4 - Error`, so that `0 <= Fitness <= 16`; the fitness is 16 exactly
when `4 - Error` rounds to 4, and it is 16 for the outputs `(0, 1, 1, 0)`. -/
theorem xor_fitness_binary64 (organism : Organism Float64) (out : Fin 4 → Float64)
    (h01 : ∀ i, Float64.le (Float64.ofRatio 0 1) (out i) = true ∧
      Float64.le (out i) (Float64.ofRatio 1 1) = true) :
    (xor_evaluate Arith.binary64 organism true out).1.Error =
        Float64.add
          (Float64.add
            (Float64.add (Float64.abs (out 0))
              (Float64.abs (Float64.sub (Float64.ofRatio 1 1) (out 1))))
            (Float64.abs (Float64.sub (Float64.ofRatio 1 1) (out 2))))
          (Float64.abs (out 3)) ∧
      (xor_evaluate Arith.binary64 organism true out).1.Fitness =
        Float64.mul
          (Float64.sub (Float64.ofRatio 4 1)
            (xor_evaluate Arith.binary64 organism true out).1.Error)
          (Float64.sub (Float64.ofRatio 4 1)
            (xor_evaluate Arith.binary64 organism true out).1.Error) ∧
      Float64.le (Float64.ofRatio 0 1)
        (xor_evaluate Arith.binary64 organism true out).1.Fitness = true ∧
      Float64.le (xor_evaluate Arith.binary64 organism true out).1.Fitness
        (Float64.ofRatio 16 1) = true ∧
      (Float64.le (Float64.ofRatio 16 1)
          (xor_evaluate Arith.binary64 organism true out).1.Fitness = true ↔
        Float64.le (Float64.ofRatio 4 1)
          (Float64.sub (Float64.ofRatio 4 1)
            (xor_evaluate Arith.binary64 organism true out).1.Error) = true) ∧
      (Float64.le (out 0) (Float64.ofRatio 0 1) = true ∧
          Float64.le (Float64.ofRatio 1 1) (out 1) = true ∧
          Float64.le (Float64.ofRatio 1 1) (out 2) = true ∧
          Float64.le (out 3) (Float64.ofRatio 0 1) = true →
        Float64.le (Float64.ofRatio 16 1)
          (xor_evaluate Arith.binary64 organism true out).1.Fitness = true) := by
  obtain ⟨hE, hF⟩ := xor_success_binary64 organism out
  obtain ⟨k, hk⟩ : ∃ k, k = 1074 := ⟨_, rfl⟩
  obtain ⟨c1, _, c4, c16⟩ := xor_constant_units k hk
  obtain ⟨_, _, c0⟩ := xor_constants.1
  obtain ⟨c4n, _, _⟩ := xor_constants.2.2.2.1
  obtain ⟨c16n, _⟩ := xor_constants.2.2.2.2.1
  obtain ⟨c0n, _, _⟩ := xor_constants.1
  obtain ⟨_, _, l0, u0⟩ := unit_output_fields _ (h01 0).1 (h01 0).2
  obtain ⟨_, _, l1, u1⟩ := unit_output_fields _ (h01 1).1 (h01 1).2
  obtain ⟨_, _, l2, u2⟩ := unit_output_fields _ (h01 2).1 (h01 2).2
  obtain ⟨_, _, l3, u3⟩ := unit_output_fields _ (h01 3).1 (h01 3).2
  have h53 : (2 : Nat) ^ 53 = 9007199254740992 := by norm_num
  have h26 : (2 : Nat) ^ 26 = 67108864 := by norm_num
  -- the error sum lies in [0, 4]
  obtain ⟨en, ei, e0, e4⟩ := xor_error_fields organism out h01 1 k (by omega) (by omega)
    (by rw [← c1]; exact u0) (by rw [← c1]; omega) (by rw [← c1]; omega)
    (by rw [← c1]; exact u3)
  -- the difference lies in [0, 4]
  obtain ⟨xn, xi, xlo, xhi⟩ := xor_diff_fields _ en ei e0 0 k k hk (by omega)
    (by rw [c4]; push_cast at e4 ⊢; omega)
  -- the fitness lies in [0, 16]
  obtain ⟨fn, fu, _, fhi⟩ := square_fields _ xn xi 0 k 4 k k hk (by omega) (by omega)
    (by omega) (by omega) (by omega) xlo xhi
  rw [← hF] at fn fu fhi
  -- the outputs (0, 1, 1, 0) leave the difference at 4
  have himp : Float64.le (out 0) (Float64.ofRatio 0 1) = true ∧
      Float64.le (Float64.ofRatio 1 1) (out 1) = true ∧
      Float64.le (Float64.ofRatio 1 1) (out 2) = true ∧
      Float64.le (out 3) (Float64.ofRatio 0 1) = true →
      ((4 * 2 ^ k : Nat) : Int) ≤ (Float64.sub (Float64.ofRatio 4 1)
        (xor_evaluate Arith.binary64 organism true out).1.Error).units := by
    rintro ⟨g0, g1, g2, g3⟩
    obtain ⟨_, _, v0⟩ := le_fields _ _ g0
    obtain ⟨_, _, v1⟩ := le_fields _ _ g1
    obtain ⟨_, _, v2⟩ := le_fields _ _ g2
    obtain ⟨_, _, v3⟩ := le_fields _ _ g3
    have hz : ((0 * 2 ^ 0 : Nat) : Int) = 0 := by norm_num
    have hz4 : ((4 * 0 * 2 ^ 0 : Nat) : Int) = 0 := by norm_num
    obtain ⟨_, _, _, ez⟩ := xor_error_fields organism out h01 0 0 (by omega) (by omega)
      (by rw [hz]; omega) (by rw [hz]; omega) (by rw [hz]; omega) (by rw [hz]; omega)
    rw [hz4] at ez
    exact (xor_diff_fields _ en ei e0 4 k k hk (by omega) (by rw [c4]; omega)).2.2.1
  generalize hFv : (xor_evaluate Arith.binary64 organism true out).1.Fitness = F at *
  generalize hXv : Float64.sub (Float64.ofRatio 4 1)
    (xor_evaluate Arith.binary64 organism true out).1.Error = x at *
  have hpow : 2 ^ (k + k) = 2 ^ k * 2 ^ k := pow_add 2 k k
  have hP : 0 < 2 ^ k := Nat.two_pow_pos k
  have hx0 : 0 ≤ x.units := le_trans (Int.natCast_nonneg _) xlo
  have hmagx := magUnits_of_nonneg x hx0
  have hle16 : F.magUnits ≤ 16 * 2 ^ k := by
    have h1 : F.magUnits * 2 ^ k ≤ (16 * 2 ^ k) * 2 ^ k := by
      calc F.magUnits * 2 ^ k ≤ 4 * 4 * 2 ^ (k + k) := fhi
        _ = (16 * 2 ^ k) * 2 ^ k := by rw [hpow]; ring
    exact Nat.le_of_mul_le_mul_right h1 hP
  have hiff : Float64.le (Float64.ofRatio 16 1) F = true ↔
      Float64.le (Float64.ofRatio 4 1) x = true := by
    simp only [Float64.le, c16n, c4n, fn, xn, Bool.or_self, Bool.not_false, Bool.true_and,
      decide_eq_true_eq]
    rw [c16, c4, fu]
    constructor
    · intro h16
      by_contra hlt
      have hx4 : x.units < ((2 ^ (k + 2) : Nat) : Int) := by
        have : (2 : Nat) ^ (k + 2) = 4 * 2 ^ k := by rw [pow_add]; ring
        rw [this]
        omega
      obtain ⟨_, hsq⟩ := square_below x xn xi (k + 2) k hk (by omega) (by omega) hx0 hx4
      rw [← hF] at hsq
      have hexp : k + 2 + (k + 2) - 53 = k + k - 49 := by omega
      rw [hexp] at hsq
      have hsplit : 2 ^ (k + k) = 2 ^ 49 * 2 ^ (k + k - 49) := by
        rw [← pow_add]
        congr 1
        omega
      have hQ : 0 < 2 ^ (k + k - 49) := Nat.two_pow_pos _
      have h49 : (2 : Nat) ^ 49 = 562949953421312 := by norm_num
      rw [h49] at hsplit
      rw [h53] at hsq
      have h16n : 16 * 2 ^ k ≤ F.magUnits := by exact_mod_cast h16
      have hB : (16 * 2 ^ k) * 2 ^ k ≤ F.magUnits * 2 ^ k := Nat.mul_le_mul_right _ h16n
      have hA : (16 * 2 ^ k) * 2 ^ k = 16 * 2 ^ (k + k) := by rw [hpow]; ring
      rw [hA, hsplit] at hB
      generalize 2 ^ (k + k - 49) = Q at hQ hsq hB
      generalize F.magUnits * 2 ^ k = P at hsq hB
      omega
    · intro h4
      obtain ⟨_, _, flo, _⟩ := square_fields x xn xi 4 k 4 k k hk (by omega) (by omega)
        (by omega) (by omega) (by omega) h4 xhi
      rw [← hF] at flo
      have h1 : (16 * 2 ^ k) * 2 ^ k ≤ F.magUnits * 2 ^ k := by
        calc (16 * 2 ^ k) * 2 ^ k = 4 * 4 * 2 ^ (k + k) := by rw [hpow]; ring
          _ ≤ F.magUnits * 2 ^ k := flo
      exact_mod_cast Nat.le_of_mul_le_mul_right h1 hP
  refine ⟨hE, hFv ▸ hF, ?_, ?_, hiff, ?_⟩
  · simp only [Float64.le, c0n, fn, Bool.or_self, Bool.not_false, Bool.true_and,
      decide_eq_true_eq]
    rw [c0, fu]
    exact Int.natCast_nonneg _
  · simp only [Float64.le, c16n, fn, Bool.or_self, Bool.not_false, Bool.true_and,
      decide_eq_true_eq]
    rw [c16, fu]
    exact_mod_cast hle16
  · intro hout
    rw [hiff]
    simp only [Float64.le, c4n, xn, Bool.or_self, Bool.not_false, Bool.true_and,
      decide_eq_true_eq]
    rw [c4]
    exact himp hout

set_option maxRecDepth 100000 in
/-- The outputs `(0.25, 0.75, 1, 0)` as `float64` values lie in `[0, 1]`. -/
theorem outputs_unit_interval_binary64 :
    ∀ i : Fin 4,
      Float64.le (Float64.ofRatio 0 1)
          (outputs (Float64.ofRatio 1 4) (Float64.ofRatio 3 4) (Float64.ofRatio 1 1)
            (Float64.ofRatio 0 1) i) = true ∧
        Float64.le
          (outputs (Float64.ofRatio 1 4) (Float64.ofRatio 3 4) (Float64.ofRatio 1 1)
            (Float64.ofRatio 0 1) i) (Float64.ofRatio 1 1) = true := by
  decide

/-- C14 (amended) at an input: the outputs `(0.25, 0.75, 1, 0)`. -/
theorem xor_fitness_binary64_witness :
    (∀ i : Fin 4,
      Float64.le (Float64.ofRatio 0 1)
          (outputs (Float64.ofRatio 1 4) (Float64.ofRatio 3 4) (Float64.ofRatio 1 1)
            (Float64.ofRatio 0 1) i) = true ∧
        Float64.le
          (outputs (Float64.ofRatio 1 4) (Float64.ofRatio 3 4) (Float64.ofRatio 1 1)
            (Float64.ofRatio 0 1) i) (Float64.ofRatio 1 1) = true) ∧
      Float64.le (Float64.ofRatio 0 1)
        (xor_evaluate Arith.binary64 (freshOrganism Arith.binary64) true
          (outputs (Float64.ofRatio 1 4) (Float64.ofRatio 3 4) (Float64.ofRatio 1 1)
            (Float64.ofRatio 0 1))).1.Fitness = true ∧
      Float64.le
        (xor_evaluate Arith.binary64 (freshOrganism Arith.binary64) true
          (outputs (Float64.ofRatio 1 4) (Float64.ofRatio 3 4) (Float64.ofRatio 1 1)
            (Float64.ofRatio 0 1))).1.Fitness (Float64.ofRatio 16 1) = true :=
  ⟨outputs_unit_interval_binary64,
    (xor_fitness_binary64 (freshOrganism Arith.binary64) _
      outputs_unit_interval_binary64).2.2.1,
    (xor_fitness_binary64 (freshOrganism Arith.binary64) _
      outputs_unit_interval_binary64).2.2.2.1⟩

set_option maxRecDepth 100000 in
/-- The winner bounds of C15 are attained in `float64` arithmetic: the outputs
`(0.5 - 2^-54, 0.5, 0.5, 0.5 - 2^-54)` make the organism a winner with the error
2.0 and the fitness 4.0. -/
theorem xor_winner_bounds_attained :
    (xor_evaluate Arith.binary64 (freshOrganism Arith.binary64) true
        (outputs ⟨0x3FDFFFFFFFFFFFFF⟩ (Float64.ofRatio 1 2) (Float64.ofRatio 1 2)
          ⟨0x3FDFFFFFFFFFFFFF⟩)).2 = true ∧
      Float64.lt ⟨0x3FDFFFFFFFFFFFFF⟩ (Float64.ofRatio 1 2) = true ∧
      (xor_evaluate Arith.binary64 (freshOrganism Arith.binary64) true
        (outputs ⟨0x3FDFFFFFFFFFFFFF⟩ (Float64.ofRatio 1 2) (Float64.ofRatio 1 2)
          ⟨0x3FDFFFFFFFFFFFFF⟩)).1.Error = Float64.ofRatio 2 1 ∧
      (xor_evaluate Arith.binary64 (freshOrganism Arith.binary64) true
        (outputs ⟨0x3FDFFFFFFFFFFFFF⟩ (Float64.ofRatio 1 2) (Float64.ofRatio 1 2)
          ⟨0x3FDFFFFFFFFFFFFF⟩)).1.Fitness = Float64.ofRatio 4 1 := by
  decide

/-- C15 (amended): in `float64` arithmetic, every organism that `xor_evaluate`
marks as winner after a successful activation with outputs in `[0, 1]` has an
error of at most 2 and a fitness of at least 4 (out of 16). -/
theorem xor_winner_fitness_binary64 (organism : Organism Float64) (out : Fin 4 → Float64)
    (h01 : ∀ i, Float64.le (Float64.ofRatio 0 1) (out i) = true ∧
      Float64.le (out i) (Float64.ofRatio 1 1) = true)
    (hw : (xor_evaluate Arith.binary64 organism true out).2 = true) :
    Float64.le (xor_evaluate Arith.binary64 organism true out).1.Error
        (Float64.ofRatio 2 1) = true ∧
      Float64.le (Float64.ofRatio 4 1)
        (xor_evaluate Arith.binary64 organism true out).1.Fitness = true := by
  obtain ⟨_, hF⟩ := xor_success_binary64 organism out
  obtain ⟨j, hj⟩ : ∃ j, j = 1073 := ⟨_, rfl⟩
  obtain ⟨k, hkj⟩ : ∃ k, k = j + 1 := ⟨_, rfl⟩
  have hk : k = 1074 := by omega
  obtain ⟨c1, c2, c4, _⟩ := xor_constant_units k hk
  obtain ⟨c4n, _, _⟩ := xor_constants.2.2.2.1
  obtain ⟨c2n, _⟩ := xor_constants.2.2.1
  obtain ⟨_, chalf⟩ := xor_constants.2.2.2.2.2.1
  obtain ⟨w0, w1, w2, w3⟩ := (xor_evaluate_winner Arith.binary64 organism true out).2.mp hw
  have hp : precision Arith.binary64 = Float64.ofRatio 5 10 := rfl
  have hq : oneMinusPrecision Arith.binary64 = Float64.ofRatio 5 10 := rfl
  have hlt : ∀ a b, Arith.binary64.lt a b = Float64.lt a b := fun _ _ => rfl
  have hle : ∀ a b, Arith.binary64.le a b = Float64.le a b := fun _ _ => rfl
  rw [hp, hlt] at w0 w3
  rw [hq, hle] at w1 w2
  obtain ⟨_, _, v0⟩ := lt_fields _ _ w0
  obtain ⟨_, _, v1⟩ := le_fields _ _ w1
  obtain ⟨_, _, v2⟩ := le_fields _ _ w2
  obtain ⟨_, _, v3⟩ := lt_fields _ _ w3
  -- one half is `2^(k - 1)` units
  have hhalf : (Float64.ofRatio 5 10).units = ((1 * 2 ^ j : Nat) : Int) := by
    subst hj
    exact chalf.trans (shiftLeft_cast 1 1073)
  have hsucc : 2 ^ k = 2 * 2 ^ j := by
    rw [hkj, pow_succ']
  rw [hhalf] at v0 v1 v2 v3
  have c1h : (Float64.ofRatio 1 1).units = ((2 * 2 ^ j : Nat) : Int) := by
    rw [c1, Nat.one_mul, hsucc]
  have h53 : (2 : Nat) ^ 53 = 9007199254740992 := by norm_num
  have h26 : (2 : Nat) ^ 26 = 67108864 := by norm_num
  obtain ⟨en, ei, e0, e2⟩ := xor_error_fields organism out h01 1 j (by omega)
    (by omega) (by omega) (by rw [c1h]; push_cast at v1 ⊢; omega)
    (by rw [c1h]; push_cast at v2 ⊢; omega) (by omega)
  have e2k : (xor_evaluate Arith.binary64 organism true out).1.Error.units ≤
      ((2 * 2 ^ k : Nat) : Int) := by
    rw [hsucc]
    push_cast at e2 ⊢
    omega
  obtain ⟨xn, xi, xlo, xhi⟩ := xor_diff_fields _ en ei e0 2 k k hk (by omega)
    (by rw [c4]; push_cast at e2k ⊢; omega)
  obtain ⟨fn, fu, flo, _⟩ := square_fields _ xn xi 2 k 4 k k hk (by omega) (by omega)
    (by omega) (by omega) (by omega) xlo xhi
  rw [← hF] at fn fu flo
  generalize (xor_evaluate Arith.binary64 organism true out).1.Fitness = F at fn fu flo ⊢
  constructor
  · simp only [Float64.le, c2n, en, Bool.or_self, Bool.not_false, Bool.true_and,
      decide_eq_true_eq]
    rw [c2]
    exact e2k
  · simp only [Float64.le, c4n, fn, Bool.or_self, Bool.not_false, Bool.true_and,
      decide_eq_true_eq]
    rw [c4, fu]
    have hpow : 2 ^ (k + k) = 2 ^ k * 2 ^ k := pow_add 2 k k
    have hP : 0 < 2 ^ k := Nat.two_pow_pos k
    have h1 : (4 * 2 ^ k) * 2 ^ k ≤ F.magUnits * 2 ^ k := by
      calc (4 * 2 ^ k) * 2 ^ k = 2 * 2 * 2 ^ (k + k) := by rw [hpow]; ring
        _ ≤ F.magUnits * 2 ^ k := flo
    exact_mod_cast Nat.le_of_mul_le_mul_right h1 hP

set_option maxRecDepth 100000 in
/-- The outputs `(0.25, 0.75, 0.75, 0.25)` as `float64` values lie in `[0, 1]`,
make the organism a winner and give an error of at most 3.96. -/
theorem outputs_winner_binary64 :
    (∀ i : Fin 4,
      Float64.le (Float64.ofRatio 0 1)
          (outputs (Float64.ofRatio 1 4) (Float64.ofRatio 3 4) (Float64.ofRatio 3 4)
            (Float64.ofRatio 1 4) i) = true ∧
        Float64.le
          (outputs (Float64.ofRatio 1 4) (Float64.ofRatio 3 4) (Float64.ofRatio 3 4)
            (Float64.ofRatio 1 4) i) (Float64.ofRatio 1 1) = true) ∧
      (xor_evaluate Arith.binary64 (freshOrganism Arith.binary64) true
        (outputs (Float64.ofRatio 1 4) (Float64.ofRatio 3 4) (Float64.ofRatio 3 4)
          (Float64.ofRatio 1 4))).2 = true ∧
      Float64.le
        (xor_evaluate Arith.binary64 (freshOrganism Arith.binary64) true
          (outputs (Float64.ofRatio 1 4) (Float64.ofRatio 3 4) (Float64.ofRatio 3 4)
            (Float64.ofRatio 1 4))).1.Error (Float64.ofRatio 396 100) = true := by
  decide

/-- C15 (amended) at an input: the outputs `(0.25, 0.75, 0.75, 0.25)`. -/
theorem xor_winner_fitness_binary64_witness :
    (xor_evaluate Arith.binary64 (freshOrganism Arith.binary64) true
        (outputs (Float64.ofRatio 1 4) (Float64.ofRatio 3 4) (Float64.ofRatio 3 4)
          (Float64.ofRatio 1 4))).2 = true ∧
      Float64.le
        (xor_evaluate Arith.binary64 (freshOrganism Arith.binary64) true
          (outputs (Float64.ofRatio 1 4) (Float64.ofRatio 3 4) (Float64.ofRatio 3 4)
            (Float64.ofRatio 1 4))).1.Error (Float64.ofRatio 2 1) = true ∧
      Float64.le (Float64.ofRatio 4 1)
        (xor_evaluate Arith.binary64 (freshOrganism Arith.binary64) true
          (outputs (Float64.ofRatio 1 4) (Float64.ofRatio 3 4) (Float64.ofRatio 3 4)
            (Float64.ofRatio 1 4))).1.Fitness = true :=
  ⟨outputs_winner_binary64.2.1,
    xor_winner_fitness_binary64 (freshOrganism Arith.binary64) _ outputs_winner_binary64.1
      outputs_winner_binary64.2.1⟩

/-- C17 (amended): in `float64` arithmetic, `xor_evaluate` assigns the fitness
0.001 on a failed activation, and this fitness is less than or equal to the
fitness it assigns on a successful activation with outputs in `[0, 1]` whose
error is at most 3.96. -/
theorem xor_failed_fitness_binary64 (organism : Organism Float64)
    (out failedOut : Fin 4 → Float64)
    (h01 : ∀ i, Float64.le (Float64.ofRatio 0 1) (out i) = true ∧
      Float64.le (out i) (Float64.ofRatio 1 1) = true)
    (herr : Float64.le (xor_evaluate Arith.binary64 organism true out).1.Error
      (Float64.ofRatio 396 100) = true) :
    (xor_evaluate Arith.binary64 organism false failedOut).1.Fitness =
        Float64.ofRatio 1 1000 ∧
      Float64.le (Float64.ofRatio 1 1000)
        (xor_evaluate Arith.binary64 organism true out).1.Fitness = true := by
  have hfail : (xor_evaluate Arith.binary64 organism false failedOut).1.Fitness =
      Float64.ofRatio 1 1000 := by
    by_cases hc : xorWinner Arith.binary64 failedOut = true
    · simp only [xor_evaluate, hc, if_true]
      rfl
    · simp only [xor_evaluate, hc]
      rfl
  refine ⟨hfail, ?_⟩
  obtain ⟨_, hF⟩ := xor_success_binary64 organism out
  obtain ⟨j, hj⟩ : ∃ j, j = 1060 := ⟨_, rfl⟩
  obtain ⟨i, hi⟩ : ∃ i, i = 1067 := ⟨_, rfl⟩
  obtain ⟨k, hki⟩ : ∃ k, k = 7 + i := ⟨_, rfl⟩
  have hk : k = 1074 := by omega
  obtain ⟨c1, _, c4, _⟩ := xor_constant_units k hk
  obtain ⟨cn, cu⟩ := xor_constants.2.2.2.2.2.2.2
  have c396 := xor_constants.2.2.2.2.2.2.1
  obtain ⟨_, _, uE⟩ := le_fields _ _ herr
  obtain ⟨_, _, l0, u0⟩ := unit_output_fields _ (h01 0).1 (h01 0).2
  obtain ⟨_, _, l1, u1⟩ := unit_output_fields _ (h01 1).1 (h01 1).2
  obtain ⟨_, _, l2, u2⟩ := unit_output_fields _ (h01 2).1 (h01 2).2
  obtain ⟨_, _, l3, u3⟩ := unit_output_fields _ (h01 3).1 (h01 3).2
  have h53 : (2 : Nat) ^ 53 = 9007199254740992 := by norm_num
  have h26 : (2 : Nat) ^ 26 = 67108864 := by norm_num
  obtain ⟨en, ei, e0, _⟩ := xor_error_fields organism out h01 1 k (by omega) (by omega)
    (by rw [← c1]; exact u0) (by rw [← c1]; omega) (by rw [← c1]; omega)
    (by rw [← c1]; exact u3)
  -- 3.96 is at most 507 * 2^i units and 0.001 at most 25 * 2^j units
  have c396j : (Float64.ofRatio 396 100).units ≤ ((507 * 2 ^ i : Nat) : Int) := by
    subst hi
    exact le_trans c396 (le_of_eq (shiftLeft_cast 507 1067))
  have cuj : (Float64.ofRatio 1 1000).units ≤ ((25 * 2 ^ j : Nat) : Int) := by
    subst hj
    exact le_trans cu (le_of_eq (shiftLeft_cast 25 1060))
  have hk7 : 2 ^ k = 128 * 2 ^ i := by
    rw [hki, pow_add]
    norm_num
  -- the difference is at least 5 * 2^i units
  obtain ⟨xn, xi, xlo, xhi⟩ := xor_diff_fields _ en ei e0 5 i k hk (by omega)
    (by
      rw [c4, hk7]
      push_cast at c396j ⊢
      omega)
  obtain ⟨fn, fu, flo, _⟩ := square_fields _ xn xi 5 i 4 k k hk (by omega)
    (by omega) (by omega) (by omega) (by omega) xlo xhi
  rw [← hF] at fn fu flo
  generalize (xor_evaluate Arith.binary64 organism true out).1.Fitness = F at fn fu flo ⊢
  simp only [Float64.le, cn, fn, Bool.or_self, Bool.not_false, Bool.true_and,
    decide_eq_true_eq]
  rw [fu]
  have hP : 0 < 2 ^ k := Nat.two_pow_pos k
  have h1 : (25 * 2 ^ j) * 2 ^ k ≤ F.magUnits * 2 ^ k := by
    have hsplit : 5 * 5 * 2 ^ (i + i) = (25 * 2 ^ j) * 2 ^ k := by
      rw [show i + i = j + k by omega, pow_add]
      ring
    rw [← hsplit]
    exact flo
  have h2 : 25 * 2 ^ j ≤ F.magUnits := Nat.le_of_mul_le_mul_right h1 hP
  have h3 : ((25 * 2 ^ j : Nat) : Int) ≤ ((F.magUnits : Nat) : Int) := by exact_mod_cast h2
  exact le_trans cuj h3

/-- C17 (amended) at an input: the failed activation against the successful
activation with the outputs `(0.25, 0.75, 0.75, 0.25)`. -/
theorem xor_failed_fitness_binary64_witness :
    Float64.le
        (xor_evaluate Arith.binary64 (freshOrganism Arith.binary64) true
          (outputs (Float64.ofRatio 1 4) (Float64.ofRatio 3 4) (Float64.ofRatio 3 4)
            (Float64.ofRatio 1 4))).1.Error (Float64.ofRatio 396 100) = true ∧
      (xor_evaluate Arith.binary64 (freshOrganism Arith.binary64) false
        (outputs (Float64.ofRatio 0 1) (Float64.ofRatio 0 1) (Float64.ofRatio 0 1)
          (Float64.ofRatio 0 1))).1.Fitness = Float64.ofRatio 1 1000 ∧
      Float64.le (Float64.ofRatio 1 1000)
        (xor_evaluate Arith.binary64 (freshOrganism Arith.binary64) true
          (outputs (Float64.ofRatio 1 4) (Float64.ofRatio 3 4) (Float64.ofRatio 3 4)
            (Float64.ofRatio 1 4))).1.Fitness = true :=
  ⟨outputs_winner_binary64.2.2,
    xor_failed_fitness_binary64 (freshOrganism Arith.binary64) _ _ outputs_winner_binary64.1
      outputs_winner_binary64.2.2⟩

/-! ### The jiggle summation is never reached -/

/-- The summation over indices in range adds the entries of `jiggleStep` at
these indices, in the order of the loop. -/
theorem jiggleSum_reads {R : Type} (P : PoleArith R) (cp : CartPole R) :
    ∀ (counts : List Int) (total : R), (∀ c ∈ counts, 0 ≤ c ∧ c < 1000) →
      jiggleSum P cp counts total =
        some (counts.foldl
          (fun t c => P.add t
            (cp.jiggleStep ⟨c.toNat % 1000, Nat.mod_lt _ (by decide)⟩)) total) := by
  intro counts
  induction counts with
  | nil =>
    intro total _
    rfl
  | cons c rest ih =>
    intro total h
    have hc := h c (List.mem_cons_self _ _)
    have hfin : (⟨c.toNat, by omega⟩ : Fin 1000) =
        ⟨c.toNat % 1000, Nat.mod_lt _ (by decide)⟩ :=
      Fin.ext (Nat.mod_eq_of_lt (by omega)).symm
    simp only [jiggleSum, dif_pos hc, List.foldl_cons]
    rw [ih _ (fun d hd => h d (List.mem_cons_of_mem _ hd)), hfin]

/-- The code after the loop, on its own: started with the counter after `n`
rounds, `100 < n <= 1000`, in the short evaluation (neither the long test nor
the generalization test), it adds the 100 entries of `jiggleStep` at the
indices `n - 101` up to `n - 2` and computes the fitness from this sum. -/
theorem nonMarkovFitness_after_steps (cos sin : Float64 → Float64) (cp : CartPole Float64)
    (n : Nat) (h1 : 100 < n) (h2 : n ≤ 1000) (hg : cp.generalizationTest = false)
    (hl : cp.nonMarkovLong = false) :
    nonMarkovFitness (PoleArith.binary64 cos sin) cp
        (stepsAfter (PoleArith.binary64 cos sin) n) =
      some
        (if cp.balanced_sum > 100 then
          Float64.add
            (Float64.div
              (Float64.mul (Float64.ofRatio 1 10) (Float64.ofInt cp.balanced_sum))
              (Float64.ofRatio 1000 1))
            (Float64.div (Float64.ofRatio 675 1000)
              ((countRange ((n : Int) - 101) ((n : Int) - 2)).foldl
                (fun t c => Float64.add t
                  (cp.jiggleStep ⟨c.toNat % 1000, Nat.mod_lt _ (by decide)⟩))
                (Float64.ofRatio 0 1)))
        else
          Float64.div
            (Float64.mul (Float64.ofRatio 1 10) (Float64.ofInt cp.balanced_sum))
            (Float64.ofRatio 1000 1)) := by
  obtain ⟨hlt, hcounts, _, _, hrange, _⟩ := jiggle_reads_last_100 cos sin cp n h1 h2
  have hsum := jiggleSum_reads (PoleArith.binary64 cos sin) cp
    (jiggleCounts (PoleArith.binary64 cos sin) (stepsAfter (PoleArith.binary64 cos sin) n))
    ((PoleArith.binary64 cos sin).ratio 0 1) hrange
  rw [hcounts] at hsum
  simp only [nonMarkovFitness, hg, hl, hlt, hcounts, hsum, Bool.false_eq_true, if_false,
    Bool.not_false, Bool.and_self, if_true]
  split_ifs <;> rfl

/-- The first round of the non-Markov loop, when `performAction` fails at the
step number 0: the loop ends in this round, by the failure or, when the network
does not activate, by the return of 0.0001. It does not leave the loop with a
step count. -/
theorem nonMarkovLoop_first_round {R S : Type} (P : PoleArith R) (N : NetModel R S)
    (fuel : Nat) (cp : CartPole R) (net : S) (non_markov_max : R)
    (hlt : P.lt (P.ratio 0 1) non_markov_max = true)
    (hfail : ∀ output : R, cp.performAction P output (P.ratio 0 1) = none) :
    nonMarkovLoop P N non_markov_max (fuel + 1) cp net (P.ratio 0 1) = Run.fault ∨
      nonMarkovLoop P N non_markov_max (fuel + 1) cp net (P.ratio 0 1) =
        Run.done (LoopEnd.returned (P.ratio 1 10000), cp,
          (N.Activate (N.LoadSensors net (nonMarkovInput P cp))).1) := by
  by_cases hact : (N.Activate (N.LoadSensors net (nonMarkovInput P cp))).2 = true
  · exact Or.inl (nonMarkovLoop_fault P N fuel cp net non_markov_max (P.ratio 0 1) hlt hact
      hfail)
  · right
    have hf : (N.Activate (N.LoadSensors net (nonMarkovInput P cp))).2 = false := by
      simpa using hact
    simp only [nonMarkovLoop, hlt, if_true, hf, Bool.not_false]

/-- C25 (the code at the failing input, and at every input): the short
non-Markov evaluation never reaches the sum of the last 100 jiggle values. For
every network, cart-pole and positive fuel the loop with the bound 1000 ends in
its first round, by a failure or by the return of 0.0001, and does not leave
the loop with a step count; the evaluation of a network that always activates
fails in the first round. -/
theorem jiggle_sum_never_reached (cos sin : Float64 → Float64) {S : Type}
    (N : NetModel Float64 S) (fuel : Nat) (cp : CartPole Float64) (net : S) :
    (nonMarkovLoop (PoleArith.binary64 cos sin) N (Float64.ofRatio 1000 1) (fuel + 1) cp net
          (Float64.ofRatio 0 1) = Run.fault ∨
        nonMarkovLoop (PoleArith.binary64 cos sin) N (Float64.ofRatio 1000 1) (fuel + 1) cp
          net (Float64.ofRatio 0 1) =
          Run.done (LoopEnd.returned (Float64.ofRatio 1 10000), cp,
            (N.Activate (N.LoadSensors net
              (nonMarkovInput (PoleArith.binary64 cos sin) cp))).1)) ∧
      (∀ (steps : Float64) (cp1 : CartPole Float64) (net1 : S),
        nonMarkovLoop (PoleArith.binary64 cos sin) N (Float64.ofRatio 1000 1) (fuel + 1) cp
          net (Float64.ofRatio 0 1) ≠ Run.done (LoopEnd.left steps, cp1, net1)) ∧
      (newCartPole Arith.binary64 false).evalNet (PoleArith.binary64 cos sin) constantNet
        (fuel + 1) () = Run.fault := by
  have hlt : (PoleArith.binary64 cos sin).lt ((PoleArith.binary64 cos sin).ratio 0 1)
      ((PoleArith.binary64 cos sin).ratio 1000 1) = true := by
    rw [(binary64_ops cos sin).1, (binary64_ops cos sin).2.2.1,
      (binary64_ops cos sin).2.2.1]
    exact first_step_values.1
  have hlong : (PoleArith.binary64 cos sin).lt ((PoleArith.binary64 cos sin).ratio 0 1)
      ((PoleArith.binary64 cos sin).ratio 100000 1) = true := by
    rw [(binary64_ops cos sin).1, (binary64_ops cos sin).2.2.1,
      (binary64_ops cos sin).2.2.1]
    exact first_step_values.2.1
  have hround := nonMarkovLoop_first_round (PoleArith.binary64 cos sin) N fuel cp net
    ((PoleArith.binary64 cos sin).ratio 1000 1) hlt (performAction_zero cos sin cp)
  rw [(binary64_ops cos sin).2.2.1, (binary64_ops cos sin).2.2.1,
    (binary64_ops cos sin).2.2.1] at hround
  refine ⟨hround, ?_, ?_⟩
  · intro steps cp1 net1 hleft
    rcases hround with h | h
    · rw [h] at hleft
      cases hleft
    · rw [h] at hleft
      cases hleft
  · exact evalNet_fault (PoleArith.binary64 cos sin) constantNet fuel
      (newCartPole Arith.binary64 false) () (fun h => by cases h) hlong hlt rfl
      (performAction_zero cos sin)

end GoNEAT
